import Mathlib

/-!
# nanotts: the streaming synthesis driver

A shallow embedding of `src/main.cpp`:

* `Boilerplate` (lines 135-246): the speed / pitch / volume markup strings
  and the status message;
* the `Nano` output consumers (lines 735-741, 832-853);
* `Pico::process` (lines 1221-1366): the chunked text feed, the PCM
  accumulator and its flushes, as a step function on an explicit state.

C strings are `List Char` (one `Char` per byte), PCM bytes are `Nat`,
machine integers are `Int` / `Nat` with explicit wrap-around.
-/

namespace NanoTTS

/-! ## binary32 values

A `float` is its IEEE-754 binary32 bit pattern.  Only the operations used by
`Boilerplate` are modelled: comparison with `-1`, `ceilf (x * 100.0f)`
converted to `int`, and printing with `%.2f`. -/

/-- Bit pattern of a C `float`. -/
abbrev F32 := Nat

/-- Bit pattern of `-1.0f`. -/
def F32.negOne : F32 := 0xBF800000

/-- Sign bit. -/
def F32.signBit (x : F32) : Bool := decide ((x / 2 ^ 31) % 2 = 1)

/-- Biased exponent field (8 bits). -/
def F32.expField (x : F32) : Nat := (x / 2 ^ 23) % 256

/-- Fraction field (23 bits). -/
def F32.fracField (x : F32) : Nat := x % 2 ^ 23

/-- Worker of `ilog2`: at most `fuel` halvings. -/
def ilog2Go : Nat → Nat → Nat
  | 0, _ => 0
  | fuel + 1, n => if n < 2 then 0 else ilog2Go fuel (n / 2) + 1

/-- Position of the highest set bit, `0` for `n < 2`. -/
def ilog2 (n : Nat) : Nat := ilog2Go n n

/-- The quotient `m / 2 ^ k` rounded to nearest, ties to even. -/
def roundShift (m k : Nat) : Nat :=
  let q := m / 2 ^ k
  let r := m % 2 ^ k
  if 2 * r < 2 ^ k then q
  else if 2 ^ k < 2 * r then q + 1
  else if q % 2 = 0 then q else q + 1

/-- Value of `INT_MIN`, the result of an out-of-range `float` to `int`
conversion on SSE hardware (the conversion is undefined in C). -/
def INT_MIN : Int := -2147483648

/-- The `int ivalue = ceilf( x * 100.0f )` of line 176.  The binary32 product
is the exact product rounded to a 24-bit significand (ties to even); `ceilf`
is exact; a NaN, an infinity or a result outside `int` converts to
`INT_MIN`. -/
def ivalueOf (x : F32) : Int :=
  if F32.expField x = 255 then INT_MIN
  else
    let mant : Nat := if F32.expField x = 0 then F32.fracField x else 2 ^ 23 + F32.fracField x
    let ex : Int := if F32.expField x = 0 then -149 else (F32.expField x : Int) - 150
    let prod : Nat := mant * 100
    let k : Nat := (ilog2 prod + 1) - 24
    let sig : Nat := roundShift prod k
    let e : Int := ex + k
    let r : Int :=
      if 0 ≤ e then
        (if F32.signBit x then -((sig * 2 ^ e.toNat : Nat) : Int) else ((sig * 2 ^ e.toNat : Nat) : Int))
      else if F32.signBit x then -((sig / 2 ^ (-e).toNat : Nat) : Int)
      else (((sig + 2 ^ (-e).toNat - 1) / 2 ^ (-e).toNat : Nat) : Int)
    if -2147483648 ≤ r ∧ r < 2147483648 then r else INT_MIN

/-! ## sprintf -/

/-- Worker of `decimalNat`: most significant digit first. -/
def decDigits : Nat → Nat → List Char
  | 0, _ => []
  | fuel + 1, n =>
    if n < 10 then [Nat.digitChar n]
    else decDigits fuel (n / 10) ++ [Nat.digitChar (n % 10)]

/-- Decimal digits of a natural number. -/
def decimalNat (n : Nat) : List Char := decDigits (n + 1) n

/-- What `%d` prints. -/
def decimal (v : Int) : List Char :=
  if v < 0 then '-' :: decimalNat v.natAbs else decimalNat v.toNat

/-- The call `sprintf( buf, fmt, ivalue )` for a format holding one `%d`. -/
def sprintf_d : List Char → Int → List Char
  | '%' :: 'd' :: rest, v => decimal v ++ rest
  | c :: rest, v => c :: sprintf_d rest v
  | [], _ => []

/-- What `%.2f` prints for a `float` argument (promoted to `double` without
change): the exact value rounded to two decimals, ties to even, as glibc does;
an infinity or a NaN prints as `inf` or `nan`, with the sign. -/
def sprintf_2f (x : F32) : List Char :=
  let sign : List Char := if F32.signBit x then ['-'] else []
  if F32.expField x = 255 then
    sign ++ (if F32.fracField x = 0 then "inf".toList else "nan".toList)
  else
    let mant : Nat := if F32.expField x = 0 then F32.fracField x else 2 ^ 23 + F32.fracField x
    let down : Nat := if F32.expField x = 0 then 149 else 150 - F32.expField x
    let hundredths : Nat := roundShift (mant * 100 * 2 ^ (F32.expField x - 150)) down
    sign ++ decimalNat (hundredths / 100) ++
      ['.', Nat.digitChar (hundredths / 10 % 10), Nat.digitChar (hundredths % 10)]

/-! ## Boilerplate (lines 135-246) -/

/-- The target of a `float * val` of `pads_t`: one of the three members. -/
inductive ValRef
  | speed
  | pitch
  | volume
  deriving DecidableEq, Repr

/-- Record `struct pads_t` (lines 135-140). -/
structure pads_t where
  name : List Char
  ofmt : List Char
  cfmt : List Char
  val : ValRef

/-- Data members of `class Boilerplate` (lines 150-155). -/
structure Boilerplate where
  plate_begin : List Char
  plate_end : List Char
  speed : F32
  pitch : F32
  volume : F32
  deriving DecidableEq

namespace Boilerplate

/-- The table `Boilerplate::pads[]` (lines 242-246), with `val` as bound by the
constructor (lines 198-200). -/
def pads : List pads_t :=
  [ ⟨"speed".toList, "<speed level=\"%d\">".toList, "</speed>".toList, ValRef.speed⟩,
    ⟨"pitch".toList, "<pitch level=\"%d\">".toList, "</pitch>".toList, ValRef.pitch⟩,
    ⟨"volume".toList, "<volume level=\"%d\">".toList, "</volume>".toList, ValRef.volume⟩ ]

/-- Read `*val`. -/
def getVal (b : Boilerplate) : ValRef → F32
  | ValRef.speed => b.speed
  | ValRef.pitch => b.pitch
  | ValRef.volume => b.volume

/-- Write `*val = value`. -/
def setVal (b : Boilerplate) (r : ValRef) (value : F32) : Boilerplate :=
  match r with
  | ValRef.speed => { b with speed := value }
  | ValRef.pitch => { b with pitch := value }
  | ValRef.volume => { b with volume := value }

/-- The default constructor (lines 190-201). -/
def new : Boilerplate :=
  { plate_begin := [], plate_end := [],
    speed := F32.negOne, pitch := F32.negOne, volume := F32.negOne }

/-- First loop of `setOne` (lines 163-168): set the first entry named `verb`. -/
def findAndSet : List pads_t → List Char → F32 → Boilerplate → Boilerplate
  | [], _, _, b => b
  | p :: ps, verb, value, b =>
    if p.name = verb then setVal b p.val value else findAndSet ps verb value b

/-- Second loop of `setOne` (lines 173-184): append the tags of every entry
whose value is not `-1`. -/
def rebuild : List pads_t → Boilerplate → Boilerplate
  | [], b => b
  | p :: ps, b =>
    if getVal b p.val ≠ F32.negOne then
      let ivalue := ivalueOf (getVal b p.val)
      let buf := sprintf_d p.ofmt ivalue
      rebuild ps { b with plate_begin := b.plate_begin ++ buf,
                          plate_end := p.cfmt ++ b.plate_end }
    else rebuild ps b

/-- Method `Boilerplate::setOne` (lines 159-185). -/
def setOne (b : Boilerplate) (verb : List Char) (value : F32) : Boilerplate :=
  rebuild pads { findAndSet pads verb value b with plate_begin := [], plate_end := [] }

/-- Method `isChanged` (lines 209-211). -/
def isChanged (b : Boilerplate) : Bool :=
  !(decide (b.speed = F32.negOne) && decide (b.pitch = F32.negOne)
    && decide (b.volume = F32.negOne))

/-- Method `getOpener` (line 213): the string and its `strlen`. -/
def getOpener (b : Boilerplate) : List Char × Nat := (b.plate_begin, b.plate_begin.length)

/-- Method `getCloser` (line 214). -/
def getCloser (b : Boilerplate) : List Char × Nat := (b.plate_end, b.plate_end.length)

/-- The loop of `getStatusMessage` (lines 231-237) from entry `ps` on, with
`buf` as filled so far: `sprintf( tmp, "%s: %.2f\n", name, *val )` and
`strcat( buf, tmp )` for every entry whose value is not `-1`.  The result is
`none` once a `sprintf` needs more than the 40 bytes of `tmp` or a `strcat`
more than the 100 bytes of `buf`, terminating NUL included. -/
def statusLoop : List pads_t → Boilerplate → List Char → Option (List Char)
  | [], _, buf => some buf
  | p :: ps, b, buf =>
    if getVal b p.val ≠ F32.negOne then
      let tmp := p.name ++ ": ".toList ++ sprintf_2f (getVal b p.val) ++ "\n".toList
      if tmp.length + 1 ≤ 40 ∧ buf.length + tmp.length + 1 ≤ 100 then
        statusLoop ps b (buf ++ tmp)
      else none
    else statusLoop ps b buf

/-- Method `getStatusMessage` (lines 226-239): the string returned, `none` when
the call writes past the end of `tmp` or of `buf`. -/
def getStatusMessage (b : Boilerplate) : Option (List Char) := statusLoop pads b []

/-- Method `setSpeed` (lines 216-218). -/
def setSpeed (b : Boilerplate) (f : F32) : Boilerplate := setOne b "speed".toList f

/-- Method `setPitch` (lines 219-221). -/
def setPitch (b : Boilerplate) (f : F32) : Boilerplate := setOne b "pitch".toList f

/-- Method `setVolume` (lines 222-224). -/
def setVolume (b : Boilerplate) (f : F32) : Boilerplate := setOne b "volume".toList f

/-- One public setter call, named by the member it sets. -/
def applySetter (b : Boilerplate) (c : ValRef × F32) : Boilerplate :=
  match c.1 with
  | ValRef.speed => setSpeed b c.2
  | ValRef.pitch => setPitch b c.2
  | ValRef.volume => setVolume b c.2

/-- A sequence of setter calls, first call first. -/
def applySetters (b : Boilerplate) (cs : List (ValRef × F32)) : Boilerplate :=
  cs.foldl applySetter b

end Boilerplate

/-! ## Output consumers of `Nano` (lines 269-275, 735-741, 832-853) -/

/-- Value of `OUT_STDOUT`. -/
def OUT_STDOUT : Nat := 1

/-- Value of `OUT_SINGLE_FILE`. -/
def OUT_SINGLE_FILE : Nat := 2

/-- Value of `OUT_PLAYBACK`. -/
def OUT_PLAYBACK : Nat := 4

/-- Value of `PICO_STEP_IDLE` (picodefs.h). -/
def PICO_STEP_IDLE : Int := 200

/-- Value of `PICO_STEP_BUSY` (picodefs.h). -/
def PICO_STEP_BUSY : Int := 201

/-- An observable call made by the program, with its arguments (a pointer
argument is recorded as the bytes it points to) and, where the program reads
it, its result. -/
inductive Event
  /-- Call `pico_putTextUtf8( engine, inp, size, &bytes_sent )`: source buffer and
  offset of `inp`, the bytes offered, `size`, the status and `bytes_sent`. -/
  | putText (src : Nat) (off : Int) (offered : List Char) (size : Int) (ret : Int)
      (bytes_sent : Int)
  /-- Call `pico_getData`: its status and the bytes it stored in `outbuf`. -/
  | getData (getstatus : Int) (frag : List Nat)
  /-- Call `memcpy( pcm_buffer + off, outbuf, len )`. -/
  | memcpy (off : Nat) (len : Nat)
  /-- Call `picoos_sdfOpenOut`. -/
  | sdfOpenOut (ok : Bool)
  /-- Call `picoos_sdfPutSamples( sdOutFile, n, pcm_buffer )`. -/
  | sdfPutSamples (n : Nat) (buf : List Nat) (ok : Bool)
  /-- Call `fwrite( data, 2, shorts, out_fp )`. -/
  | fwrite (data : List Nat) (shorts : Nat)
  /-- Call `streamHandler.SubmitFrames( data, shorts )`. -/
  | SubmitFrames (data : List Nat) (shorts : Nat)
  /-- Call `picoos_sdfCloseOut`. -/
  | sdfCloseOut
  /-- Call `fileSize( out_filename )` (line 1361): its result, which line 1362
  prints as the byte count of the file. -/
  | fileSize (bytes : Int)
  deriving DecidableEq

/-- The member function a `Listener` is bound to by `setCallback`. -/
inductive Consumer
  | write_short_to_stdout
  | write_short_to_playback
  | write_short_to_playback_and_stdout
  deriving DecidableEq

/-- A `Listener<short>` (lines 94-131): its `consume` callback (none for the
null pointer) and the `out_mode` of the `Nano` it calls back. -/
structure Listener where
  consume : Option Consumer
  out_mode : Nat
  deriving DecidableEq

/-- Method `Nano::write_short_to_stdout` (lines 832-835). -/
def write_short_to_stdout (out_mode : Nat) (data : List Nat) (shorts : Nat) : List Event :=
  if out_mode &&& OUT_STDOUT ≠ 0 then [Event.fwrite data shorts] else []

/-- Method `Nano::write_short_to_playback` (lines 837-840). -/
def write_short_to_playback (out_mode : Nat) (data : List Nat) (shorts : Nat) : List Event :=
  if out_mode &&& OUT_PLAYBACK ≠ 0 then [Event.SubmitFrames data shorts] else []

/-- Method `Nano::write_short_to_playback_and_stdout` (lines 842-847). -/
def write_short_to_playback_and_stdout (out_mode : Nat) (data : List Nat) (shorts : Nat) :
    List Event :=
  (if out_mode &&& OUT_STDOUT ≠ 0 then [Event.fwrite data shorts] else [])
    ++ (if out_mode &&& OUT_PLAYBACK ≠ 0 then [Event.SubmitFrames data shorts] else [])

/-- Method `Listener::writeData` (lines 113-119). -/
def Listener.writeData (l : Listener) (data : List Nat) (byte_size : Nat) : List Event :=
  match l.consume with
  | some Consumer.write_short_to_stdout => write_short_to_stdout l.out_mode data byte_size
  | some Consumer.write_short_to_playback => write_short_to_playback l.out_mode data byte_size
  | some Consumer.write_short_to_playback_and_stdout =>
    write_short_to_playback_and_stdout l.out_mode data byte_size
  | none => []

/-- The listener selection at the end of `Nano::setup_input_output`
(lines 735-741), from a listener without callback. -/
def setup_input_output (out_mode : Nat) : Listener :=
  if out_mode &&& (OUT_PLAYBACK ||| OUT_STDOUT) = (OUT_PLAYBACK ||| OUT_STDOUT) then
    { consume := some Consumer.write_short_to_playback_and_stdout, out_mode := out_mode }
  else if out_mode &&& OUT_PLAYBACK ≠ 0 then
    { consume := some Consumer.write_short_to_playback, out_mode := out_mode }
  else if out_mode &&& OUT_STDOUT ≠ 0 then
    { consume := some Consumer.write_short_to_stdout, out_mode := out_mode }
  else { consume := none, out_mode := out_mode }

/-- Method `Nano::getListener` (lines 849-853). -/
def getListener (l : Listener) : Option Listener :=
  if l.consume.isSome then some l else none

/-- Method `Nano::getModifiers` (lines 855-859). -/
def getModifiers (modifiers : Boilerplate) : Option Boilerplate :=
  if modifiers.isChanged then some modifiers else none

/-! ## Pico::process (lines 1221-1366) -/

/-- Conversion to `pico_Int16`. -/
def wrap16 (x : Int) : Int := (x + 32768) % 65536 - 32768

/-- Conversion to `int`. -/
def wrap32 (x : Int) : Int := (x + 2147483648) % 4294967296 - 2147483648

/-- The external collaborators of `Pico::process`, as functions on a state
`σ` of the outside world: the engine's two calls, the WAV file sink and the
size `fileSize` reads back for the file once it is closed. -/
structure World (σ : Type) where
  /-- For `pico_putTextUtf8`: bytes offered and `size` to status, `bytes_sent`. -/
  pico_putTextUtf8 : σ → List Char → Int → Int × Int × σ
  /-- For `pico_getData`: status and the bytes stored in `outbuf`. -/
  pico_getData : σ → Int × List Nat × σ
  /-- For `picoos_sdfOpenOut`: whether it returned `TRUE`. -/
  picoos_sdfOpenOut : σ → Bool × σ
  /-- For `picoos_sdfPutSamples`: sample count and buffer to its result. -/
  picoos_sdfPutSamples : σ → Nat → List Nat → Bool × σ
  /-- For `fileSize( out_filename )` after the file was closed: its result. -/
  fileSize : σ → Int

/-- The members of `Pico` that `process` reads (lines 965-982). -/
structure Pico where
  local_text : List Char
  total_text_length : Int
  text_remaining : Int
  sdOutFile : Bool
  listener : Option Listener
  modifiers : Option Boilerplate
  pico_writeWavPcm : Bool

/-- The constructor `Pico::Pico` (lines 1004-1027). -/
def Pico.new : Pico :=
  { local_text := [], total_text_length := 0, text_remaining := 0, sdOutFile := false,
    listener := none, modifiers := none, pico_writeWavPcm := false }

/-- Method `sendTextForProcessing` (lines 1215-1219). -/
def Pico.sendTextForProcessing (p : Pico) (words : List Char) (word_len : Int) : Pico :=
  { p with local_text := words, total_text_length := word_len }

/-- Method `setListener` (lines 1385-1387). -/
def Pico.setListener (p : Pico) (l : Option Listener) : Pico := { p with listener := l }

/-- Method `addModifiers` (lines 1389-1391). -/
def Pico.addModifiers (p : Pico) (m : Option Boilerplate) : Pico := { p with modifiers := m }

/-- Method `writeWavePcm` (line 1000). -/
def Pico.writeWavePcm (p : Pico) : Pico := { p with pico_writeWavPcm := true }

/-- Source buffer tag of `inp`: the opener string. -/
def SRC_OPENER : Nat := 0

/-- Source buffer tag of `inp`: `local_text`. -/
def SRC_TEXT : Nat := 1

/-- Source buffer tag of `inp`: the closer string. -/
def SRC_CLOSER : Nat := 2

/-- The bytes of the buffer a value of `inp` points into. -/
def Pico.mem (p : Pico) (src : Nat) : List Char :=
  if src = SRC_TEXT then p.local_text
  else match p.modifiers with
    | some b => if src = SRC_OPENER then (Boilerplate.getOpener b).1 else (Boilerplate.getCloser b).1
    | none => []

/-- Control point of `process`. -/
inductive Pc
  /-- At the head of the synthesis loop (line 1263). -/
  | feed
  /-- At the head of the `do` loop (line 1307). -/
  | drain
  /-- After `return ret`. -/
  | returned (ret : Int)
  deriving DecidableEq

/-- The locals of `process` and the members it writes, the state of the
outside world, and the calls made so far (oldest first). -/
structure PState (σ : Type) where
  pc : Pc
  world : σ
  inpSrc : Nat
  inpOff : Int
  text_remaining : Int
  text_length : Int
  do_startpad : Bool
  do_endpad : Bool
  bufused : Nat
  pcm_buffer : List Nat
  done : Bool
  sdOutFile : Bool
  /-- What line 1243 printed: the string `getStatusMessage` returned (empty when
  `modifiers` is null and nothing is printed), `none` when that call wrote past
  the end of one of its buffers; the behaviour of the real process is undefined
  from there on, and the other fields then tell what the code asks for. -/
  status : Option (List Char)
  log : List Event

/-- Capacity `PCM_BUFFER_SIZE` (line 1224). -/
def PCM_BUFFER_SIZE : Nat := 256

/-- Request size `MAX_OUTBUF_SIZE` (line 1223). -/
def MAX_OUTBUF_SIZE : Nat := 128

/-- The bytes `inp[0 .. size)` handed to `pico_putTextUtf8`. -/
def offeredBytes (p : Pico) (src : Nat) (off : Int) (size : Int) : List Char :=
  ((p.mem src).drop off.toNat).take size.toNat

/-- The call `memcpy( pcm_buffer + off, outbuf, n )`. -/
def memcpyInto (buf : List Nat) (off : Nat) (frag : List Nat) : List Nat :=
  buf.take off ++ frag ++ buf.drop (off + frag.length)

/-- The `int increment = text_length >= 32767 ? 32767 : text_length` of lines
1273 and 1291. -/
def increment (text_length : Int) : Int :=
  wrap32 (if text_length ≥ 32767 then 32767 else text_length)

/-- Lines 1266-1295: choose what to feed next; `none` is the `break`.
The variable `text_length` is a `long long` and is kept unbounded (its
subtraction cannot overflow for a length that fits the type).  `do_endpad` is
only ever true with `modifiers` non-null; the branch for a null `modifiers`
stands for the dereference of line 1283 and is never reached. -/
def selectChunk {σ : Type} (p : Pico) (s : PState σ) : Option (PState σ) :=
  if s.text_remaining ≤ 0 then
    if s.do_startpad then
      some { s with do_startpad := false, inpSrc := SRC_TEXT, inpOff := 0,
                    text_length := s.text_length - increment s.text_length,
                    text_remaining := wrap16 (increment s.text_length) }
    else if s.text_length ≤ 0 then
      if s.do_endpad then
        match p.modifiers with
        | some b =>
          some { s with do_endpad := false, inpSrc := SRC_CLOSER, inpOff := 0,
                        text_remaining := wrap16 (Boilerplate.getCloser b).2 }
        | none => some { s with do_endpad := false }
      else none
    else
      some { s with text_length := s.text_length - increment s.text_length,
                    text_remaining := wrap16 (increment s.text_length) }
  else some s

/-- The two writes of a flush (lines 1328-1334 and 1345-1351): the WAV file if
enabled, then the listener if any.  The fill count is left as it is. -/
def writeOut {σ : Type} (W : World σ) (p : Pico) (s : PState σ) : PState σ :=
  let s1 : PState σ :=
    if p.pico_writeWavPcm then
      let r := W.picoos_sdfPutSamples s.world (s.bufused / 2) s.pcm_buffer
      { s with done := r.1, world := r.2,
               log := s.log ++ [Event.sdfPutSamples (s.bufused / 2) s.pcm_buffer r.1] }
    else s
  match p.listener with
  | some l => { s1 with log := s1.log ++ l.writeData s1.pcm_buffer (s1.bufused / 2) }
  | none => s1

/-- The `bytes_recv` reported for the bytes stored in `outbuf`: their number,
as a `pico_Int16`. -/
def bytesRecv (outbuf : List Nat) : Nat := (wrap16 outbuf.length).toNat

/-- Lines 1318-1340: store the fragment `outbuf[0 .. bytes_recv)`. -/
def accumulate {σ : Type} (W : World σ) (p : Pico) (s : PState σ) (outbuf : List Nat) :
    PState σ :=
  if 0 < wrap16 outbuf.length then
    if (s.bufused + bytesRecv outbuf) % 4294967296 ≤ PCM_BUFFER_SIZE then
      { s with pcm_buffer := memcpyInto s.pcm_buffer s.bufused (outbuf.take (bytesRecv outbuf)),
               bufused := (s.bufused + bytesRecv outbuf) % 4294967296,
               log := s.log ++ [Event.memcpy s.bufused (bytesRecv outbuf)] }
    else
      { writeOut W p s with
        bufused := bytesRecv outbuf % 4294967296,
        pcm_buffer := memcpyInto (writeOut W p s).pcm_buffer 0 (outbuf.take (bytesRecv outbuf)),
        log := (writeOut W p s).log ++ [Event.memcpy 0 (bytesRecv outbuf)] }
  else s

/-- The loop exit and the return (lines 1286, 1354-1365): an open WAV file is
closed and its size is read back, which line 1362 prints as the byte count. -/
def leave {σ : Type} (W : World σ) (s : PState σ) : PState σ :=
  { s with pc := Pc.returned (wrap32 s.bufused), sdOutFile := false,
           log := if s.sdOutFile then
                    s.log ++ [Event.sdfCloseOut, Event.fileSize (W.fileSize s.world)]
                  else s.log }

/-- The submission made by lines 1297-1305 from state `s`, given the engine's
answer. -/
def submissionEvent {σ : Type} (W : World σ) (p : Pico) (s : PState σ) : Event :=
  Event.putText s.inpSrc s.inpOff (offeredBytes p s.inpSrc s.inpOff s.text_remaining)
    s.text_remaining
    (W.pico_putTextUtf8 s.world (offeredBytes p s.inpSrc s.inpOff s.text_remaining)
      s.text_remaining).1
    (W.pico_putTextUtf8 s.world (offeredBytes p s.inpSrc s.inpOff s.text_remaining)
      s.text_remaining).2.1

/-- Lines 1297-1305: feed `inp[0 .. text_remaining)` to the engine. -/
def feedText {σ : Type} (W : World σ) (p : Pico) (s : PState σ) : PState σ :=
  if (W.pico_putTextUtf8 s.world (offeredBytes p s.inpSrc s.inpOff s.text_remaining)
      s.text_remaining).1 ≠ 0 then
    { s with
      world := (W.pico_putTextUtf8 s.world (offeredBytes p s.inpSrc s.inpOff s.text_remaining)
        s.text_remaining).2.2,
      log := s.log ++ [submissionEvent W p s],
      pc := Pc.returned (-2) }
  else
    { s with
      world := (W.pico_putTextUtf8 s.world (offeredBytes p s.inpSrc s.inpOff s.text_remaining)
        s.text_remaining).2.2,
      log := s.log ++ [submissionEvent W p s],
      text_remaining := wrap16 (s.text_remaining -
        (W.pico_putTextUtf8 s.world (offeredBytes p s.inpSrc s.inpOff s.text_remaining)
          s.text_remaining).2.1),
      inpOff := s.inpOff +
        (W.pico_putTextUtf8 s.world (offeredBytes p s.inpSrc s.inpOff s.text_remaining)
          s.text_remaining).2.1,
      pc := Pc.drain }

/-- One pass from the loop head to the end of the feed (lines 1263-1305), or
the loop exit and the return. -/
def stepFeed {σ : Type} (W : World σ) (p : Pico) (s : PState σ) : PState σ :=
  match selectChunk p s with
  | none => leave W s
  | some s1 => feedText W p s1

/-- The call of `pico_getData` (line 1310). -/
def getData {σ : Type} (W : World σ) (s : PState σ) : PState σ :=
  { s with world := (W.pico_getData s.world).2.2,
           log := s.log ++ [Event.getData (W.pico_getData s.world).1 (W.pico_getData s.world).2.1] }

/-- One pass of the `do` loop (lines 1307-1342) and, when it ends, the flush
that follows it (lines 1344-1351). -/
def stepDrain {σ : Type} (W : World σ) (p : Pico) (s : PState σ) : PState σ :=
  if (W.pico_getData s.world).1 ≠ PICO_STEP_BUSY ∧ (W.pico_getData s.world).1 ≠ PICO_STEP_IDLE then
    { getData W s with pc := Pc.returned (-4) }
  else if (W.pico_getData s.world).1 = PICO_STEP_BUSY then
    accumulate W p (getData W s) (W.pico_getData s.world).2.1
  else
    { writeOut W p (accumulate W p (getData W s) (W.pico_getData s.world).2.1) with
      pc := Pc.feed }

/-- One engine call of `process` with the code around it. -/
def step {σ : Type} (W : World σ) (p : Pico) (s : PState σ) : PState σ :=
  match s.pc with
  | Pc.feed => stepFeed W p s
  | Pc.drain => stepDrain W p s
  | Pc.returned _ => s

/-- The locals after lines 1223-1249 and 1260, before the WAV file is opened,
with the status message of line 1243. -/
def init0 {σ : Type} (p : Pico) (w : σ) : PState σ :=
  match p.modifiers with
  | some b =>
    { pc := Pc.feed, world := w, inpSrc := SRC_OPENER, inpOff := 0,
      text_remaining := wrap16 (Boilerplate.getOpener b).2,
      text_length := p.total_text_length, do_startpad := true, do_endpad := true,
      bufused := 0, pcm_buffer := List.replicate PCM_BUFFER_SIZE 0,
      done := true, sdOutFile := p.sdOutFile,
      status := Boilerplate.getStatusMessage b, log := [] }
  | none =>
    { pc := Pc.feed, world := w, inpSrc := SRC_TEXT, inpOff := 0,
      text_remaining := p.text_remaining,
      text_length := p.total_text_length, do_startpad := false, do_endpad := false,
      bufused := 0, pcm_buffer := List.replicate PCM_BUFFER_SIZE 0,
      done := true, sdOutFile := p.sdOutFile, status := some [], log := [] }

/-- The state at the first loop head (lines 1223-1260), or the early return of
line 1256. -/
def init {σ : Type} (W : World σ) (p : Pico) (w : σ) : PState σ :=
  if p.pico_writeWavPcm then
    if (W.picoos_sdfOpenOut w).1 then
      { init0 p w with world := (W.picoos_sdfOpenOut w).2, sdOutFile := true,
                       log := [Event.sdfOpenOut true] }
    else
      { init0 p w with world := (W.picoos_sdfOpenOut w).2, done := false,
                       pc := Pc.returned (-1), log := [Event.sdfOpenOut false] }
  else init0 p w

/-- The state after `n` steps from `s`. -/
def run {σ : Type} (W : World σ) (p : Pico) : Nat → PState σ → PState σ
  | 0, s => s
  | n + 1, s => run W p n (step W p s)

/-- Method `Pico::process` after `n` engine calls. -/
def process {σ : Type} (W : World σ) (p : Pico) (w : σ) (n : Nat) : PState σ :=
  run W p n (init W p w)

/-! ## Reading the log -/

/-- One text submission: source buffer and offset of `inp`, the bytes
offered, the `size` argument and the `bytes_sent` result. -/
structure Submission where
  src : Nat
  off : Int
  offered : List Char
  size : Int
  sent : Int
  deriving DecidableEq

/-- The submissions made, oldest first. -/
def submissions (log : List Event) : List Submission :=
  log.filterMap fun e =>
    match e with
    | Event.putText src off offered size _ sent => some ⟨src, off, offered, size, sent⟩
    | _ => none

/-- The bytes the engine accepted, in order. -/
def accepted (log : List Event) : List Char :=
  ((submissions log).map fun s => s.offered.take s.sent.toNat).flatten

/-- The fragments drained from the engine, oldest first: of each
`pico_getData` with status busy or idle, the `bytes_recv` bytes it reported. -/
def drainedFrags (log : List Event) : List (List Nat) :=
  log.filterMap fun e =>
    match e with
    | Event.getData st frag =>
      if st = PICO_STEP_BUSY ∨ st = PICO_STEP_IDLE then
        some (frag.take (bytesRecv frag))
      else none
    | _ => none

/-- The PCM bytes drained from the engine, in order. -/
def drained (log : List Event) : List Nat := (drainedFrags log).flatten

/-- Number of `pico_getData` calls that reported idle. -/
def idleDrains (log : List Event) : Nat :=
  (log.filter fun e =>
    match e with
    | Event.getData st _ => decide (st = PICO_STEP_IDLE)
    | _ => false).length

/-- The copies into `pcm_buffer`: offset and length of each. -/
def copies (log : List Event) : List (Nat × Nat) :=
  log.filterMap fun e =>
    match e with
    | Event.memcpy off len => some (off, len)
    | _ => none

/-- The writes to the WAV file: buffer and sample count of each. -/
def wavCalls (log : List Event) : List (List Nat × Nat) :=
  log.filterMap fun e =>
    match e with
    | Event.sdfPutSamples n buf _ => some (buf, n)
    | _ => none

/-- The writes to stdout: buffer and sample count of each. -/
def stdoutCalls (log : List Event) : List (List Nat × Nat) :=
  log.filterMap fun e =>
    match e with
    | Event.fwrite data n => some (data, n)
    | _ => none

/-- The submits to the playback device: buffer and sample count of each. -/
def playbackCalls (log : List Event) : List (List Nat × Nat) :=
  log.filterMap fun e =>
    match e with
    | Event.SubmitFrames data n => some (data, n)
    | _ => none

/-- The bytes a sink reads from a buffer of which it is given `n` samples. -/
def sinkBytes (data : List Nat) (n : Nat) : List Nat := data.take (2 * n)

/-- The byte stream a sink reads over a sequence of writes. -/
def streamOf (calls : List (List Nat × Nat)) : List Nat :=
  (calls.map fun c => sinkBytes c.1 c.2).flatten

/-- Whether the listener's callback writes to stdout. -/
def Listener.toStdout (l : Listener) : Bool :=
  decide ((l.consume = some Consumer.write_short_to_stdout
      ∨ l.consume = some Consumer.write_short_to_playback_and_stdout)
    ∧ l.out_mode &&& OUT_STDOUT ≠ 0)

/-- Whether the listener's callback submits to the playback device. -/
def Listener.toPlayback (l : Listener) : Bool :=
  decide ((l.consume = some Consumer.write_short_to_playback
      ∨ l.consume = some Consumer.write_short_to_playback_and_stdout)
    ∧ l.out_mode &&& OUT_PLAYBACK ≠ 0)

/-- Whether stdout is an active sink of the run. -/
def Pico.stdoutOn (p : Pico) : Bool :=
  match p.listener with
  | some l => l.toStdout
  | none => false

/-- Whether the playback device is an active sink of the run. -/
def Pico.playbackOn (p : Pico) : Bool :=
  match p.listener with
  | some l => l.toPlayback
  | none => false

/-- The opener string of the run, empty without modifiers. -/
def Pico.opener (p : Pico) : List Char := p.mem SRC_OPENER

/-- The closer string of the run, empty without modifiers. -/
def Pico.closer (p : Pico) : List Char := p.mem SRC_CLOSER

/-! ## Example collaborators -/

/-- An engine that accepts at most `cap` bytes per submission, answers each
drain from a script (status, fragment) and is idle with no data once the
script is used up; the WAV sink opens and its writes succeed; the file is not
part of the state and its size reads back as 0. -/
def scriptWorld (cap : Nat) : World (List (Int × List Nat)) :=
  { pico_putTextUtf8 := fun w _ size => (0, min size cap, w),
    pico_getData := fun w =>
      match w with
      | [] => (PICO_STEP_IDLE, [], [])
      | r :: rest => (r.1, r.2, rest),
    picoos_sdfOpenOut := fun w => (true, w),
    picoos_sdfPutSamples := fun w _ _ => (true, w),
    fileSize := fun _ => 0 }

/-! ## Definitions used to state the properties -/

namespace Boilerplate

/-- Name of the tag of a member. -/
def tagName : ValRef → List Char
  | ValRef.speed => "speed".toList
  | ValRef.pitch => "pitch".toList
  | ValRef.volume => "volume".toList

/-- The opening tag for a member holding `v`. -/
def openTag (r : ValRef) (v : F32) : List Char :=
  "<".toList ++ tagName r ++ " level=\"".toList ++ decimal (ivalueOf v) ++ "\">".toList

/-- The closing tag of a member. -/
def closeTag (r : ValRef) : List Char := "</".toList ++ tagName r ++ ">".toList

/-- The members whose value is not the sentinel `-1`, in declaration order. -/
def setRefs (b : Boilerplate) : List ValRef :=
  [ValRef.speed, ValRef.pitch, ValRef.volume].filter (fun r => decide (getVal b r ≠ F32.negOne))

/-- The strings `setOne` leaves, as a function of the three values. -/
def platesOf (s p v : F32) : List Char × List Char :=
  let b : Boilerplate := { plate_begin := [], plate_end := [], speed := s, pitch := p, volume := v }
  (((setRefs b).map (fun r => openTag r (getVal b r))).flatten,
   ((setRefs b).reverse.map closeTag).flatten)

/-- The value last passed to the setter of member `r` in the call sequence
`cs`, or the sentinel `-1` if it was never called. -/
def lastSet (cs : List (ValRef × F32)) (r : ValRef) : F32 :=
  match (cs.filter fun c => decide (c.1 = r)).getLast? with
  | some c => c.2
  | none => F32.negOne

/-- The members set by the call sequence `cs`: those whose setter was called
and was last called with a value other than the sentinel `-1`, in declaration
order. -/
def setBy (cs : List (ValRef × F32)) : List ValRef :=
  [ValRef.speed, ValRef.pitch, ValRef.volume].filter
    (fun r => decide (lastSet cs r ≠ F32.negOne))

end Boilerplate

/-- The accumulator is within its buffer: fill count, buffer size, and every
copy made so far. -/
def BufInv {σ : Type} (s : PState σ) : Prop :=
  s.bufused ≤ PCM_BUFFER_SIZE ∧ s.pcm_buffer.length = PCM_BUFFER_SIZE ∧
    ∀ c ∈ copies s.log, c.1 + c.2 ≤ PCM_BUFFER_SIZE

/-- Every active sink was given exactly the writes `fl`, an inactive one none. -/
def SinkAgree (p : Pico) (log : List Event) (fl : List (List Nat × Nat)) : Prop :=
  wavCalls log = (if p.pico_writeWavPcm then fl else []) ∧
  stdoutCalls log = (if p.stdoutOn then fl else []) ∧
  playbackCalls log = (if p.playbackOn then fl else [])

/-- The part of the state that the text feed reads and writes, with the
submissions made so far. -/
structure FeedView where
  inpSrc : Nat
  inpOff : Int
  text_remaining : Int
  text_length : Int
  do_startpad : Bool
  do_endpad : Bool
  subs : List Submission

/-- The feed view of a state. -/
def feedView {σ : Type} (s : PState σ) : FeedView :=
  ⟨s.inpSrc, s.inpOff, s.text_remaining, s.text_length, s.do_startpad, s.do_endpad,
    submissions s.log⟩

/-- The bytes accepted over a list of submissions. -/
def acceptedOf (subs : List Submission) : List Char :=
  (subs.map fun s => s.offered.take s.sent.toNat).flatten

/-- Lines 1266-1295 on the feed view. -/
def selectV (p : Pico) (v : FeedView) : Option FeedView :=
  if v.text_remaining ≤ 0 then
    if v.do_startpad then
      some { v with do_startpad := false, inpSrc := SRC_TEXT, inpOff := 0,
                    text_length := v.text_length - increment v.text_length,
                    text_remaining := wrap16 (increment v.text_length) }
    else if v.text_length ≤ 0 then
      if v.do_endpad then
        match p.modifiers with
        | some b =>
          some { v with do_endpad := false, inpSrc := SRC_CLOSER, inpOff := 0,
                        text_remaining := wrap16 (Boilerplate.getCloser b).2 }
        | none => some { v with do_endpad := false }
      else none
    else
      some { v with text_length := v.text_length - increment v.text_length,
                    text_remaining := wrap16 (increment v.text_length) }
  else some v

/-- Lines 1297-1305 on the feed view, for an accepted count `sent`. -/
def putV (p : Pico) (v : FeedView) (sent : Int) : FeedView :=
  { v with text_remaining := wrap16 (v.text_remaining - sent),
           inpOff := v.inpOff + sent,
           subs := v.subs ++ [⟨v.inpSrc, v.inpOff,
             offeredBytes p v.inpSrc v.inpOff v.text_remaining, v.text_remaining, sent⟩] }

/-- Where the feed stands: which string `inp` points into, how much of it is
left, and what the engine has accepted so far. -/
def PhaseV (p : Pico) (v : FeedView) : Prop :=
  0 ≤ v.text_remaining ∧ v.text_remaining ≤ 32767 ∧ 0 ≤ v.text_length ∧ 0 ≤ v.inpOff ∧
  ((v.inpSrc = SRC_OPENER ∧ p.modifiers.isSome = true ∧ v.do_startpad = true ∧
      v.do_endpad = true ∧ v.text_length = p.local_text.length ∧
      v.inpOff + v.text_remaining = p.opener.length ∧
      acceptedOf v.subs = p.opener.take v.inpOff.toNat)
    ∨ (v.inpSrc = SRC_TEXT ∧ v.do_startpad = false ∧ v.do_endpad = p.modifiers.isSome ∧
      v.inpOff + v.text_remaining + v.text_length = p.local_text.length ∧
      acceptedOf v.subs = p.opener ++ p.local_text.take v.inpOff.toNat)
    ∨ (v.inpSrc = SRC_CLOSER ∧ p.modifiers.isSome = true ∧ v.do_startpad = false ∧
      v.do_endpad = false ∧ v.text_length = 0 ∧
      v.inpOff + v.text_remaining = p.closer.length ∧
      acceptedOf v.subs = p.opener ++ p.local_text ++ p.closer.take v.inpOff.toNat))

/-- A submission that was not accepted whole is followed by the offer of its
remainder. -/
def Reoffer (a b : Submission) : Prop :=
  a.sent < a.size →
    b.src = a.src ∧ b.off = a.off + a.sent ∧ b.size = a.size - a.sent ∧
      b.offered = a.offered.drop a.sent.toNat

/-- What holds of the submissions made so far. -/
def SubsOK (p : Pico) (v : FeedView) : Prop :=
  (∀ a ∈ v.subs, a.offered = offeredBytes p a.src a.off a.size ∧ 0 ≤ a.off ∧ 0 ≤ a.sent ∧
      a.sent ≤ a.size ∧ a.size ≤ 32767 ∧ (a.offered.length : Int) = a.size) ∧
  List.Chain' Reoffer v.subs ∧
  (∀ a ∈ v.subs.getLast?, v.inpSrc = a.src ∧ v.inpOff = a.off + a.sent ∧
      v.text_remaining = a.size - a.sent)

/-- A run that returned a non-negative value left the loop by its `break`. -/
def Done {σ : Type} (s : PState σ) : Prop :=
  ∀ r, s.pc = Pc.returned r → 0 ≤ r →
    s.text_remaining = 0 ∧ s.do_startpad = false ∧ s.text_length = 0 ∧ s.do_endpad = false

/-- The invariant of the text feed. -/
def FeedInv {σ : Type} (p : Pico) (s : PState σ) : Prop :=
  PhaseV p (feedView s) ∧ SubsOK p (feedView s) ∧ Done s

/-- The sizes of the chunks of `local_text` offered to the engine, in order. -/
def bodyChunks (log : List Event) : List Int :=
  ((submissions log).filter fun a => decide (a.src = SRC_TEXT)).map fun a => a.size

/-- The bytes of `local_text` accepted so far, counted over the submissions. -/
def bodySent (subs : List Submission) : Int :=
  ((subs.filter fun a => decide (a.src = SRC_TEXT)).map fun a => a.sent).sum

/-- The count of accepted text bytes agrees with the position of the feed. -/
def BodySumV (p : Pico) (v : FeedView) : Prop :=
  (v.inpSrc = SRC_OPENER → bodySent v.subs = 0) ∧
  (v.inpSrc = SRC_TEXT → bodySent v.subs = v.inpOff) ∧
  (v.inpSrc = SRC_CLOSER → bodySent v.subs = p.local_text.length)

/-- Every submission was accepted whole. -/
def AllWhole (v : FeedView) : Prop := ∀ a ∈ v.subs, a.sent = a.size

/-- The invariant of the text feed with an engine that accepts every offer
whole. -/
def ChunkInv {σ : Type} (p : Pico) (s : PState σ) : Prop :=
  FeedInv p s ∧ BodySumV p (feedView s) ∧ AllWhole (feedView s)

/-- First chunk of a 40000-byte text. -/
def chunkA (p : Pico) : Submission :=
  ⟨SRC_TEXT, 0, p.local_text.take 32767, 32767, 32767⟩

/-- Second chunk of a 40000-byte text. -/
def chunkB (p : Pico) : Submission :=
  ⟨SRC_TEXT, 32767, (p.local_text.drop 32767).take 7233, 7233, 7233⟩

/-- The three feed views of a run over a 40000-byte text without modifiers with
an engine that accepts every offer whole. -/
def Stage40k (p : Pico) (v : FeedView) : Prop :=
  v = ⟨SRC_TEXT, 0, 0, 40000, false, false, []⟩ ∨
  v = ⟨SRC_TEXT, 32767, 0, 7233, false, false, [chunkA p]⟩ ∨
  v = ⟨SRC_TEXT, 40000, 0, 0, false, false, [chunkA p, chunkB p]⟩

/-- The invariant of a run whose only submission `one` was accepted whole:
the feed is finished, and what the sinks were given, followed while draining
by what the accumulator holds, is what was drained. -/
def CycleInv {σ : Type} (p : Pico) (one : Submission) (s : PState σ) : Prop :=
  feedView s = ⟨SRC_TEXT, one.size, 0, 0, false, false, [one]⟩ ∧ BufInv s ∧
  s.bufused % 2 = 0 ∧
  ∃ fl, SinkAgree p s.log fl ∧
    (s.pc = Pc.drain →
      idleDrains s.log = 0 ∧ streamOf fl ++ s.pcm_buffer.take s.bufused = drained s.log) ∧
    (s.pc ≠ Pc.drain → s.pc ≠ Pc.returned (-4) →
      idleDrains s.log = 1 ∧ streamOf fl = drained s.log)

/-- The one submission of a run whose text is accepted whole at once. -/
def oneChunk (p : Pico) : Submission :=
  ⟨SRC_TEXT, 0, p.local_text, p.local_text.length, p.local_text.length⟩

/-- An engine that accepts every offer whole and then yields three busy
fragments of 128 bytes before it is idle; the WAV sink opens and its writes
succeed, the size of its file reads back as 0.  The state counts the fragments
still to come. -/
def toneWorld : World Nat :=
  { pico_putTextUtf8 := fun _ _ size => (0, size, 3),
    pico_getData := fun k =>
      match k with
      | 0 => (PICO_STEP_IDLE, [], 0)
      | k + 1 => (PICO_STEP_BUSY, List.replicate 128 (k + 1), k),
    picoos_sdfOpenOut := fun w => (true, w),
    picoos_sdfPutSamples := fun w _ _ => (true, w),
    fileSize := fun _ => 0 }

/-- A `Pico` set up as `main` does for the text `Hello`, raw PCM to stdout. -/
def picoHello : Pico :=
  (Pico.new.sendTextForProcessing ("Hello".toList ++ [Char.ofNat 0]) 6).setListener
    (getListener (setup_input_output OUT_STDOUT))

/-- The same with the speed set to 1.5. -/
def picoMarked : Pico :=
  picoHello.addModifiers (getModifiers (Boilerplate.new.setSpeed 0x3FC00000))

/-- A `Pico` with a text of 40000 bytes and no modifiers. -/
def pico40k : Pico :=
  Pico.new.sendTextForProcessing (List.replicate 40000 'a') 40000

/-- The events of the two writes of a flush from state `s`: the WAV write if
enabled, then the listener's call if there is a listener. -/
def flushEvents {σ : Type} (W : World σ) (p : Pico) (s : PState σ) : List Event :=
  (if p.pico_writeWavPcm then
    [Event.sdfPutSamples (s.bufused / 2) s.pcm_buffer
      (W.picoos_sdfPutSamples s.world (s.bufused / 2) s.pcm_buffer).1]
   else []) ++
  (match p.listener with
   | some l => l.writeData s.pcm_buffer (s.bufused / 2)
   | none => [])

/-- Whether an event is a write to a sink. -/
def Event.isSinkWrite : Event → Bool
  | Event.sdfPutSamples _ _ _ => true
  | Event.fwrite _ _ => true
  | Event.SubmitFrames _ _ => true
  | _ => false

/-- Whether an event is a call of the engine. -/
def Event.isEngineCall : Event → Bool
  | Event.putText _ _ _ _ _ _ => true
  | Event.getData _ _ => true
  | _ => false

/-- Where a return value comes from: `-1` from a failed `picoos_sdfOpenOut`
before anything else, `-2` from a submission that reported an error, `-4`
from a drain with a status other than busy or idle, anything else is the
fill count at the `break`; and the fill count fits a `pico_Int16`. -/
def RetInv {σ : Type} (W : World σ) (p : Pico) (w : σ) (s : PState σ) : Prop :=
  s.bufused ≤ 32767 ∧
  ∀ r, s.pc = Pc.returned r →
    (r = -1 ∧ p.pico_writeWavPcm = true ∧ (W.picoos_sdfOpenOut w).1 = false ∧
      s.log = [Event.sdfOpenOut false]) ∨
    (r = -2 ∧ ∃ pre src off offered size ret sent,
      s.log = pre ++ [Event.putText src off offered size ret sent] ∧ ret ≠ 0) ∨
    (r = -4 ∧ ∃ pre st frag, s.log = pre ++ [Event.getData st frag] ∧
      st ≠ PICO_STEP_BUSY ∧ st ≠ PICO_STEP_IDLE) ∨
    (0 ≤ r ∧ r = s.bufused ∧ s.text_remaining ≤ 0 ∧ s.do_startpad = false ∧
      s.text_length ≤ 0 ∧ s.do_endpad = false)

/-- The text `Hello` with the WAV file and stdout as sinks. -/
def picoWav : Pico := picoHello.writeWavePcm

/-- The two counters of the text feed are in range: `text_remaining` is a
non-negative `pico_Int16` and `text_length` is between 0 and the length given
to `sendTextForProcessing`. -/
def RangeV (p : Pico) (v : FeedView) : Prop :=
  0 ≤ v.text_remaining ∧ v.text_remaining ≤ 32767 ∧ 0 ≤ v.text_length ∧
    v.text_length ≤ p.total_text_length ∧ (v.do_endpad = true → p.modifiers.isSome = true)

/-- The number of submissions the feed can still make when every submission of
at least one byte has at least one byte accepted: the bytes left of the current
chunk, the bytes of the text not yet chunked (an empty text still takes one
submission after the opener), and the closer if it is still to come. -/
def budget (p : Pico) (v : FeedView) : Int :=
  v.text_remaining + (if v.do_startpad then max v.text_length 1 else v.text_length) +
    (if v.do_endpad then (p.closer.length : Int) else 0)

/-- The bound `|opener| + max(L, 1) + |closer|` on the number of submissions. -/
def submissionBound (p : Pico) : Int :=
  p.opener.length + max p.total_text_length 1 + p.closer.length

/-- The submissions made and those still possible stay within the bound. -/
def CountV (p : Pico) (v : FeedView) : Prop :=
  RangeV p v ∧ (v.subs.length : Int) + budget p v ≤ submissionBound p

/-- The submission of the whole opener, accepted whole. -/
def openSub (p : Pico) : Submission :=
  ⟨SRC_OPENER, 0, p.opener, p.opener.length, p.opener.length⟩

/-- The submission of the whole closer, accepted whole. -/
def closeSub (p : Pico) : Submission :=
  ⟨SRC_CLOSER, 0, p.closer, p.closer.length, p.closer.length⟩

/-- The submission of zero bytes of `local_text`. -/
def emptySub : Submission := ⟨SRC_TEXT, 0, [], 0, 0⟩

/-- The four feed views of a run over an empty text with modifiers and an
engine that accepts every offer whole. -/
def StageEmpty (p : Pico) (v : FeedView) : Prop :=
  v = ⟨SRC_OPENER, 0, p.opener.length, 0, true, true, []⟩ ∨
  v = ⟨SRC_OPENER, p.opener.length, 0, 0, true, true, [openSub p]⟩ ∨
  v = ⟨SRC_TEXT, 0, 0, 0, false, true, [openSub p, emptySub]⟩ ∨
  v = ⟨SRC_CLOSER, p.closer.length, 0, 0, false, false, [openSub p, emptySub, closeSub p]⟩

/-- Every submission made so far offered at least one byte; while the opener is
pending the text has not been touched. -/
def SizeInv {σ : Type} (p : Pico) (s : PState σ) : Prop :=
  RangeV p (feedView s) ∧
  (s.do_startpad = true → p.modifiers.isSome = true ∧ s.text_length = p.total_text_length) ∧
  ∀ a ∈ submissions s.log, 1 ≤ a.size ∧ a.size ≤ 32767

/-- The text `Hello` replaced by an empty text, with speed 1.5. -/
def picoMarkedEmpty : Pico := picoMarked.sendTextForProcessing [] 0

/-- A `Pico` as constructed, given an empty text, with the WAV file and stdout
as sinks. -/
def picoEmpty : Pico :=
  ((Pico.new.sendTextForProcessing [] 0).setListener
    (getListener (setup_input_output OUT_STDOUT))).writeWavePcm

/-- What the log ends with: at the loop head after at least one submission,
with the flush of the accumulator as it stands; at a normal return after at
least one submission, with that flush and then, if the WAV file was open, its
close and the read of its size.  The WAV file stays open while the loop runs. -/
def TailInv {σ : Type} (W : World σ) (p : Pico) (s : PState σ) : Prop :=
  (s.pc = Pc.feed → submissions s.log = [] ∨
    ∃ pre a, s.log = pre ++ flushEvents W p a ∧ a.bufused = s.bufused ∧
      a.pcm_buffer = s.pcm_buffer) ∧
  (∀ r, s.pc = Pc.returned r → 0 ≤ r → submissions s.log = [] ∨
    ∃ pre a cl, s.log = pre ++ flushEvents W p a ++ cl ∧ a.bufused = s.bufused ∧
      a.pcm_buffer = s.pcm_buffer ∧
      (cl = [] ∨ cl = [Event.sdfCloseOut, Event.fileSize (W.fileSize s.world)]) ∧
      (p.pico_writeWavPcm = true →
        cl = [Event.sdfCloseOut, Event.fileSize (W.fileSize s.world)])) ∧
  (s.pc = Pc.feed ∨ s.pc = Pc.drain → p.pico_writeWavPcm = true → s.sdOutFile = true)

/-- With an engine that yields no PCM the accumulator stays empty and every
write to a sink is one of 0 samples. -/
def SilentInv {σ : Type} (s : PState σ) : Prop :=
  s.bufused = 0 ∧ (∀ c ∈ wavCalls s.log, c.2 = 0) ∧ (∀ c ∈ stdoutCalls s.log, c.2 = 0) ∧
    ∀ c ∈ playbackCalls s.log, c.2 = 0

/-- An event with the result of a WAV write forgotten. -/
def Event.eraseOk : Event → Event
  | Event.sdfPutSamples n buf _ => Event.sdfPutSamples n buf true
  | e => e

/-- The WAV writes that returned `FALSE`. -/
def failedWavCalls (log : List Event) : List (List Nat × Nat) :=
  log.filterMap fun e =>
    match e with
    | Event.sdfPutSamples n buf false => some (buf, n)
    | _ => none

/-- The order of the submissions: the source of `inp` never goes back from the
text to the opener or from the closer to the text; without modifiers only the
text is submitted; with modifiers the first submission offers the whole
opener. -/
def KindInv {σ : Type} (p : Pico) (s : PState σ) : Prop :=
  List.Chain' (fun a b : Submission => a.src ≤ b.src) (submissions s.log) ∧
  (∀ a ∈ (submissions s.log).getLast?, a.src ≤ s.inpSrc) ∧
  (s.do_startpad = true → s.inpSrc = SRC_OPENER) ∧
  s.inpSrc ≤ SRC_CLOSER ∧
  (∀ a ∈ submissions s.log, a.src ≤ SRC_CLOSER) ∧
  (p.modifiers = none →
    s.inpSrc = SRC_TEXT ∧ s.do_startpad = false ∧ s.do_endpad = false ∧
      ∀ a ∈ submissions s.log, a.src = SRC_TEXT) ∧
  (p.modifiers.isSome = true →
    (submissions s.log = [] ∧ s.inpSrc = SRC_OPENER ∧ s.inpOff = 0 ∧
      s.text_remaining = p.opener.length) ∨
    ∃ sent rest, submissions s.log =
      ⟨SRC_OPENER, 0, p.opener, p.opener.length, sent⟩ :: rest)

/-- Where the feed stands with an engine that accepts every offer whole: before
or after the one submission of the opener, among the chunks of the text, or
after the one submission of the closer. -/
def WholeV (p : Pico) (v : FeedView) : Prop :=
  (v.inpSrc = SRC_OPENER ∧ v.do_startpad = true ∧ v.do_endpad = true ∧
      p.modifiers.isSome = true ∧ 0 ≤ v.text_length ∧
      ((v.text_remaining = p.opener.length ∧ v.inpOff = 0 ∧ v.subs = []) ∨
        (v.text_remaining = 0 ∧ v.subs = [openSub p]))) ∨
  (v.inpSrc = SRC_TEXT ∧ v.do_startpad = false ∧ v.do_endpad = p.modifiers.isSome ∧
      v.text_remaining = 0 ∧ 0 ≤ v.text_length ∧
      ∃ body, v.subs = (if p.modifiers.isSome then [openSub p] else []) ++ body ∧
        (∀ a ∈ body, a.src = SRC_TEXT) ∧ (p.modifiers.isSome = true → body ≠ [])) ∨
  (v.inpSrc = SRC_CLOSER ∧ v.do_startpad = false ∧ v.do_endpad = false ∧
      v.text_remaining = 0 ∧ v.text_length ≤ 0 ∧
      ∃ body, v.subs = [openSub p] ++ body ++ [closeSub p] ∧
        (∀ a ∈ body, a.src = SRC_TEXT) ∧ body ≠ [])

/-- An event with what the WAV file sink gave back forgotten: the result of a
write and the size read back after the close. -/
def Event.eraseSink : Event → Event
  | Event.sdfPutSamples n buf _ => Event.sdfPutSamples n buf true
  | Event.fileSize _ => Event.fileSize 0
  | e => e

/-- Two states, of two runs in two outside worlds, that are at the same control
point with the same locals and have made the same calls with the same
arguments and the same answers of the engine; what the WAV file sink gave back
(the result of a write, kept in `done`, and the size of the file) is not
compared, and the worlds are related by `R`. -/
structure SameRun {σ τ : Type} (R : σ → τ → Prop) (s : PState σ) (t : PState τ) : Prop where
  pc : s.pc = t.pc
  world : R s.world t.world
  inpSrc : s.inpSrc = t.inpSrc
  inpOff : s.inpOff = t.inpOff
  text_remaining : s.text_remaining = t.text_remaining
  text_length : s.text_length = t.text_length
  do_startpad : s.do_startpad = t.do_startpad
  do_endpad : s.do_endpad = t.do_endpad
  bufused : s.bufused = t.bufused
  pcm_buffer : s.pcm_buffer = t.pcm_buffer
  sdOutFile : s.sdOutFile = t.sdOutFile
  status : s.status = t.status
  log : s.log.map Event.eraseSink = t.log.map Event.eraseSink

/-- The engine of `scriptWorld` with a WAV sink that keeps a file: the state is
the script still to come and the bytes of the file.  Opening the file empties
it; a write of `n` samples from `buf` returns `(put n buf).1` and appends the
bytes `(put n buf).2` to the file; `fileSize` is the number of bytes in the
file. -/
def diskWorld (cap : Nat) (put : Nat → List Nat → Bool × List Nat) :
    World (List (Int × List Nat) × List Nat) :=
  { pico_putTextUtf8 := fun w _ size => (0, min size cap, w),
    pico_getData := fun w =>
      match w.1 with
      | [] => (PICO_STEP_IDLE, [], ([], w.2))
      | r :: rest => (r.1, r.2, (rest, w.2)),
    picoos_sdfOpenOut := fun w => (true, (w.1, [])),
    picoos_sdfPutSamples := fun w n buf => ((put n buf).1, (w.1, w.2 ++ (put n buf).2)),
    fileSize := fun w => w.2.length }

/-- A write that succeeds: the `2 * n` bytes of the samples are stored. -/
def goodWrite (n : Nat) (buf : List Nat) : Bool × List Nat := (true, buf.take (2 * n))

/-- A write that fails and leaves `2 * n` zero bytes in the file instead of the
samples. -/
def zeroWrite (n : Nat) (_buf : List Nat) : Bool × List Nat := (false, List.replicate (2 * n) 0)

/-- A write that fails and stores nothing. -/
def lostWrite (_n : Nat) (_buf : List Nat) : Bool × List Nat := (false, [])

/-- The text `Hello` as `main` sets it up for `--speed 1e30`: `strtof` gives the
binary32 value with bit pattern 0x7149F2CA, which line 596 passes to `setSpeed`
unchecked. -/
def picoHuge : Pico :=
  picoHello.addModifiers (getModifiers (Boilerplate.new.setSpeed 0x7149F2CA))

/-! ## Lemmas -/

namespace Boilerplate

theorem sprintf_speed (v : Int) :
    sprintf_d "<speed level=\"%d\">".toList v = "<speed level=\"".toList ++ decimal v ++ "\">".toList := by
  rfl

theorem rebuild_pads (b : Boilerplate) :
    rebuild pads { b with plate_begin := [], plate_end := [] } =
      { b with
        plate_begin := ((setRefs b).map (fun r => openTag r (getVal b r))).flatten,
        plate_end := ((setRefs b).reverse.map closeTag).flatten } := by
  unfold pads
  by_cases hs : b.speed = F32.negOne <;> by_cases hp : b.pitch = F32.negOne <;>
    by_cases hv : b.volume = F32.negOne <;>
    simp [rebuild, getVal, setRefs, hs, hp, hv, openTag, closeTag, tagName, sprintf_d]

theorem applySetter_eq (b : Boilerplate) (r : ValRef) (v : F32) :
    applySetter b (r, v) =
      rebuild pads { setVal b r v with plate_begin := [], plate_end := [] } := by
  cases r <;> rfl

theorem rebuild_clear (b : Boilerplate) (x y : List Char) :
    rebuild pads { b with plate_begin := x, plate_end := y } =
      rebuild pads { ({ b with plate_begin := [], plate_end := [] } : Boilerplate) with
        plate_begin := x, plate_end := y } := rfl

theorem applySetter_plates (b : Boilerplate) (c : ValRef × F32) :
    ((applySetter b c).plate_begin, (applySetter b c).plate_end) =
      platesOf (applySetter b c).speed (applySetter b c).pitch (applySetter b c).volume := by
  obtain ⟨r, v⟩ := c
  rw [applySetter_eq, rebuild_pads]
  cases r <;> simp [platesOf, setVal, setRefs, getVal]

theorem applySetter_vals (b : Boilerplate) (r : ValRef) (v : F32) (q : ValRef) :
    getVal (applySetter b (r, v)) q = if q = r then v else getVal b q := by
  rw [applySetter_eq, rebuild_pads]
  cases r <;> cases q <;> simp [setVal, getVal]

theorem ext_vals (a b : Boilerplate) (h1 : a.plate_begin = b.plate_begin)
    (h2 : a.plate_end = b.plate_end) (h : ∀ q, getVal a q = getVal b q) : a = b := by
  have hs := h ValRef.speed
  have hp := h ValRef.pitch
  have hv := h ValRef.volume
  simp only [getVal] at hs hp hv
  cases a; cases b; simp_all

theorem applySetter_ext (a b : Boilerplate) (c d : ValRef × F32)
    (h : ∀ q, getVal (applySetter a c) q = getVal (applySetter b d) q) :
    applySetter a c = applySetter b d := by
  have hs := h ValRef.speed
  have hp := h ValRef.pitch
  have hv := h ValRef.volume
  simp only [getVal] at hs hp hv
  have ha := applySetter_plates a c
  have hb := applySetter_plates b d
  rw [hs, hp, hv, ← hb] at ha
  simp only [Prod.mk.injEq] at ha
  exact ext_vals _ _ ha.1 ha.2 h

theorem applySetters_plates (cs : List (ValRef × F32)) :
    ((applySetters Boilerplate.new cs).plate_begin, (applySetters Boilerplate.new cs).plate_end) =
      platesOf (applySetters Boilerplate.new cs).speed (applySetters Boilerplate.new cs).pitch
        (applySetters Boilerplate.new cs).volume := by
  induction cs using List.reverseRecOn with
  | nil => decide
  | append_singleton cs c _ =>
    simp only [applySetters, List.foldl_append, List.foldl_cons, List.foldl_nil]
    exact applySetter_plates _ c

theorem applySetters_vals (cs : List (ValRef × F32)) (r : ValRef) :
    getVal (applySetters Boilerplate.new cs) r = lastSet cs r := by
  induction cs using List.reverseRecOn with
  | nil => cases r <;> rfl
  | append_singleton cs c ih =>
    obtain ⟨q, v⟩ := c
    simp only [applySetters, List.foldl_append, List.foldl_cons, List.foldl_nil] at ih ⊢
    rw [applySetter_vals]
    unfold lastSet
    by_cases h : r = q
    · subst h
      simp [List.filter_append]
    · have h' : ¬ q = r := fun e => h e.symm
      simp only [h, if_false, List.filter_append]
      rw [ih]
      unfold lastSet
      simp [h']

theorem lastSet_mem (cs : List (ValRef × F32)) (r : ValRef) (h : lastSet cs r ≠ F32.negOne) :
    ∃ v, (r, v) ∈ cs := by
  unfold lastSet at h
  cases hl : (cs.filter fun c => decide (c.1 = r)).getLast? with
  | none => rw [hl] at h; exact absurd rfl h
  | some c =>
    have hm := List.mem_of_getLast?_eq_some hl
    rw [List.mem_filter] at hm
    obtain ⟨q, v⟩ := c
    have hq : q = r := by simpa using hm.2
    subst hq
    exact ⟨v, hm.1⟩

theorem lastSet_of_mem (cs : List (ValRef × F32)) (r : ValRef) (v : F32) (h : (r, v) ∈ cs) :
    ∃ c ∈ cs, c.1 = r ∧ lastSet cs r = c.2 := by
  unfold lastSet
  cases hl : (cs.filter fun c => decide (c.1 = r)).getLast? with
  | none =>
    rw [List.getLast?_eq_none_iff] at hl
    have hm : (r, v) ∈ cs.filter fun c => decide (c.1 = r) := by
      rw [List.mem_filter]; exact ⟨h, by simp⟩
    rw [hl] at hm
    cases hm
  | some c =>
    have hm := List.mem_of_getLast?_eq_some hl
    rw [List.mem_filter] at hm
    exact ⟨c, hm.1, by simpa using hm.2, rfl⟩

end Boilerplate

section logLemmas

theorem submissions_append (a b : List Event) :
    submissions (a ++ b) = submissions a ++ submissions b := by
  simp [submissions]

theorem accepted_append (a b : List Event) : accepted (a ++ b) = accepted a ++ accepted b := by
  simp [accepted, submissions_append]

theorem drainedFrags_append (a b : List Event) :
    drainedFrags (a ++ b) = drainedFrags a ++ drainedFrags b := by
  simp [drainedFrags]

theorem drained_append (a b : List Event) : drained (a ++ b) = drained a ++ drained b := by
  simp [drained, drainedFrags_append]

theorem idleDrains_append (a b : List Event) : idleDrains (a ++ b) = idleDrains a + idleDrains b := by
  simp [idleDrains]

theorem copies_append (a b : List Event) : copies (a ++ b) = copies a ++ copies b := by
  simp [copies]

theorem wavCalls_append (a b : List Event) : wavCalls (a ++ b) = wavCalls a ++ wavCalls b := by
  simp [wavCalls]

theorem stdoutCalls_append (a b : List Event) :
    stdoutCalls (a ++ b) = stdoutCalls a ++ stdoutCalls b := by
  simp [stdoutCalls]

theorem playbackCalls_append (a b : List Event) :
    playbackCalls (a ++ b) = playbackCalls a ++ playbackCalls b := by
  simp [playbackCalls]

theorem streamOf_append (a b : List (List Nat × Nat)) :
    streamOf (a ++ b) = streamOf a ++ streamOf b := by
  simp [streamOf]

end logLemmas

section writeOutLemmas

variable {σ : Type} (W : World σ) (p : Pico) (s : PState σ)

/-- The events of the listener call of a flush. -/
theorem writeData_calls (l : Listener) (data : List Nat) (n : Nat) :
    submissions (l.writeData data n) = [] ∧ drainedFrags (l.writeData data n) = [] ∧
    idleDrains (l.writeData data n) = 0 ∧
    copies (l.writeData data n) = [] ∧ wavCalls (l.writeData data n) = [] ∧
    stdoutCalls (l.writeData data n) = (if l.toStdout then [(data, n)] else []) ∧
    playbackCalls (l.writeData data n) = (if l.toPlayback then [(data, n)] else []) := by
  obtain ⟨c, m⟩ := l
  by_cases h1 : m &&& OUT_STDOUT = 0 <;> by_cases h4 : m &&& OUT_PLAYBACK = 0 <;>
    rcases c with _ | c <;> try cases c
  all_goals
    simp [Listener.writeData, write_short_to_stdout, write_short_to_playback,
      write_short_to_playback_and_stdout, submissions, drainedFrags, idleDrains, copies,
      wavCalls, stdoutCalls, playbackCalls, Listener.toStdout, Listener.toPlayback, h1, h4]

theorem writeOut_pc : (writeOut W p s).pc = s.pc := by
  unfold writeOut; split <;> split <;> rfl

theorem writeOut_inpSrc : (writeOut W p s).inpSrc = s.inpSrc := by
  unfold writeOut; split <;> split <;> rfl

theorem writeOut_inpOff : (writeOut W p s).inpOff = s.inpOff := by
  unfold writeOut; split <;> split <;> rfl

theorem writeOut_text_remaining : (writeOut W p s).text_remaining = s.text_remaining := by
  unfold writeOut; split <;> split <;> rfl

theorem writeOut_text_length : (writeOut W p s).text_length = s.text_length := by
  unfold writeOut; split <;> split <;> rfl

theorem writeOut_do_startpad : (writeOut W p s).do_startpad = s.do_startpad := by
  unfold writeOut; split <;> split <;> rfl

theorem writeOut_do_endpad : (writeOut W p s).do_endpad = s.do_endpad := by
  unfold writeOut; split <;> split <;> rfl

theorem writeOut_bufused : (writeOut W p s).bufused = s.bufused := by
  unfold writeOut; split <;> split <;> rfl

theorem writeOut_pcm_buffer : (writeOut W p s).pcm_buffer = s.pcm_buffer := by
  unfold writeOut; split <;> split <;> rfl

theorem writeOut_sdOutFile : (writeOut W p s).sdOutFile = s.sdOutFile := by
  unfold writeOut; split <;> split <;> rfl

theorem writeOut_log :
    ∃ evs, (writeOut W p s).log = s.log ++ evs ∧
      submissions evs = [] ∧ drainedFrags evs = [] ∧ idleDrains evs = 0 ∧ copies evs = [] ∧
      wavCalls evs = (if p.pico_writeWavPcm then [(s.pcm_buffer, s.bufused / 2)] else []) ∧
      stdoutCalls evs = (if p.stdoutOn then [(s.pcm_buffer, s.bufused / 2)] else []) ∧
      playbackCalls evs = (if p.playbackOn then [(s.pcm_buffer, s.bufused / 2)] else []) := by
  unfold writeOut
  cases hw : p.pico_writeWavPcm with
  | false =>
    cases hl : p.listener with
    | none =>
      refine ⟨[], ?_⟩
      simp [submissions, drainedFrags, idleDrains, copies, wavCalls, stdoutCalls,
        playbackCalls, Pico.stdoutOn, Pico.playbackOn, hl]
    | some l =>
      have h := writeData_calls l s.pcm_buffer (s.bufused / 2)
      refine ⟨l.writeData s.pcm_buffer (s.bufused / 2), ?_⟩
      simp [h, Pico.stdoutOn, Pico.playbackOn, hl]
  | true =>
    cases hl : p.listener with
    | none =>
      refine ⟨[Event.sdfPutSamples (s.bufused / 2) s.pcm_buffer
        (W.picoos_sdfPutSamples s.world (s.bufused / 2) s.pcm_buffer).1], ?_⟩
      simp [submissions, drainedFrags, idleDrains, copies, wavCalls, stdoutCalls,
        playbackCalls, Pico.stdoutOn, Pico.playbackOn, hl]
    | some l =>
      have h := writeData_calls l s.pcm_buffer (s.bufused / 2)
      refine ⟨[Event.sdfPutSamples (s.bufused / 2) s.pcm_buffer
        (W.picoos_sdfPutSamples s.world (s.bufused / 2) s.pcm_buffer).1] ++
          l.writeData s.pcm_buffer (s.bufused / 2), ?_⟩
      simp only [submissions_append, drainedFrags_append, idleDrains_append, copies_append,
        wavCalls_append, stdoutCalls_append, playbackCalls_append, h]
      simp [submissions, drainedFrags, idleDrains, copies, wavCalls, stdoutCalls,
        playbackCalls, Pico.stdoutOn, Pico.playbackOn, hl]

end writeOutLemmas

section runLemmas

variable {σ : Type} (W : World σ) (p : Pico)

theorem run_invariant (I : PState σ → Prop) (hstep : ∀ s, I s → I (step W p s)) :
    ∀ n s, I s → I (run W p n s) := by
  intro n
  induction n with
  | zero => intro s hs; exact hs
  | succ n ih => intro s hs; exact ih _ (hstep s hs)

theorem process_invariant (w : σ) (I : PState σ → Prop) (hinit : I (init W p w))
    (hstep : ∀ s, I s → I (step W p s)) : ∀ n, I (process W p w n) :=
  fun n => run_invariant W p I hstep n _ hinit

theorem run_succ (n : Nat) (s : PState σ) : run W p (n + 1) s = step W p (run W p n s) := by
  induction n generalizing s with
  | zero => rfl
  | succ n ih => exact ih (step W p s)

theorem init_bufused (w : σ) : (init W p w).bufused = 0 := by
  unfold init init0; split <;> [split; skip] <;> split <;> rfl

theorem init_pcm_buffer (w : σ) : (init W p w).pcm_buffer = List.replicate PCM_BUFFER_SIZE 0 := by
  unfold init init0; split <;> [split; skip] <;> split <;> rfl

theorem init_log (w : σ) :
    (init W p w).log = [] ∨ ∃ ok, (init W p w).log = [Event.sdfOpenOut ok] := by
  unfold init; split
  · split
    · exact Or.inr ⟨true, rfl⟩
    · exact Or.inr ⟨false, rfl⟩
  · left; unfold init0; split <;> rfl

theorem init_log_proj (w : σ) :
    submissions (init W p w).log = [] ∧ drainedFrags (init W p w).log = [] ∧
    idleDrains (init W p w).log = 0 ∧ copies (init W p w).log = [] ∧
    wavCalls (init W p w).log = [] ∧ stdoutCalls (init W p w).log = [] ∧
    playbackCalls (init W p w).log = [] := by
  rcases init_log W p w with h | ⟨ok, h⟩ <;> rw [h] <;>
    simp [submissions, drainedFrags, idleDrains, copies, wavCalls, stdoutCalls, playbackCalls]

end runLemmas

section bufferLemmas

variable {σ : Type} (W : World σ) (p : Pico)

theorem memcpyInto_length (buf : List Nat) (off : Nat) (frag : List Nat)
    (h : off + frag.length ≤ buf.length) : (memcpyInto buf off frag).length = buf.length := by
  simp [memcpyInto]; omega

theorem wrap16_small (n : Nat) (h : n ≤ 32767) : wrap16 (n : Int) = n := by
  unfold wrap16; omega

theorem bytesRecv_small (outbuf : List Nat) (h : outbuf.length ≤ 32767) :
    bytesRecv outbuf = outbuf.length := by
  unfold bytesRecv; rw [wrap16_small _ h]; simp

theorem selectChunk_frame (s s1 : PState σ) (h : selectChunk p s = some s1) :
    s1.bufused = s.bufused ∧ s1.pcm_buffer = s.pcm_buffer ∧ s1.log = s.log ∧ s1.pc = s.pc ∧
      s1.world = s.world ∧ s1.sdOutFile = s.sdOutFile ∧ s1.done = s.done := by
  unfold selectChunk at h
  split at h
  · split at h
    · cases h; simp
    · split at h
      · split at h
        · split at h <;> (cases h; simp)
        · cases h
      · cases h; simp
  · cases h; simp

theorem stepFeed_frame (s : PState σ) :
    (stepFeed W p s).bufused = s.bufused ∧ (stepFeed W p s).pcm_buffer = s.pcm_buffer ∧
    ∃ evs, (stepFeed W p s).log = s.log ++ evs ∧ copies evs = [] ∧ drainedFrags evs = [] ∧
      idleDrains evs = 0 ∧ wavCalls evs = [] ∧ stdoutCalls evs = [] ∧ playbackCalls evs = [] := by
  unfold stepFeed
  split
  · refine ⟨rfl, rfl, ?_⟩
    by_cases hf : s.sdOutFile = true
    · exact ⟨[Event.sdfCloseOut, Event.fileSize (W.fileSize s.world)], by simp [leave, hf], by
        simp [copies, drainedFrags, idleDrains, wavCalls, stdoutCalls, playbackCalls]⟩
    · exact ⟨[], by simp [leave, hf], by
        simp [copies, drainedFrags, idleDrains, wavCalls, stdoutCalls, playbackCalls]⟩
  · rename_i s1 hsel
    obtain ⟨e1, e2, e3, -⟩ := selectChunk_frame p s s1 hsel
    unfold feedText
    split
    · exact ⟨e1, e2, [submissionEvent W p s1], by simp [e3], by
        simp [submissionEvent, copies, drainedFrags, idleDrains, wavCalls, stdoutCalls,
          playbackCalls]⟩
    · exact ⟨e1, e2, [submissionEvent W p s1], by simp [e3], by
        simp [submissionEvent, copies, drainedFrags, idleDrains, wavCalls, stdoutCalls,
          playbackCalls]⟩

theorem getData_bufInv (s : PState σ) (hs : BufInv s) : BufInv (getData W s) := by
  obtain ⟨h1, h2, h3⟩ := hs
  refine ⟨h1, h2, ?_⟩
  intro c hc
  apply h3 c
  simpa [getData, copies_append, copies] using hc

theorem accumulate_bufInv (s : PState σ) (outbuf : List Nat) (hlen : outbuf.length ≤ MAX_OUTBUF_SIZE)
    (hs : BufInv s) : BufInv (accumulate W p s outbuf) := by
  obtain ⟨h1, h2, h3⟩ := hs
  unfold MAX_OUTBUF_SIZE at hlen
  have hb : bytesRecv outbuf = outbuf.length := bytesRecv_small _ (by omega)
  unfold PCM_BUFFER_SIZE at h1 h2 h3
  unfold accumulate
  simp only [hb, List.take_length]
  split
  · split
    · rename_i hfit
      unfold PCM_BUFFER_SIZE at hfit
      have hfit' : s.bufused + outbuf.length ≤ 256 := by omega
      refine ⟨?_, ?_, ?_⟩
      · show (s.bufused + outbuf.length) % 4294967296 ≤ PCM_BUFFER_SIZE
        unfold PCM_BUFFER_SIZE; omega
      · show (memcpyInto s.pcm_buffer s.bufused outbuf).length = PCM_BUFFER_SIZE
        rw [memcpyInto_length _ _ _ (by omega)]; exact h2
      · intro c hc
        simp only [copies_append, List.mem_append] at hc
        rcases hc with hc | hc
        · exact h3 c hc
        · simp [copies] at hc
          subst hc; unfold PCM_BUFFER_SIZE; simpa using hfit'
    · obtain ⟨evs, hlog, -, -, -, hcp, -⟩ := writeOut_log W p s
      refine ⟨?_, ?_, ?_⟩
      · show outbuf.length % 4294967296 ≤ PCM_BUFFER_SIZE
        unfold PCM_BUFFER_SIZE; omega
      · show (memcpyInto (writeOut W p s).pcm_buffer 0 outbuf).length = PCM_BUFFER_SIZE
        rw [writeOut_pcm_buffer, memcpyInto_length _ _ _ (by omega)]; exact h2
      · intro c hc
        simp only [hlog, copies_append, hcp, List.mem_append, List.append_nil] at hc
        rcases hc with hc | hc
        · exact h3 c hc
        · simp [copies] at hc
          subst hc; unfold PCM_BUFFER_SIZE; simp; omega
  · exact ⟨h1, h2, h3⟩

theorem writeOut_bufInv (s : PState σ) (hs : BufInv s) : BufInv (writeOut W p s) := by
  obtain ⟨h1, h2, h3⟩ := hs
  obtain ⟨evs, hlog, -, -, -, hcp, -⟩ := writeOut_log W p s
  refine ⟨by rw [writeOut_bufused]; exact h1, by rw [writeOut_pcm_buffer]; exact h2, ?_⟩
  intro c hc
  simp only [hlog, copies_append, hcp, List.append_nil] at hc
  exact h3 c hc

theorem step_bufInv (hfrag : ∀ w, (W.pico_getData w).2.1.length ≤ MAX_OUTBUF_SIZE)
    (s : PState σ) (hs : BufInv s) : BufInv (step W p s) := by
  unfold step
  split
  · obtain ⟨h1, h2, h3⟩ := hs
    obtain ⟨e1, e2, evs, e3, hcp, -⟩ := stepFeed_frame W p s
    refine ⟨by rw [e1]; exact h1, by rw [e2]; exact h2, ?_⟩
    intro c hc
    simp only [e3, copies_append, hcp, List.append_nil] at hc
    exact h3 c hc
  · unfold stepDrain
    have hacc := accumulate_bufInv W p _ _ (hfrag s.world) (getData_bufInv W s hs)
    split
    · exact getData_bufInv W s hs
    · split
      · exact hacc
      · exact writeOut_bufInv W p _ hacc
  · exact hs

theorem init_bufInv (w : σ) : BufInv (init W p w) := by
  refine ⟨by rw [init_bufused]; exact Nat.zero_le _, by rw [init_pcm_buffer]; simp, ?_⟩
  rw [(init_log_proj W p w).2.2.2.1]
  intro c hc; cases hc

end bufferLemmas

section sinkLemmas

variable {σ : Type} (W : World σ) (p : Pico)

theorem SinkAgree.append {a b : List Event} {fa fb : List (List Nat × Nat)}
    (ha : SinkAgree p a fa) (hb : SinkAgree p b fb) : SinkAgree p (a ++ b) (fa ++ fb) := by
  obtain ⟨a1, a2, a3⟩ := ha
  obtain ⟨b1, b2, b3⟩ := hb
  refine ⟨?_, ?_, ?_⟩
  · rw [wavCalls_append, a1, b1]; split <;> simp
  · rw [stdoutCalls_append, a2, b2]; split <;> simp
  · rw [playbackCalls_append, a3, b3]; split <;> simp

theorem SinkAgree.of_nil {evs : List Event} (h1 : wavCalls evs = []) (h2 : stdoutCalls evs = [])
    (h3 : playbackCalls evs = []) : SinkAgree p evs [] := by
  refine ⟨?_, ?_, ?_⟩ <;> simp [h1, h2, h3]

theorem writeOut_sinkAgree (s : PState σ) :
    ∃ evs, (writeOut W p s).log = s.log ++ evs ∧
      SinkAgree p evs [(s.pcm_buffer, s.bufused / 2)] := by
  obtain ⟨evs, hlog, -, -, -, -, h1, h2, h3⟩ := writeOut_log W p s
  refine ⟨evs, hlog, ?_, ?_, ?_⟩
  · rw [h1]
  · rw [h2]
  · rw [h3]

theorem accumulate_sinkAgree (s : PState σ) (outbuf : List Nat) :
    ∃ evs fl, (accumulate W p s outbuf).log = s.log ++ evs ∧ SinkAgree p evs fl := by
  unfold accumulate
  split
  · split
    · exact ⟨[Event.memcpy s.bufused (bytesRecv outbuf)], [], rfl,
        SinkAgree.of_nil p (by simp [wavCalls]) (by simp [stdoutCalls]) (by simp [playbackCalls])⟩
    · obtain ⟨evs, hlog, hag⟩ := writeOut_sinkAgree W p s
      refine ⟨evs ++ [Event.memcpy 0 (bytesRecv outbuf)], _, ?_, hag.append p
        (SinkAgree.of_nil p (by simp [wavCalls]) (by simp [stdoutCalls])
          (by simp [playbackCalls]))⟩
      show (writeOut W p s).log ++ _ = _
      rw [hlog, List.append_assoc]
  · exact ⟨[], [], by simp, SinkAgree.of_nil p rfl rfl rfl⟩

theorem step_sinkAgree (s : PState σ) :
    ∃ evs fl, (step W p s).log = s.log ++ evs ∧ SinkAgree p evs fl := by
  unfold step
  split
  · obtain ⟨-, -, evs, e3, -, -, -, h1, h2, h3⟩ := stepFeed_frame W p s
    exact ⟨evs, [], e3, SinkAgree.of_nil p h1 h2 h3⟩
  · have hg : SinkAgree p [Event.getData (W.pico_getData s.world).1 (W.pico_getData s.world).2.1]
        [] := SinkAgree.of_nil p (by simp [wavCalls]) (by simp [stdoutCalls])
          (by simp [playbackCalls])
    obtain ⟨ea, fa, hla, haa⟩ := accumulate_sinkAgree W p (getData W s)
      (W.pico_getData s.world).2.1
    have hgl : (getData W s).log = s.log ++
        [Event.getData (W.pico_getData s.world).1 (W.pico_getData s.world).2.1] := rfl
    unfold stepDrain
    split
    · exact ⟨_, [], hgl, hg⟩
    · split
      · refine ⟨_, _, ?_, hg.append p haa⟩
        rw [hla, hgl, List.append_assoc]
      · obtain ⟨ew, hlw, haw⟩ := writeOut_sinkAgree W p
          (accumulate W p (getData W s) (W.pico_getData s.world).2.1)
        refine ⟨_, _, ?_, (hg.append p haa).append p haw⟩
        show (writeOut W p _).log = _
        rw [hlw, hla, hgl]; simp only [List.append_assoc]
  · exact ⟨[], [], by simp, SinkAgree.of_nil p rfl rfl rfl⟩

theorem process_sinkAgree (w : σ) (n : Nat) : ∃ fl, SinkAgree p (process W p w n).log fl := by
  refine process_invariant W p w (fun s => ∃ fl, SinkAgree p s.log fl) ?_ ?_ n
  · obtain ⟨-, -, -, -, h1, h2, h3⟩ := init_log_proj W p w
    exact ⟨[], SinkAgree.of_nil p h1 h2 h3⟩
  · rintro s ⟨fl, hfl⟩
    obtain ⟨evs, fl2, hlog, hag⟩ := step_sinkAgree W p s
    exact ⟨fl ++ fl2, by rw [hlog]; exact hfl.append p hag⟩

theorem and_five (m : Nat) (h1 : m &&& OUT_STDOUT ≠ 0) (h4 : m &&& OUT_PLAYBACK ≠ 0) :
    m &&& (OUT_PLAYBACK ||| OUT_STDOUT) = (OUT_PLAYBACK ||| OUT_STDOUT) := by
  have e1 : m &&& 1 = (m.testBit 0).toNat * 2 ^ 0 := Nat.and_two_pow m 0
  have e4 : m &&& 4 = (m.testBit 2).toNat * 2 ^ 2 := Nat.and_two_pow m 2
  unfold OUT_STDOUT at h1 ⊢
  unfold OUT_PLAYBACK at h4 ⊢
  rw [Nat.and_or_distrib_left]
  cases hb0 : m.testBit 0 <;> cases hb2 : m.testBit 2 <;> simp_all

theorem setup_both (m : Nat) (h1 : m &&& OUT_STDOUT ≠ 0) (h4 : m &&& OUT_PLAYBACK ≠ 0) :
    getListener (setup_input_output m) =
      some ⟨some Consumer.write_short_to_playback_and_stdout, m⟩ := by
  unfold setup_input_output
  rw [if_pos (and_five m h1 h4)]
  rfl

end sinkLemmas

section feedLemmas

variable {σ : Type} (W : World σ) (p : Pico)

theorem selectChunk_view (s : PState σ) :
    (selectChunk p s).map feedView = selectV p (feedView s) := by
  unfold selectChunk selectV feedView
  simp only []
  split
  · split
    · rfl
    · split
      · split
        · split <;> rfl
        · rfl
      · rfl
  · rfl

theorem accepted_eq (log : List Event) : accepted log = acceptedOf (submissions log) := rfl

theorem mem_text : p.mem SRC_TEXT = p.local_text := by simp [Pico.mem]

theorem opener_none (h : p.modifiers = none) : p.opener = [] := by
  simp [Pico.opener, Pico.mem, h, SRC_OPENER, SRC_TEXT]

theorem closer_none (h : p.modifiers = none) : p.closer = [] := by
  simp [Pico.closer, Pico.mem, h, SRC_CLOSER, SRC_TEXT]

theorem closer_some (b : Boilerplate) (h : p.modifiers = some b) :
    p.closer = b.plate_end := by
  simp [Pico.closer, Pico.mem, h, SRC_CLOSER, SRC_TEXT, SRC_OPENER, Boilerplate.getCloser]

theorem opener_some (b : Boilerplate) (h : p.modifiers = some b) :
    p.opener = b.plate_begin := by
  simp [Pico.opener, Pico.mem, h, SRC_TEXT, SRC_OPENER, Boilerplate.getOpener]

theorem wrap16_id (x : Int) (h0 : 0 ≤ x) (h1 : x ≤ 32767) : wrap16 x = x := by
  unfold wrap16; omega

theorem increment_eq (x : Int) (h0 : 0 ≤ x) :
    increment x = (if x ≥ 32767 then 32767 else x) := by
  unfold increment wrap32; split <;> omega

theorem selectV_none (v : FeedView) (h : selectV p v = none) :
    v.text_remaining ≤ 0 ∧ v.do_startpad = false ∧ v.text_length ≤ 0 ∧ v.do_endpad = false := by
  unfold selectV at h
  split at h
  · split at h
    · cases h
    · split at h
      · split at h
        · split at h <;> cases h
        · simp_all
      · cases h
  · cases h

theorem selectV_pos (v v1 : FeedView) (h : selectV p v = some v1) (hpos : 0 < v.text_remaining) :
    v1 = v := by
  unfold selectV at h
  rw [if_neg (by omega)] at h
  cases h; rfl

theorem selectV_subs (v v1 : FeedView) (h : selectV p v = some v1) : v1.subs = v.subs := by
  unfold selectV at h
  split at h
  · split at h
    · cases h; rfl
    · split at h
      · split at h
        · split at h <;> (cases h; rfl)
        · cases h
      · cases h; rfl
  · cases h; rfl

theorem increment_bounds (x : Int) (h0 : 0 ≤ x) :
    0 ≤ increment x ∧ increment x ≤ 32767 ∧ increment x ≤ x ∧
      (x ≤ 32767 → increment x = x) ∧ (32767 ≤ x → increment x = 32767) := by
  rw [increment_eq x h0]; split <;> omega

theorem selectV_phase (hc : p.closer.length ≤ 32767) (v v1 : FeedView)
    (hv : PhaseV p v) (h : selectV p v = some v1) : PhaseV p v1 := by
  obtain ⟨h0, h1, h2, h3, hd⟩ := hv
  obtain ⟨i0, i1, i2, -, -⟩ := increment_bounds v.text_length h2
  have hw : wrap16 (increment v.text_length) = increment v.text_length := wrap16_id _ i0 i1
  unfold selectV at h
  rw [hw] at h
  split at h
  · have hz : v.text_remaining = 0 := by omega
    split at h
    · -- end of the opener
      rename_i hsp
      cases h
      rcases hd with ⟨d1, d2, d3, d4, d5, d6, d7⟩ | ⟨d1, d2, d3, d4, d5⟩ | ⟨d1, d2, d3, d4, d5, d6, d7⟩
      · refine ⟨i0, i1, by show 0 ≤ v.text_length - _; omega, le_refl _,
          Or.inr (Or.inl ⟨rfl, rfl, ?_, ?_, ?_⟩)⟩
        · simp only [d4, d2]
        · show (0 : Int) + increment v.text_length + (v.text_length - increment v.text_length) = _
          omega
        · simp only [d7, Int.toNat_zero, List.take_zero, List.append_nil]
          rw [List.take_of_length_le]; omega
      · simp_all
      · simp_all
    · split at h
      · split at h
        · -- start of the closer
          rename_i hsp hl hep
          split at h
          · rename_i b hb
            cases h
            have hcl := closer_some p b hb
            have hlen : (b.plate_end.length : Int) ≤ 32767 := by rw [← hcl]; exact_mod_cast hc
            have hw2 : wrap16 ((Boilerplate.getCloser b).2 : Int) = b.plate_end.length :=
              wrap16_id _ (by simp [Boilerplate.getCloser])
                (by simpa [Boilerplate.getCloser] using hlen)
            rcases hd with ⟨d1, d2, d3, d4, d5, d6, d7⟩ | ⟨d1, d2, d3, d4, d5⟩ | ⟨d1, d2, d3, d4, d5, d6, d7⟩
            · simp_all
            · refine ⟨by simp only [hw2]; omega, by simp only [hw2]; omega, h2, le_refl _,
                Or.inr (Or.inr ⟨rfl, by simp [hb], by simpa using hsp, rfl, by
                  show v.text_length = 0; omega, ?_, ?_⟩)⟩
              · simp only [hw2, hcl]; omega
              · simp only [d5, Int.toNat_zero, List.take_zero, List.append_nil]
                rw [List.take_of_length_le (by omega)]
            · simp_all
          · rename_i hb
            cases h
            rcases hd with ⟨d1, d2, d3, d4, d5, d6, d7⟩ | ⟨d1, d2, d3, d4, d5⟩ | ⟨d1, d2, d3, d4, d5, d6, d7⟩
            · simp_all
            · simp_all
            · simp_all
        · cases h
      · -- next chunk of the text
        rename_i hsp hl
        cases h
        refine ⟨i0, i1, by show 0 ≤ v.text_length - _; omega, h3, ?_⟩
        rcases hd with ⟨d1, d2, d3, d4, d5, d6, d7⟩ | ⟨d1, d2, d3, d4, d5⟩ | ⟨d1, d2, d3, d4, d5, d6, d7⟩
        · simp_all
        · refine Or.inr (Or.inl ⟨d1, d2, d3, ?_, d5⟩)
          show v.inpOff + increment v.text_length + (v.text_length - increment v.text_length) = _
          omega
        · exfalso; omega
  · cases h
    exact ⟨h0, h1, h2, h3, hd⟩

end feedLemmas

section feedStepLemmas

variable {σ : Type} (W : World σ) (p : Pico)

theorem acceptedOf_snoc (subs : List Submission) (a : Submission) :
    acceptedOf (subs ++ [a]) = acceptedOf subs ++ a.offered.take a.sent.toNat := by
  simp [acceptedOf]

theorem offered_take (src : Nat) (off size sent : Int) (h1 : sent ≤ size) :
    (offeredBytes p src off size).take sent.toNat = ((p.mem src).drop off.toNat).take sent.toNat := by
  unfold offeredBytes
  rw [List.take_take, min_eq_left (by omega)]

theorem take_step (l : List Char) (off sent : Int) (h0 : 0 ≤ off) (h1 : 0 ≤ sent) :
    l.take off.toNat ++ (l.drop off.toNat).take sent.toNat = l.take (off + sent).toNat := by
  have : (off + sent).toNat = off.toNat + sent.toNat := by omega
  rw [this, List.take_add]

theorem offered_drop (src : Nat) (off size sent : Int) (h0 : 0 ≤ off) (h1 : 0 ≤ sent) :
    (offeredBytes p src off size).drop sent.toNat = offeredBytes p src (off + sent) (size - sent) := by
  unfold offeredBytes
  rw [List.drop_take, List.drop_drop]
  have e1 : (off + sent).toNat = off.toNat + sent.toNat := by omega
  have e2 : (size - sent).toNat = size.toNat - sent.toNat := by omega
  rw [e1, e2]

theorem offered_length (src : Nat) (off size : Int) (h0 : 0 ≤ off) (h1 : 0 ≤ size)
    (h : off + size ≤ (p.mem src).length) : ((offeredBytes p src off size).length : Int) = size := by
  unfold offeredBytes
  simp only [List.length_take, List.length_drop]
  omega

theorem putV_phase (v : FeedView) (sent : Int) (hv : PhaseV p v) (h0 : 0 ≤ sent)
    (h1 : sent ≤ v.text_remaining) : PhaseV p (putV p v sent) := by
  obtain ⟨g0, g1, g2, g3, hd⟩ := hv
  have hw : wrap16 (v.text_remaining - sent) = v.text_remaining - sent :=
    wrap16_id _ (by omega) (by omega)
  unfold putV
  rw [hw]
  refine ⟨by show 0 ≤ v.text_remaining - sent; omega,
    by show v.text_remaining - sent ≤ 32767; omega, g2,
    by show 0 ≤ v.inpOff + sent; omega, ?_⟩
  simp only [acceptedOf_snoc, offered_take p _ _ _ _ h1]
  rcases hd with ⟨d1, d2, d3, d4, d5, d6, d7⟩ | ⟨d1, d2, d3, d4, d5⟩ | ⟨d1, d2, d3, d4, d5, d6, d7⟩
  · refine Or.inl ⟨d1, d2, d3, d4, d5, by omega, ?_⟩
    rw [d7, d1]
    exact take_step _ _ _ g3 h0
  · refine Or.inr (Or.inl ⟨d1, d2, d3, by omega, ?_⟩)
    rw [d5, d1, mem_text, List.append_assoc, take_step _ _ _ g3 h0]
  · refine Or.inr (Or.inr ⟨d1, d2, d3, d4, d5, by omega, ?_⟩)
    rw [d7, d1, List.append_assoc]
    congr 1
    exact take_step _ _ _ g3 h0

theorem phase_fits (v : FeedView) (hv : PhaseV p v) :
    v.inpOff + v.text_remaining ≤ (p.mem v.inpSrc).length := by
  obtain ⟨g0, g1, g2, g3, hd⟩ := hv
  rcases hd with ⟨d1, d2, d3, d4, d5, d6, d7⟩ | ⟨d1, d2, d3, d4, d5⟩ | ⟨d1, d2, d3, d4, d5, d6, d7⟩
  · rw [d1]; show _ ≤ (p.opener.length : Int); omega
  · rw [d1, mem_text]; omega
  · rw [d1]; show _ ≤ (p.closer.length : Int); omega

theorem putV_subsOK (v v1 : FeedView) (sent : Int) (hv1 : PhaseV p v1) (hs : SubsOK p v)
    (hsel : selectV p v = some v1) (h0 : 0 ≤ sent) (h1 : sent ≤ v1.text_remaining) :
    SubsOK p (putV p v1 sent) := by
  obtain ⟨hall, hch, hlast⟩ := hs
  have hsubs := selectV_subs p v v1 hsel
  have hfit := phase_fits p v1 hv1
  obtain ⟨g0, g1, g2, g3, -⟩ := hv1
  have hw : wrap16 (v1.text_remaining - sent) = v1.text_remaining - sent :=
    wrap16_id _ (by omega) (by omega)
  unfold putV
  rw [hw, hsubs]
  refine ⟨?_, ?_, ?_⟩
  · intro a ha
    simp only [List.mem_append, List.mem_singleton] at ha
    rcases ha with ha | ha
    · exact hall a ha
    · subst ha
      exact ⟨rfl, g3, h0, h1, g1, offered_length p _ _ _ g3 g0 hfit⟩
  · refine List.Chain'.append hch (List.chain'_singleton _) ?_
    intro x hx y hy
    simp only [List.head?_cons, Option.mem_def, Option.some.injEq] at hy
    subst hy
    intro hlt
    obtain ⟨l1, l2, l3⟩ := hlast x hx
    have hpos : 0 < v.text_remaining := by omega
    have hvv := selectV_pos p v v1 hsel hpos
    subst hvv
    have hx' : x ∈ v1.subs := List.mem_of_getLast?_eq_some hx
    obtain ⟨a1, a2, a3, a4, a5, a6⟩ := hall x hx'
    refine ⟨l1, l2, l3, ?_⟩
    show offeredBytes p v1.inpSrc v1.inpOff v1.text_remaining = _
    rw [a1, offered_drop p _ _ _ _ a2 a3, l1, l2, l3]
  · intro a ha
    simp only [List.getLast?_append, List.getLast?_singleton, Option.or_some,
      Option.mem_def, Option.some.injEq] at ha
    subst ha
    exact ⟨rfl, rfl, rfl⟩

end feedStepLemmas

section feedInvLemmas

variable {σ : Type} (W : World σ) (p : Pico)

theorem feedView_leave (W : World σ) (s : PState σ) : feedView (leave W s) = feedView s := by
  unfold leave feedView
  by_cases h : s.sdOutFile = true <;> simp [h, submissions_append, submissions]

theorem feedView_getData (s : PState σ) : feedView (getData W s) = feedView s := by
  simp [getData, feedView, submissions_append, submissions]

theorem feedView_writeOut (s : PState σ) : feedView (writeOut W p s) = feedView s := by
  obtain ⟨evs, hlog, hsub, -⟩ := writeOut_log W p s
  simp only [feedView, writeOut_inpSrc, writeOut_inpOff, writeOut_text_remaining,
    writeOut_text_length, writeOut_do_startpad, writeOut_do_endpad, hlog, submissions_append,
    hsub, List.append_nil]

theorem feedView_accumulate (s : PState σ) (outbuf : List Nat) :
    feedView (accumulate W p s outbuf) = feedView s := by
  unfold accumulate
  split
  · split
    · simp [feedView, submissions_append, submissions]
    · have h := feedView_writeOut W p s
      simp only [feedView, FeedView.mk.injEq] at h ⊢
      obtain ⟨h1, h2, h3, h4, h5, h6, h7⟩ := h
      refine ⟨h1, h2, h3, h4, h5, h6, ?_⟩
      rw [submissions_append, h7]; simp [submissions]
  · rfl

theorem stepDrain_view (s : PState σ) :
    feedView (stepDrain W p s) = feedView s ∧
      ((stepDrain W p s).pc = Pc.returned (-4) ∨ (stepDrain W p s).pc = s.pc ∨
        (stepDrain W p s).pc = Pc.feed) := by
  have hacc := feedView_accumulate W p (getData W s) (W.pico_getData s.world).2.1
  rw [feedView_getData] at hacc
  unfold stepDrain
  split
  · exact ⟨feedView_getData W s, Or.inl rfl⟩
  · split
    · refine ⟨hacc, Or.inr (Or.inl ?_)⟩
      unfold accumulate
      split
      · split
        · rfl
        · show (writeOut W p (getData W s)).pc = _
          rw [writeOut_pc]; rfl
      · rfl
    · refine ⟨?_, Or.inr (Or.inr rfl)⟩
      have hw := feedView_writeOut W p (accumulate W p (getData W s) (W.pico_getData s.world).2.1)
      rw [hacc] at hw
      exact hw

theorem feedText_view (s : PState σ)
    (hret : (W.pico_putTextUtf8 s.world (offeredBytes p s.inpSrc s.inpOff s.text_remaining)
      s.text_remaining).1 = 0) :
    feedView (feedText W p s) = putV p (feedView s)
      (W.pico_putTextUtf8 s.world (offeredBytes p s.inpSrc s.inpOff s.text_remaining)
        s.text_remaining).2.1 ∧ (feedText W p s).pc = Pc.drain := by
  unfold feedText
  rw [if_neg (by simp [hret])]
  simp [feedView, putV, submissions_append, submissions, submissionEvent]

theorem selectChunk_some_view (s s1 : PState σ) (h : selectChunk p s = some s1) :
    selectV p (feedView s) = some (feedView s1) := by
  rw [← selectChunk_view, h]; rfl

theorem selectChunk_none_view (s : PState σ) (h : selectChunk p s = none) :
    selectV p (feedView s) = none := by
  rw [← selectChunk_view, h]; rfl

theorem step_feedInv (hc : p.closer.length ≤ 32767)
    (heng : ∀ w bytes size, 0 ≤ size →
      (W.pico_putTextUtf8 w bytes size).1 = 0 ∧ 0 ≤ (W.pico_putTextUtf8 w bytes size).2.1 ∧
        (W.pico_putTextUtf8 w bytes size).2.1 ≤ size)
    (s : PState σ) (hs : FeedInv p s) : FeedInv p (step W p s) := by
  obtain ⟨hph, hsub, hdone⟩ := hs
  unfold step
  split
  · unfold stepFeed
    split
    · rename_i hsel
      have hn := selectV_none p _ (selectChunk_none_view p s hsel)
      refine ⟨by rw [feedView_leave]; exact hph, by rw [feedView_leave]; exact hsub, ?_⟩
      intro r _ _
      obtain ⟨g0, -, g2, -⟩ := hph
      obtain ⟨n1, n2, n3, n4⟩ := hn
      exact ⟨le_antisymm n1 g0, n2, le_antisymm n3 g2, n4⟩
    · rename_i s1 hsel
      have hsv := selectChunk_some_view p s s1 hsel
      have hph1 := selectV_phase p hc _ _ hph hsv
      obtain ⟨e1, e2, e3⟩ := heng s1.world (offeredBytes p s1.inpSrc s1.inpOff s1.text_remaining)
        s1.text_remaining hph1.1
      obtain ⟨hview, hpc⟩ := feedText_view W p s1 e1
      refine ⟨by rw [hview]; exact putV_phase p _ _ hph1 e2 e3,
        by rw [hview]; exact putV_subsOK p _ _ _ hph1 hsub hsv e2 e3, ?_⟩
      intro r hr _
      rw [hpc] at hr; cases hr
  · rename_i hpc
    obtain ⟨hview, hpc'⟩ := stepDrain_view W p s
    refine ⟨by rw [hview]; exact hph, by rw [hview]; exact hsub, ?_⟩
    intro r hr h0
    rcases hpc' with h | h | h
    · rw [h] at hr; cases hr; omega
    · rw [h, hpc] at hr; cases hr
    · rw [h] at hr; cases hr
  · exact ⟨hph, hsub, hdone⟩

theorem feedView_init (w : σ) : feedView (init W p w) = feedView (init0 p w) := by
  unfold init
  split
  · split <;> simp [feedView, submissions]
    all_goals (unfold init0; split <;> simp [submissions])
  · rfl

theorem init_feedInv (w : σ) (hfresh : p.text_remaining = 0)
    (hL : p.total_text_length = p.local_text.length) (ho : p.opener.length ≤ 32767) :
    FeedInv p (init W p w) := by
  refine ⟨?_, ?_, ?_⟩
  · rw [feedView_init]
    unfold init0 feedView
    split
    · rename_i b hb
      have hop := opener_some p b hb
      have hlen : (b.plate_begin.length : Int) ≤ 32767 := by rw [← hop]; omega
      have hw : wrap16 ((Boilerplate.getOpener b).2 : Int) = b.plate_begin.length :=
        wrap16_id _ (by simp [Boilerplate.getOpener]) hlen
      simp only [hw]
      refine ⟨by dsimp only; omega, by dsimp only; omega, by dsimp only; rw [hL]; omega,
        le_refl _, Or.inl ⟨rfl, by simp [hb], rfl, rfl, hL, by rw [hop]; simp, ?_⟩⟩
      simp [submissions, acceptedOf]
    · rename_i hb
      simp only [hfresh]
      refine ⟨le_refl _, by dsimp only; omega, by dsimp only; rw [hL]; omega, le_refl _,
        Or.inr (Or.inl ⟨rfl, rfl, by simp [hb], by rw [hL]; simp, ?_⟩)⟩
      simp [submissions, acceptedOf, opener_none p hb]
  · rw [feedView_init]
    have : (feedView (init0 p w)).subs = [] := by
      unfold init0 feedView; split <;> simp [submissions]
    unfold SubsOK
    rw [this]
    simp
  · intro r hr h0
    unfold init at hr
    split at hr
    · split at hr
      · unfold init0 at hr; split at hr <;> cases hr
      · cases hr; omega
    · unfold init0 at hr; split at hr <;> cases hr

theorem process_feedInv (w : σ) (hfresh : p.text_remaining = 0)
    (hL : p.total_text_length = p.local_text.length) (ho : p.opener.length ≤ 32767)
    (hc : p.closer.length ≤ 32767)
    (heng : ∀ w bytes size, 0 ≤ size →
      (W.pico_putTextUtf8 w bytes size).1 = 0 ∧ 0 ≤ (W.pico_putTextUtf8 w bytes size).2.1 ∧
        (W.pico_putTextUtf8 w bytes size).2.1 ≤ size) (n : Nat) :
    FeedInv p (process W p w n) :=
  process_invariant W p w (FeedInv p) (init_feedInv W p w hfresh hL ho)
    (step_feedInv W p hc heng) n

theorem feedInv_final (s : PState σ) (hs : FeedInv p s) (r : Int) (hr : s.pc = Pc.returned r)
    (h0 : 0 ≤ r) : accepted s.log = p.opener ++ p.local_text ++ p.closer := by
  obtain ⟨⟨g0, g1, g2, g3, hd⟩, hsub, hdone⟩ := hs
  obtain ⟨f1, f2, f3, f4⟩ := hdone r hr h0
  rw [accepted_eq]
  change (feedView s).text_remaining = 0 at f1
  change (feedView s).do_startpad = false at f2
  change (feedView s).text_length = 0 at f3
  change (feedView s).do_endpad = false at f4
  change acceptedOf (feedView s).subs = _
  rcases hd with ⟨d1, d2, d3, d4, d5, d6, d7⟩ | ⟨d1, d2, d3, d4, d5⟩ | ⟨d1, d2, d3, d4, d5, d6, d7⟩
  · rw [d3] at f2; cases f2
  · have hm : p.modifiers = none := by
      rw [f4] at d3
      cases hmm : p.modifiers with
      | none => rfl
      | some b => rw [hmm] at d3; cases d3
    rw [d5, closer_none p hm, List.append_nil, List.take_of_length_le (by omega)]
  · rw [d7, List.take_of_length_le (by omega)]

end feedInvLemmas

section chunkLemmas

variable {σ : Type} (W : World σ) (p : Pico)

theorem selectV_bodySum (v v1 : FeedView) (hv : PhaseV p v) (hb : BodySumV p v)
    (h : selectV p v = some v1) : BodySumV p v1 := by
  obtain ⟨h0, h1, h2, h3, hd⟩ := hv
  obtain ⟨b1, b2, b3⟩ := hb
  unfold selectV at h
  split at h
  · split at h
    · cases h
      rcases hd with ⟨d1, d2, d3, d4, d5, d6, d7⟩ | ⟨d1, d2, d3, d4, d5⟩ | ⟨d1, d2, d3, d4, d5, d6, d7⟩
      · exact ⟨by simp [SRC_TEXT, SRC_OPENER], fun _ => b1 d1, by simp [SRC_TEXT, SRC_CLOSER]⟩
      · simp_all
      · simp_all
    · split at h
      · split at h
        · split at h
          · cases h
            rcases hd with ⟨d1, d2, d3, d4, d5, d6, d7⟩ | ⟨d1, d2, d3, d4, d5⟩ | ⟨d1, d2, d3, d4, d5, d6, d7⟩
            · simp_all
            · refine ⟨by simp [SRC_CLOSER, SRC_OPENER], by simp [SRC_TEXT, SRC_CLOSER], fun _ => ?_⟩
              show bodySent v.subs = _
              rw [b2 d1]; omega
            · simp_all
          · cases h; exact ⟨b1, b2, b3⟩
        · cases h
      · cases h; exact ⟨b1, b2, b3⟩
  · cases h; exact ⟨b1, b2, b3⟩

theorem bodySent_snoc (subs : List Submission) (a : Submission) :
    bodySent (subs ++ [a]) = bodySent subs + (if a.src = SRC_TEXT then a.sent else 0) := by
  unfold bodySent
  by_cases h : a.src = SRC_TEXT <;> simp [List.filter_append, h]

theorem putV_bodySum (v : FeedView) (sent : Int) (hb : BodySumV p v) :
    BodySumV p (putV p v sent) := by
  obtain ⟨b1, b2, b3⟩ := hb
  unfold putV
  refine ⟨fun h => ?_, fun h => ?_, fun h => ?_⟩
  · change v.inpSrc = SRC_OPENER at h
    show bodySent (v.subs ++ _) = 0
    rw [bodySent_snoc, b1 h]; simp [h, SRC_OPENER, SRC_TEXT]
  · change v.inpSrc = SRC_TEXT at h
    show bodySent (v.subs ++ _) = v.inpOff + sent
    rw [bodySent_snoc, b2 h]; simp [h]
  · change v.inpSrc = SRC_CLOSER at h
    show bodySent (v.subs ++ _) = _
    rw [bodySent_snoc, b3 h]; simp [h, SRC_CLOSER, SRC_TEXT]

theorem step_chunkInv (hc : p.closer.length ≤ 32767)
    (hwhole : ∀ w bytes size,
      (W.pico_putTextUtf8 w bytes size).1 = 0 ∧ (W.pico_putTextUtf8 w bytes size).2.1 = size)
    (s : PState σ) (hs : ChunkInv p s) : ChunkInv p (step W p s) := by
  have heng : ∀ w bytes size, 0 ≤ size →
      (W.pico_putTextUtf8 w bytes size).1 = 0 ∧ 0 ≤ (W.pico_putTextUtf8 w bytes size).2.1 ∧
        (W.pico_putTextUtf8 w bytes size).2.1 ≤ size := by
    intro w bytes size h
    obtain ⟨e1, e2⟩ := hwhole w bytes size
    exact ⟨e1, by omega, by omega⟩
  obtain ⟨hf, hb, hw⟩ := hs
  refine ⟨step_feedInv W p hc heng s hf, ?_⟩
  unfold step
  split
  · unfold stepFeed
    split
    · rw [feedView_leave]; exact ⟨hb, hw⟩
    · rename_i s1 hsel
      have hsv := selectChunk_some_view p s s1 hsel
      obtain ⟨e1, e2⟩ := hwhole s1.world (offeredBytes p s1.inpSrc s1.inpOff s1.text_remaining)
        s1.text_remaining
      obtain ⟨hview, -⟩ := feedText_view W p s1 e1
      rw [hview]
      refine ⟨putV_bodySum p _ _ (selectV_bodySum p _ _ hf.1 hb hsv), ?_⟩
      intro a ha
      unfold putV at ha
      simp only [List.mem_append, List.mem_singleton] at ha
      rcases ha with ha | ha
      · rw [selectV_subs p _ _ hsv] at ha; exact hw a ha
      · subst ha; exact e2
  · rw [(stepDrain_view W p s).1]; exact ⟨hb, hw⟩
  · exact ⟨hb, hw⟩

theorem init_chunkInv (w : σ) (hfresh : p.text_remaining = 0)
    (hL : p.total_text_length = p.local_text.length) (ho : p.opener.length ≤ 32767) :
    ChunkInv p (init W p w) := by
  refine ⟨init_feedInv W p w hfresh hL ho, ?_⟩
  rw [feedView_init]
  have hsubs : (feedView (init0 p w)).subs = [] := by
    unfold init0 feedView; split <;> simp [submissions]
  have hoff : (feedView (init0 p w)).inpOff = 0 := by
    unfold init0 feedView; split <;> rfl
  have hsrc : (feedView (init0 p w)).inpSrc ≠ SRC_CLOSER := by
    unfold init0 feedView; split <;> simp [SRC_CLOSER, SRC_OPENER, SRC_TEXT]
  refine ⟨⟨fun _ => by rw [hsubs]; rfl, fun _ => by rw [hsubs, hoff]; rfl,
    fun h => absurd h hsrc⟩, ?_⟩
  intro a ha; rw [hsubs] at ha; cases ha

theorem bodyChunks_eq_sent (log : List Event) (h : ∀ a ∈ submissions log, a.sent = a.size) :
    (bodyChunks log).sum = bodySent (submissions log) := by
  unfold bodyChunks bodySent
  congr 1
  apply List.map_congr_left
  intro a ha
  exact (h a (List.mem_of_mem_filter ha)).symm

theorem chunkInv_final (s : PState σ) (hs : ChunkInv p s) (r : Int)
    (hr : s.pc = Pc.returned r) (h0 : 0 ≤ r) : (bodyChunks s.log).sum = p.local_text.length := by
  obtain ⟨⟨⟨g0, g1, g2, g3, hd⟩, hsub, hdone⟩, ⟨b1, b2, b3⟩, hw⟩ := hs
  obtain ⟨f1, f2, f3, f4⟩ := hdone r hr h0
  rw [bodyChunks_eq_sent _ hw]
  change (feedView s).text_remaining = 0 at f1
  change (feedView s).do_startpad = false at f2
  change (feedView s).text_length = 0 at f3
  change bodySent (feedView s).subs = _
  rcases hd with ⟨d1, d2, d3, d4, d5, d6, d7⟩ | ⟨d1, d2, d3, d4, d5⟩ | ⟨d1, d2, d3, d4, d5, d6, d7⟩
  · rw [d3] at f2; cases f2
  · rw [b2 d1]; omega
  · exact b3 d1

end chunkLemmas

section fortyThousand

variable {σ : Type} (W : World σ) (p : Pico)

theorem step_stage40k
    (hwhole : ∀ w bytes size,
      (W.pico_putTextUtf8 w bytes size).1 = 0 ∧ (W.pico_putTextUtf8 w bytes size).2.1 = size)
    (s : PState σ) (hs : Stage40k p (feedView s)) : Stage40k p (feedView (step W p s)) := by
  unfold step
  split
  · unfold stepFeed
    split
    · rw [feedView_leave]; exact hs
    · rename_i s1 hsel
      have hsv := selectChunk_some_view p s s1 hsel
      obtain ⟨e1, e2⟩ := hwhole s1.world (offeredBytes p s1.inpSrc s1.inpOff s1.text_remaining)
        s1.text_remaining
      obtain ⟨hview, -⟩ := feedText_view W p s1 e1
      rw [hview, e2]
      rcases hs with h | h | h
      · rw [h] at hsv
        have : feedView s1 = ⟨SRC_TEXT, 0, 32767, 7233, false, false, []⟩ := by
          have h2 : selectV p ⟨SRC_TEXT, 0, 0, 40000, false, false, []⟩ =
              some ⟨SRC_TEXT, 0, 32767, 7233, false, false, []⟩ := by
            simp [selectV, increment, wrap16, wrap32]
          rw [h2] at hsv; exact (Option.some.inj hsv).symm
        have htr : s1.text_remaining = 32767 := congrArg FeedView.text_remaining this
        rw [this, htr]
        right; left
        simp [putV, chunkA, offeredBytes, mem_text, wrap16]
      · rw [h] at hsv
        have : feedView s1 = ⟨SRC_TEXT, 32767, 7233, 0, false, false, [chunkA p]⟩ := by
          have h2 : selectV p ⟨SRC_TEXT, 32767, 0, 7233, false, false, [chunkA p]⟩ =
              some ⟨SRC_TEXT, 32767, 7233, 0, false, false, [chunkA p]⟩ := by
            simp [selectV, increment, wrap16, wrap32]
          rw [h2] at hsv; exact (Option.some.inj hsv).symm
        have htr : s1.text_remaining = 7233 := congrArg FeedView.text_remaining this
        rw [this, htr]
        right; right
        simp [putV, chunkB, offeredBytes, mem_text, wrap16]
      · rw [h] at hsv
        have h2 : selectV p ⟨SRC_TEXT, 40000, 0, 0, false, false, [chunkA p, chunkB p]⟩ =
            none := by
          simp [selectV]
        rw [h2] at hsv; cases hsv
  · rw [(stepDrain_view W p s).1]; exact hs
  · exact hs

theorem init_stage40k (w : σ) (hm : p.modifiers = none) (hfresh : p.text_remaining = 0)
    (hL : p.total_text_length = 40000) : Stage40k p (feedView (init W p w)) := by
  rw [feedView_init]
  left
  unfold init0 feedView
  rw [hm]
  simp [hfresh, hL, submissions]

theorem process_stage40k (w : σ) (hm : p.modifiers = none) (hfresh : p.text_remaining = 0)
    (hL : p.total_text_length = 40000)
    (hwhole : ∀ w bytes size,
      (W.pico_putTextUtf8 w bytes size).1 = 0 ∧ (W.pico_putTextUtf8 w bytes size).2.1 = size)
    (n : Nat) : Stage40k p (feedView (process W p w n)) :=
  process_invariant W p w (fun s => Stage40k p (feedView s))
    (init_stage40k W p w hm hfresh hL) (step_stage40k W p hwhole) n

end fortyThousand

section singleCycle

variable {σ : Type} (W : World σ) (p : Pico)

theorem memcpyInto_take (buf : List Nat) (off : Nat) (frag : List Nat) (h : off ≤ buf.length) :
    (memcpyInto buf off frag).take (off + frag.length) = buf.take off ++ frag := by
  unfold memcpyInto
  apply List.take_left'
  simp [List.length_take, Nat.min_eq_left h]

theorem streamOf_snoc (fl : List (List Nat × Nat)) (buf : List Nat) (n : Nat) :
    streamOf (fl ++ [(buf, n)]) = streamOf fl ++ buf.take (2 * n) := by
  simp [streamOf, sinkBytes]

theorem accumulate_stream (s : PState σ) (outbuf : List Nat) (hlen : outbuf.length ≤ 128)
    (heven : outbuf.length % 2 = 0) (hb : BufInv s) (he : s.bufused % 2 = 0)
    (fl : List (List Nat × Nat)) (hag : SinkAgree p s.log fl) :
    (accumulate W p s outbuf).bufused % 2 = 0 ∧ (accumulate W p s outbuf).pc = s.pc ∧
    idleDrains (accumulate W p s outbuf).log = idleDrains s.log ∧
    drained (accumulate W p s outbuf).log = drained s.log ∧
    ∃ fl2, SinkAgree p (accumulate W p s outbuf).log fl2 ∧
      streamOf fl2 ++ (accumulate W p s outbuf).pcm_buffer.take (accumulate W p s outbuf).bufused =
        streamOf fl ++ s.pcm_buffer.take s.bufused ++ outbuf := by
  obtain ⟨h1, h2, h3⟩ := hb
  unfold PCM_BUFFER_SIZE at h1 h2
  have hbr : bytesRecv outbuf = outbuf.length := bytesRecv_small _ (by omega)
  have hnil : SinkAgree p [Event.memcpy 0 0] [] ∧ ∀ a b, SinkAgree p [Event.memcpy a b] [] :=
    ⟨SinkAgree.of_nil p (by simp [wavCalls]) (by simp [stdoutCalls]) (by simp [playbackCalls]),
     fun a b => SinkAgree.of_nil p (by simp [wavCalls]) (by simp [stdoutCalls])
       (by simp [playbackCalls])⟩
  unfold accumulate
  simp only [hbr, List.take_length]
  split
  · split
    · rename_i hpos hfit
      unfold PCM_BUFFER_SIZE at hfit
      have hfit' : s.bufused + outbuf.length ≤ 256 := by omega
      have hmod : (s.bufused + outbuf.length) % 4294967296 = s.bufused + outbuf.length := by omega
      refine ⟨by dsimp only; omega, rfl, by simp [idleDrains_append, idleDrains],
        by simp [drained, drainedFrags_append, drainedFrags], fl, ?_, ?_⟩
      · have := hag.append p (hnil.2 s.bufused outbuf.length)
        simpa using this
      · dsimp only
        rw [hmod, memcpyInto_take _ _ _ (by omega), List.append_assoc]
    · rename_i hpos hfit
      obtain ⟨evs, hlog, -, hdr, hid, -, -⟩ := writeOut_log W p s
      obtain ⟨evs2, hlog2, hag2⟩ := writeOut_sinkAgree W p s
      have hevs : evs2 = evs := List.append_cancel_left (hlog2.symm.trans hlog)
      subst hevs
      have hmod : outbuf.length % 4294967296 = outbuf.length := by omega
      refine ⟨by dsimp only; omega, by dsimp only; rw [writeOut_pc],
        by dsimp only; rw [hlog, idleDrains_append, idleDrains_append, hid]; simp [idleDrains],
        by dsimp only; rw [hlog]; unfold drained
           rw [drainedFrags_append, drainedFrags_append, hdr]; simp [drainedFrags],
        fl ++ [(s.pcm_buffer, s.bufused / 2)] ++ [], ?_, ?_⟩
      · dsimp only
        rw [hlog]
        exact (hag.append p hag2).append p (hnil.2 0 outbuf.length)
      · dsimp only
        rw [hmod, List.append_nil, streamOf_snoc, writeOut_pcm_buffer]
        have h0 := memcpyInto_take s.pcm_buffer 0 outbuf (Nat.zero_le _)
        simp only [Nat.zero_add, List.take_zero, List.nil_append] at h0
        rw [h0]
        have : 2 * (s.bufused / 2) = s.bufused := by omega
        rw [this]
  · rename_i hpos
    have hz : outbuf = [] := by
      have : wrap16 (outbuf.length : Int) = outbuf.length := wrap16_small _ (by omega)
      rw [this] at hpos
      have : outbuf.length = 0 := by omega
      exact List.length_eq_zero.mp this
    exact ⟨he, rfl, rfl, rfl, fl, hag, by rw [hz, List.append_nil]⟩

end singleCycle

section singleCycleRun

variable {σ : Type} (W : World σ) (p : Pico)

theorem getData_facts (s : PState σ) (hlen : (W.pico_getData s.world).2.1.length ≤ 128) :
    (getData W s).bufused = s.bufused ∧ (getData W s).pcm_buffer = s.pcm_buffer ∧
    (getData W s).pc = s.pc ∧
    idleDrains (getData W s).log =
      idleDrains s.log + (if (W.pico_getData s.world).1 = PICO_STEP_IDLE then 1 else 0) ∧
    drained (getData W s).log = drained s.log ++
      (if (W.pico_getData s.world).1 = PICO_STEP_BUSY ∨ (W.pico_getData s.world).1 = PICO_STEP_IDLE
        then (W.pico_getData s.world).2.1 else []) ∧
    ∀ fl, SinkAgree p s.log fl → SinkAgree p (getData W s).log fl := by
  have hbr := bytesRecv_small _ (show (W.pico_getData s.world).2.1.length ≤ 32767 by omega)
  refine ⟨rfl, rfl, rfl, ?_, ?_, ?_⟩
  · unfold getData
    rw [idleDrains_append]
    by_cases h : (W.pico_getData s.world).1 = PICO_STEP_IDLE <;> simp [idleDrains, h]
  · unfold getData drained
    rw [drainedFrags_append]
    by_cases h : (W.pico_getData s.world).1 = PICO_STEP_BUSY ∨
        (W.pico_getData s.world).1 = PICO_STEP_IDLE
    · simp [drainedFrags, h, hbr]
    · simp [drainedFrags, h]
  · intro fl hfl
    have := hfl.append p (SinkAgree.of_nil p
      (show wavCalls [Event.getData (W.pico_getData s.world).1 (W.pico_getData s.world).2.1] = []
        by simp [wavCalls]) (by simp [stdoutCalls]) (by simp [playbackCalls]))
    simpa [getData] using this

theorem selectChunk_none_of_view (s : PState σ) (h : selectV p (feedView s) = none) :
    selectChunk p s = none := by
  have := selectChunk_view p s
  rw [h] at this
  cases hs : selectChunk p s with
  | none => rfl
  | some s1 => rw [hs] at this; cases this

theorem step_cycleInv (one : Submission)
    (hfrag : ∀ w, (W.pico_getData w).2.1.length ≤ 128 ∧ (W.pico_getData w).2.1.length % 2 = 0)
    (s : PState σ) (hs : CycleInv p one s) : CycleInv p one (step W p s) := by
  obtain ⟨hv, hb, he, fl, hag, hdr, hfl⟩ := hs
  unfold step
  split
  · -- the loop head: nothing is left to feed
    rename_i hpc
    have hnone : selectChunk p s = none := by
      apply selectChunk_none_of_view
      rw [hv]; simp [selectV]
    obtain ⟨e1, e2, evs, e3, c1, c2, c3, c4, c5, c6⟩ := stepFeed_frame W p s
    have hpc' : (stepFeed W p s).pc = Pc.returned (wrap32 s.bufused) := by
      unfold stepFeed; rw [hnone]; rfl
    have hview : feedView (stepFeed W p s) = feedView s := by
      unfold stepFeed; rw [hnone]; exact feedView_leave W s
    obtain ⟨k1, k2⟩ := hfl (by rw [hpc]; simp) (by rw [hpc]; simp)
    refine ⟨by rw [hview]; exact hv, ?_, by rw [e1]; exact he, fl, ?_, ?_, ?_⟩
    · obtain ⟨h1, h2, h3⟩ := hb
      refine ⟨by rw [e1]; exact h1, by rw [e2]; exact h2, ?_⟩
      intro c hc
      rw [e3, copies_append, c1, List.append_nil] at hc
      exact h3 c hc
    · rw [e3]
      have := hag.append p (SinkAgree.of_nil p c4 c5 c6)
      simpa using this
    · intro h; rw [hpc'] at h; cases h
    · intro _ _
      have hd0 : drained evs = [] := by unfold drained; rw [c2]; rfl
      rw [e3, idleDrains_append, c3, drained_append, hd0, List.append_nil]
      exact ⟨k1, k2⟩
  · -- one drain
    rename_i hpc
    obtain ⟨k1, k2⟩ := hdr hpc
    obtain ⟨hl, hev⟩ := hfrag s.world
    obtain ⟨g1, g2, g3, g4, g5, g6⟩ := getData_facts W p s hl
    have hbg := getData_bufInv W s hb
    have hvg := feedView_getData W s
    obtain ⟨a1, a2, a3, a4, fl2, a5, a6⟩ := accumulate_stream W p (getData W s)
      (W.pico_getData s.world).2.1 hl hev hbg (by rw [g1]; exact he) fl (g6 fl hag)
    have hba := accumulate_bufInv W p (getData W s) _ (by unfold MAX_OUTBUF_SIZE; exact hl) hbg
    have hva := feedView_accumulate W p (getData W s) (W.pico_getData s.world).2.1
    rw [g1, g2, k2] at a6
    unfold stepDrain
    split
    · refine ⟨by rw [← hv]; exact hvg, hbg, by show (getData W s).bufused % 2 = 0; rw [g1]; exact he,
        fl, g6 fl hag, ?_, ?_⟩
      · intro h; cases h
      · intro _ h; exact absurd rfl h
    · rename_i hst
      split
      · rename_i hbusy
        refine ⟨by rw [hva, hvg]; exact hv, hba, a1, fl2, a5, ?_, ?_⟩
        · intro _
          refine ⟨?_, ?_⟩
          · rw [a3, g4, k1]; simp [hbusy, PICO_STEP_BUSY, PICO_STEP_IDLE]
          · rw [a6, a4, g5]; simp [hbusy]
        · intro h; rw [a2, g3, hpc] at h; exact absurd rfl h
      · rename_i hnb
        have hidle : (W.pico_getData s.world).1 = PICO_STEP_IDLE := by
          by_contra hni; exact hst ⟨hnb, hni⟩
        obtain ⟨evs, hlog, -, hdr2, hid2, hcp2, -⟩ := writeOut_log W p
          (accumulate W p (getData W s) (W.pico_getData s.world).2.1)
        obtain ⟨evs2, hlog2, hag2⟩ := writeOut_sinkAgree W p
          (accumulate W p (getData W s) (W.pico_getData s.world).2.1)
        have hevs : evs2 = evs := List.append_cancel_left (hlog2.symm.trans hlog)
        subst hevs
        have hbw := writeOut_bufInv W p _ hba
        refine ⟨?_, hbw, ?_, fl2 ++ [((accumulate W p (getData W s)
          (W.pico_getData s.world).2.1).pcm_buffer, (accumulate W p (getData W s)
          (W.pico_getData s.world).2.1).bufused / 2)], ?_, ?_, ?_⟩
        · have := feedView_writeOut W p (accumulate W p (getData W s) (W.pico_getData s.world).2.1)
          rw [hva, hvg, hv] at this
          exact this
        · show (writeOut W p _).bufused % 2 = 0
          rw [writeOut_bufused]; exact a1
        · show SinkAgree p (writeOut W p _).log _
          rw [hlog]; exact a5.append p hag2
        · intro h; cases h
        · intro _ _
          show idleDrains (writeOut W p _).log = 1 ∧ _ = drained (writeOut W p _).log
          have hd0 : drained evs2 = [] := by unfold drained; rw [hdr2]; rfl
          rw [hlog, idleDrains_append, hid2, a3, g4, k1, drained_append, hd0, List.append_nil]
          refine ⟨by simp [hidle], ?_⟩
          have h2 : 2 * ((accumulate W p (getData W s) (W.pico_getData s.world).2.1).bufused / 2)
              = (accumulate W p (getData W s) (W.pico_getData s.world).2.1).bufused := by omega
          rw [streamOf_snoc, h2, a6, a4, g5]; simp [hidle]
  · exact ⟨hv, hb, he, fl, hag, hdr, hfl⟩

end singleCycleRun

section singleCycleInit

variable {σ : Type} (W : World σ) (p : Pico)

theorem offered_whole : offeredBytes p SRC_TEXT 0 (p.local_text.length) = p.local_text := by
  simp [offeredBytes, mem_text]

theorem init_pc (w : σ) : (init W p w).pc = Pc.feed ∨ (init W p w).pc = Pc.returned (-1) := by
  unfold init
  split
  · split
    · left; unfold init0; split <;> rfl
    · right; rfl
  · left; unfold init0; split <;> rfl

theorem feedView_init_none (w : σ) (hm : p.modifiers = none) (hfresh : p.text_remaining = 0) :
    feedView (init W p w) = ⟨SRC_TEXT, 0, 0, p.total_text_length, false, false, []⟩ := by
  rw [feedView_init]
  unfold init0 feedView
  rw [hm]
  simp [hfresh, submissions]

theorem step_init_cycle (w : σ) (hm : p.modifiers = none) (hfresh : p.text_remaining = 0)
    (hL : p.total_text_length = p.local_text.length) (h1 : 1 ≤ p.local_text.length)
    (h2 : p.local_text.length ≤ 32767)
    (hput : (W.pico_putTextUtf8 (init W p w).world p.local_text p.local_text.length).1 = 0 ∧
      (W.pico_putTextUtf8 (init W p w).world p.local_text p.local_text.length).2.1 =
        p.local_text.length)
    (hfrag : ∀ w, (W.pico_getData w).2.1.length ≤ 128 ∧ (W.pico_getData w).2.1.length % 2 = 0)
    (hpc : (init W p w).pc = Pc.feed) :
    CycleInv p (oneChunk p) (step W p (init W p w)) ∧ (step W p (init W p w)).pc = Pc.drain := by
  have hstep : step W p (init W p w) = stepFeed W p (init W p w) := by
    unfold step; rw [hpc]
  have hiv := feedView_init_none W p w hm hfresh
  obtain ⟨i0, i1, i2, i3, -⟩ := increment_bounds (p.local_text.length : Int) (by omega)
  have hinc : increment (p.local_text.length : Int) = p.local_text.length := i3 (by omega)
  have hsv : selectV p (feedView (init W p w)) =
      some ⟨SRC_TEXT, 0, p.local_text.length, 0, false, false, []⟩ := by
    rw [hiv, hL]
    unfold selectV
    have hw := wrap16_id (p.local_text.length : Int) (by omega) (by omega)
    have hne : ¬ ((p.local_text.length : Int) ≤ 0) := by omega
    simp [hinc, hw, hne]
  have hsel := selectChunk_view p (init W p w)
  rw [hsv] at hsel
  cases hsc : selectChunk p (init W p w) with
  | none => rw [hsc] at hsel; cases hsel
  | some s1 =>
    rw [hsc] at hsel
    have hv1 : feedView s1 = ⟨SRC_TEXT, 0, p.local_text.length, 0, false, false, []⟩ :=
      Option.some.inj hsel
    have f1 : s1.inpSrc = SRC_TEXT := congrArg FeedView.inpSrc hv1
    have f2 : s1.inpOff = 0 := congrArg FeedView.inpOff hv1
    have f3 : s1.text_remaining = p.local_text.length := congrArg FeedView.text_remaining hv1
    obtain ⟨-, -, -, -, f4, -⟩ := selectChunk_frame p _ s1 hsc
    have hret : (W.pico_putTextUtf8 s1.world (offeredBytes p s1.inpSrc s1.inpOff
        s1.text_remaining) s1.text_remaining).1 = 0 := by
      rw [f1, f2, f3, f4, offered_whole]; exact hput.1
    have hsent : (W.pico_putTextUtf8 s1.world (offeredBytes p s1.inpSrc s1.inpOff
        s1.text_remaining) s1.text_remaining).2.1 = p.local_text.length := by
      rw [f1, f2, f3, f4, offered_whole]; exact hput.2
    obtain ⟨hview, hpc2⟩ := feedText_view W p s1 hret
    have hsf : stepFeed W p (init W p w) = feedText W p s1 := by
      unfold stepFeed; rw [hsc]
    obtain ⟨e1, e2, evs, e3, c1, c2, c3, c4, c5, c6⟩ := stepFeed_frame W p (init W p w)
    obtain ⟨-, j2, j3, j4, j5, j6, j7⟩ := init_log_proj W p w
    have hb := step_bufInv W p (fun w => by unfold MAX_OUTBUF_SIZE; exact (hfrag w).1) _
      (init_bufInv W p w)
    rw [hstep] at hb ⊢
    refine ⟨⟨?_, hb, by rw [e1, init_bufused], [], ?_, ?_, ?_⟩, by rw [hsf, hpc2]⟩
    · rw [hsf, hview, hsent, hv1]
      simp [putV, oneChunk, offered_whole, wrap16]
    · rw [e3]
      have := (SinkAgree.of_nil p j5 j6 j7).append p (SinkAgree.of_nil p c4 c5 c6)
      simpa using this
    · intro _
      have hd0 : drained evs = [] := by unfold drained; rw [c2]; rfl
      have hd1 : drained (init W p w).log = [] := by unfold drained; rw [j2]; rfl
      rw [e3, idleDrains_append, c3, j3, drained_append, hd0, hd1, e1, init_bufused]
      simp [streamOf]
    · intro h; rw [hsf, hpc2] at h; exact absurd rfl h

theorem process_single (w : σ) (hm : p.modifiers = none) (hfresh : p.text_remaining = 0)
    (hL : p.total_text_length = p.local_text.length) (h1 : 1 ≤ p.local_text.length)
    (h2 : p.local_text.length ≤ 32767)
    (hput : (W.pico_putTextUtf8 (init W p w).world p.local_text p.local_text.length).1 = 0 ∧
      (W.pico_putTextUtf8 (init W p w).world p.local_text p.local_text.length).2.1 =
        p.local_text.length)
    (hfrag : ∀ w, (W.pico_getData w).2.1.length ≤ 128 ∧ (W.pico_getData w).2.1.length % 2 = 0)
    (n : Nat) :
    process W p w n = init W p w ∨ CycleInv p (oneChunk p) (process W p w n) := by
  refine process_invariant W p w
    (fun s => s = init W p w ∨ CycleInv p (oneChunk p) s) (Or.inl rfl) ?_ n
  rintro s (hs | hs)
  · rw [hs]
    rcases init_pc W p w with hpc | hpc
    · exact Or.inr (step_init_cycle W p w hm hfresh hL h1 h2 hput hfrag hpc).1
    · left; unfold step; rw [hpc]
  · exact Or.inr (step_cycleInv W p _ hfrag s hs)

theorem cycle_feed_returns (one : Submission) (s : PState σ) (hs : CycleInv p one s)
    (hpc : s.pc = Pc.feed) : (step W p s).pc = Pc.returned (wrap32 s.bufused) := by
  have hnone : selectChunk p s = none := by
    apply selectChunk_none_of_view
    rw [hs.1]; simp [selectV]
  unfold step; rw [hpc]
  show (stepFeed W p s).pc = _
  unfold stepFeed; rw [hnone]; rfl

theorem writeOut_measure (μ : σ → Nat)
    (hsink : ∀ w n buf, μ (W.picoos_sdfPutSamples w n buf).2 ≤ μ w) (s : PState σ) :
    μ (writeOut W p s).world ≤ μ s.world := by
  unfold writeOut
  split
  · split
    · exact hsink _ _ _
    · exact hsink _ _ _
  · split <;> exact le_refl _

theorem accumulate_measure (μ : σ → Nat)
    (hsink : ∀ w n buf, μ (W.picoos_sdfPutSamples w n buf).2 ≤ μ w) (s : PState σ)
    (outbuf : List Nat) : μ (accumulate W p s outbuf).world ≤ μ s.world := by
  unfold accumulate
  split
  · split
    · exact le_refl _
    · exact writeOut_measure W p μ hsink s
  · exact le_refl _

theorem drain_reaches_feed (μ : σ → Nat)
    (hbusy : ∀ w, (W.pico_getData w).1 = PICO_STEP_BUSY → μ (W.pico_getData w).2.2 < μ w)
    (hsink : ∀ w n buf, μ (W.picoos_sdfPutSamples w n buf).2 ≤ μ w)
    (hstat : ∀ w, (W.pico_getData w).1 = PICO_STEP_BUSY ∨ (W.pico_getData w).1 = PICO_STEP_IDLE) :
    ∀ m (s : PState σ), μ s.world ≤ m → s.pc = Pc.drain →
      ∃ k, k ≤ m + 1 ∧ (run W p k s).pc = Pc.feed := by
  intro m
  induction m with
  | zero =>
    intro s hm hpc
    refine ⟨1, le_refl _, ?_⟩
    show (step W p s).pc = Pc.feed
    unfold step; rw [hpc]
    show (stepDrain W p s).pc = Pc.feed
    unfold stepDrain
    rcases hstat s.world with hb | hi
    · have := hbusy s.world hb; omega
    · rw [if_neg (by simp [hi]), if_neg (by simp [hi, PICO_STEP_IDLE, PICO_STEP_BUSY])]
  | succ m ih =>
    intro s hm hpc
    rcases hstat s.world with hb | hi
    · have hstep : step W p s = accumulate W p (getData W s) (W.pico_getData s.world).2.1 := by
        unfold step; rw [hpc]
        show stepDrain W p s = _
        unfold stepDrain
        rw [if_neg (by simp [hb]), if_pos hb]
      have hpc' : (step W p s).pc = Pc.drain := by
        have := (stepDrain_view W p s).2
        have hsd : step W p s = stepDrain W p s := by unfold step; rw [hpc]
        rw [hstep]
        unfold accumulate
        split
        · split
          · exact hpc
          · show (writeOut W p (getData W s)).pc = _
            rw [writeOut_pc]; exact hpc
        · exact hpc
      have hμ : μ (step W p s).world ≤ m := by
        rw [hstep]
        have h1 := accumulate_measure W p μ hsink (getData W s) (W.pico_getData s.world).2.1
        have h2 : μ (getData W s).world < μ s.world := hbusy s.world hb
        omega
      obtain ⟨k, hk, hkpc⟩ := ih (step W p s) hμ hpc'
      exact ⟨k + 1, by omega, hkpc⟩
    · refine ⟨1, by omega, ?_⟩
      show (step W p s).pc = Pc.feed
      unfold step; rw [hpc]
      show (stepDrain W p s).pc = Pc.feed
      unfold stepDrain
      rw [if_neg (by simp [hi]), if_neg (by simp [hi, PICO_STEP_IDLE, PICO_STEP_BUSY])]

theorem init_pc_feed (w : σ)
    (hopen : p.pico_writeWavPcm = true → (W.picoos_sdfOpenOut w).1 = true) :
    (init W p w).pc = Pc.feed := by
  unfold init
  split
  · rename_i hw
    rw [if_pos (hopen hw)]
    unfold init0; split <;> rfl
  · unfold init0; split <;> rfl

end singleCycleInit

section boilerplateBounds

theorem clamp_range (r : Int) :
    -2147483648 ≤ (if -2147483648 ≤ r ∧ r < 2147483648 then r else INT_MIN) ∧
      (if -2147483648 ≤ r ∧ r < 2147483648 then r else INT_MIN) < 2147483648 := by
  split
  · assumption
  · unfold INT_MIN; omega

theorem ivalueOf_range (x : F32) : -2147483648 ≤ ivalueOf x ∧ ivalueOf x < 2147483648 := by
  unfold ivalueOf
  by_cases h : F32.expField x = 255
  · rw [if_pos h]; unfold INT_MIN; omega
  · rw [if_neg h]
    exact clamp_range _

theorem decDigits_length (fuel : Nat) : ∀ (n k : Nat), 1 ≤ k → n < 10 ^ k →
    (decDigits fuel n).length ≤ k := by
  induction fuel with
  | zero => intro n k hk _; simp [decDigits]
  | succ fuel ih =>
    intro n k hk h
    unfold decDigits
    split
    · simpa using hk
    · rename_i h10
      have hk2 : 2 ≤ k := by
        by_contra hlt
        have : k = 1 := by omega
        subst this
        simp at h
        omega
      have hdiv : n / 10 < 10 ^ (k - 1) := by
        have hpow : 10 ^ k = 10 ^ (k - 1) * 10 := by
          rw [← pow_succ]; congr 1; omega
        rw [hpow] at h
        exact Nat.div_lt_of_lt_mul (by rw [Nat.mul_comm]; exact h)
      have := ih (n / 10) (k - 1) (by omega) hdiv
      simp only [List.length_append, List.length_singleton]
      omega

theorem decDigits_pos (fuel n : Nat) : 0 < (decDigits (fuel + 1) n).length := by
  unfold decDigits
  split <;> simp

theorem decimal_length (v : Int) (h1 : -2147483648 ≤ v) (h2 : v < 2147483648) :
    (decimal v).length ≤ 11 := by
  unfold decimal decimalNat
  split
  · have := decDigits_length (v.natAbs + 1) v.natAbs 10 (by decide) (by omega)
    simp only [List.length_cons]
    omega
  · have := decDigits_length (v.toNat + 1) v.toNat 10 (by decide) (by omega)
    omega

theorem sprintf_pads (N : Int) :
    sprintf_d "<speed level=\"%d\">".toList N = "<speed level=\"".toList ++ decimal N ++ "\">".toList ∧
    sprintf_d "<pitch level=\"%d\">".toList N = "<pitch level=\"".toList ++ decimal N ++ "\">".toList ∧
    sprintf_d "<volume level=\"%d\">".toList N =
      "<volume level=\"".toList ++ decimal N ++ "\">".toList :=
  ⟨rfl, rfl, rfl⟩

namespace Boilerplate

theorem openTag_length (r : ValRef) (v : F32) :
    0 < (openTag r v).length ∧ (openTag r v).length ≤ 28 := by
  have hr := ivalueOf_range v
  have hd := decimal_length (ivalueOf v) hr.1 hr.2
  cases r <;> simp [openTag, tagName] <;> omega

theorem closeTag_length (r : ValRef) : 0 < (closeTag r).length ∧ (closeTag r).length ≤ 9 := by
  cases r <;> simp [closeTag, tagName]

theorem platesOf_length (s p v : F32) :
    (platesOf s p v).1.length ≤ 82 ∧ (platesOf s p v).2.length ≤ 25 := by
  have d1 := decimal_length (ivalueOf s) (ivalueOf_range s).1 (ivalueOf_range s).2
  have d2 := decimal_length (ivalueOf p) (ivalueOf_range p).1 (ivalueOf_range p).2
  have d3 := decimal_length (ivalueOf v) (ivalueOf_range v).1 (ivalueOf_range v).2
  have h1 : (openTag ValRef.speed s).length ≤ 27 := by simp [openTag, tagName]; omega
  have h2 : (openTag ValRef.pitch p).length ≤ 27 := by simp [openTag, tagName]; omega
  have h3 : (openTag ValRef.volume v).length ≤ 28 := by simp [openTag, tagName]; omega
  have c1 : (closeTag ValRef.speed).length = 8 := by simp [closeTag, tagName]
  have c2 : (closeTag ValRef.pitch).length = 8 := by simp [closeTag, tagName]
  have c3 : (closeTag ValRef.volume).length = 9 := by simp [closeTag, tagName]
  by_cases e1 : s = F32.negOne <;> by_cases e2 : p = F32.negOne <;>
    by_cases e3 : v = F32.negOne <;>
    simp [platesOf, setRefs, getVal, e1, e2, e3] <;> omega

theorem platesOf_nonempty (s p v : F32) :
    ((platesOf s p v).1 ≠ [] ↔ (s ≠ F32.negOne ∨ p ≠ F32.negOne ∨ v ≠ F32.negOne)) ∧
    ((platesOf s p v).2 ≠ [] ↔ (s ≠ F32.negOne ∨ p ≠ F32.negOne ∨ v ≠ F32.negOne)) := by
  have h1 := (openTag_length ValRef.speed s).1
  have h2 := (openTag_length ValRef.pitch p).1
  have h3 := (openTag_length ValRef.volume v).1
  have c1 := (closeTag_length ValRef.speed).1
  have c2 := (closeTag_length ValRef.pitch).1
  have c3 := (closeTag_length ValRef.volume).1
  have n1 : openTag ValRef.speed s ≠ [] := fun h => by rw [h] at h1; simp at h1
  have n2 : openTag ValRef.pitch p ≠ [] := fun h => by rw [h] at h2; simp at h2
  have n3 : openTag ValRef.volume v ≠ [] := fun h => by rw [h] at h3; simp at h3
  have m1 : closeTag ValRef.speed ≠ [] := fun h => by rw [h] at c1; simp at c1
  have m2 : closeTag ValRef.pitch ≠ [] := fun h => by rw [h] at c2; simp at c2
  have m3 : closeTag ValRef.volume ≠ [] := fun h => by rw [h] at c3; simp at c3
  by_cases e1 : s = F32.negOne <;> by_cases e2 : p = F32.negOne <;>
    by_cases e3 : v = F32.negOne <;>
    simp [platesOf, setRefs, getVal, e1, e2, e3, n1, n2, n3, m1, m2, m3]

theorem isChanged_iff (b : Boilerplate) :
    isChanged b = true ↔
      (b.speed ≠ F32.negOne ∨ b.pitch ≠ F32.negOne ∨ b.volume ≠ F32.negOne) := by
  unfold isChanged
  by_cases e1 : b.speed = F32.negOne <;> by_cases e2 : b.pitch = F32.negOne <;>
    by_cases e3 : b.volume = F32.negOne <;> simp [e1, e2, e3]

end Boilerplate

end boilerplateBounds

section runMore

variable {σ : Type} (W : World σ) (p : Pico)

theorem run_add (n k : Nat) (s : PState σ) : run W p (n + k) s = run W p k (run W p n s) := by
  induction n generalizing s with
  | zero => simp [run]
  | succ n ih =>
    have : n + 1 + k = (n + k) + 1 := by omega
    rw [this]
    show run W p (n + k) (step W p s) = run W p k (run W p n (step W p s))
    exact ih (step W p s)

theorem process_add (w : σ) (n k : Nat) :
    process W p w (n + k) = run W p k (process W p w n) := run_add W p n k _

theorem step_returned (s : PState σ) (r : Int) (h : s.pc = Pc.returned r) : step W p s = s := by
  unfold step; rw [h]

theorem run_returned (s : PState σ) (r : Int) (h : s.pc = Pc.returned r) (k : Nat) :
    run W p k s = s := by
  induction k with
  | zero => rfl
  | succ k ih =>
    show run W p k (step W p s) = s
    rw [step_returned W p s r h]; exact ih

theorem step_log_append (s : PState σ) : ∃ evs, (step W p s).log = s.log ++ evs := by
  obtain ⟨evs, _, h, _⟩ := step_sinkAgree W p s
  exact ⟨evs, h⟩

theorem run_log_append (k : Nat) (s : PState σ) : ∃ evs, (run W p k s).log = s.log ++ evs := by
  induction k generalizing s with
  | zero => exact ⟨[], by simp [run]⟩
  | succ k ih =>
    obtain ⟨e1, h1⟩ := step_log_append W p s
    obtain ⟨e2, h2⟩ := ih (step W p s)
    exact ⟨e1 ++ e2, by show (run W p k (step W p s)).log = _; rw [h2, h1, List.append_assoc]⟩

theorem writeOut_log_eq (s : PState σ) : (writeOut W p s).log = s.log ++ flushEvents W p s := by
  unfold writeOut flushEvents
  cases hw : p.pico_writeWavPcm <;> cases hl : p.listener <;> simp

theorem writeOut_world (s : PState σ) :
    (writeOut W p s).world =
      if p.pico_writeWavPcm then (W.picoos_sdfPutSamples s.world (s.bufused / 2) s.pcm_buffer).2
      else s.world := by
  unfold writeOut
  cases hw : p.pico_writeWavPcm <;> cases hl : p.listener <;> simp

theorem flushEvents_sinkWrites (s : PState σ) : ∀ e ∈ flushEvents W p s, e.isSinkWrite = true := by
  intro e he
  unfold flushEvents at he
  rw [List.mem_append] at he
  rcases he with he | he
  · split at he
    · simp at he; subst he; rfl
    · cases he
  · cases hl : p.listener with
    | none => rw [hl] at he; cases he
    | some l =>
      rw [hl] at he
      obtain ⟨c, m⟩ := l
      rcases c with _ | c
      · simp [Listener.writeData] at he
      · cases c <;>
          simp only [Listener.writeData, write_short_to_stdout, write_short_to_playback,
            write_short_to_playback_and_stdout] at he
        · split at he
          · simp at he; subst he; rfl
          · cases he
        · split at he
          · simp at he; subst he; rfl
          · cases he
        · rw [List.mem_append] at he
          rcases he with he | he
          · split at he
            · simp at he; subst he; rfl
            · cases he
          · split at he
            · simp at he; subst he; rfl
            · cases he

theorem flushEvents_sinkAgree (s : PState σ) :
    SinkAgree p (flushEvents W p s) [(s.pcm_buffer, s.bufused / 2)] := by
  obtain ⟨evs, hlog, hag⟩ := writeOut_sinkAgree W p s
  have : evs = flushEvents W p s :=
    List.append_cancel_left (hlog.symm.trans (writeOut_log_eq W p s))
  rw [← this]; exact hag

end runMore

section accumulateCases

variable {σ : Type} (W : World σ) (p : Pico)

theorem accumulate_empty (s : PState σ) (outbuf : List Nat) (h : outbuf.length = 0) :
    accumulate W p s outbuf = s := by
  unfold accumulate
  rw [h]
  have : ¬ (0 < wrap16 ((0 : Nat) : Int)) := by decide
  rw [if_neg this]

end accumulateCases

section idleFlush

variable {σ : Type} (W : World σ) (p : Pico)

theorem stepDrain_idle (s : PState σ) (hidle : (W.pico_getData s.world).1 = PICO_STEP_IDLE) :
    stepDrain W p s =
      { writeOut W p (accumulate W p (getData W s) (W.pico_getData s.world).2.1) with
        pc := Pc.feed } := by
  unfold stepDrain
  have h1 : ¬ ((W.pico_getData s.world).1 ≠ PICO_STEP_BUSY ∧
      (W.pico_getData s.world).1 ≠ PICO_STEP_IDLE) := fun h => h.2 hidle
  have h2 : ¬ ((W.pico_getData s.world).1 = PICO_STEP_BUSY) := by
    rw [hidle]; decide
  rw [if_neg h1, if_neg h2]

theorem stepDrain_busy (s : PState σ) (hbusy : (W.pico_getData s.world).1 = PICO_STEP_BUSY) :
    stepDrain W p s = accumulate W p (getData W s) (W.pico_getData s.world).2.1 := by
  unfold stepDrain
  have h1 : ¬ ((W.pico_getData s.world).1 ≠ PICO_STEP_BUSY ∧
      (W.pico_getData s.world).1 ≠ PICO_STEP_IDLE) := fun h => h.1 hbusy
  rw [if_neg h1, if_pos hbusy]

theorem stepDrain_error (s : PState σ)
    (herr : (W.pico_getData s.world).1 ≠ PICO_STEP_BUSY ∧
      (W.pico_getData s.world).1 ≠ PICO_STEP_IDLE) :
    stepDrain W p s = { getData W s with pc := Pc.returned (-4) } := by
  unfold stepDrain
  rw [if_pos herr]

theorem step_drain (s : PState σ) (h : s.pc = Pc.drain) : step W p s = stepDrain W p s := by
  unfold step; rw [h]

theorem step_feed (s : PState σ) (h : s.pc = Pc.feed) : step W p s = stepFeed W p s := by
  unfold step; rw [h]

theorem accumulate_pc (s : PState σ) (outbuf : List Nat) :
    (accumulate W p s outbuf).pc = s.pc := by
  unfold accumulate
  split
  · split
    · rfl
    · exact writeOut_pc W p s
  · rfl

end idleFlush

section returnValues

variable {σ : Type} (W : World σ) (p : Pico)

theorem bytesRecv_le (outbuf : List Nat) : bytesRecv outbuf ≤ 32767 := by
  unfold bytesRecv wrap16
  omega

theorem accumulate_bufused_le (s : PState σ) (outbuf : List Nat) (h : s.bufused ≤ 32767) :
    (accumulate W p s outbuf).bufused ≤ 32767 := by
  have hb := bytesRecv_le outbuf
  unfold accumulate
  split
  · split
    · rename_i hfit
      unfold PCM_BUFFER_SIZE at hfit
      show (s.bufused + bytesRecv outbuf) % 4294967296 ≤ 32767
      omega
    · show bytesRecv outbuf % 4294967296 ≤ 32767
      omega
  · exact h

theorem wrap32_small (n : Nat) (h : n ≤ 32767) : wrap32 (n : Int) = n := by
  unfold wrap32; omega

theorem feedText_error (s : PState σ)
    (herr : (W.pico_putTextUtf8 s.world (offeredBytes p s.inpSrc s.inpOff s.text_remaining)
      s.text_remaining).1 ≠ 0) :
    feedText W p s =
      { s with
        world := (W.pico_putTextUtf8 s.world (offeredBytes p s.inpSrc s.inpOff s.text_remaining)
          s.text_remaining).2.2,
        log := s.log ++ [submissionEvent W p s],
        pc := Pc.returned (-2) } := by
  unfold feedText
  rw [if_pos herr]

theorem feedText_pc (s : PState σ) :
    ((W.pico_putTextUtf8 s.world (offeredBytes p s.inpSrc s.inpOff s.text_remaining)
        s.text_remaining).1 ≠ 0 ∧ (feedText W p s).pc = Pc.returned (-2)) ∨
    ((W.pico_putTextUtf8 s.world (offeredBytes p s.inpSrc s.inpOff s.text_remaining)
        s.text_remaining).1 = 0 ∧ (feedText W p s).pc = Pc.drain) := by
  unfold feedText
  by_cases h : (W.pico_putTextUtf8 s.world (offeredBytes p s.inpSrc s.inpOff s.text_remaining)
      s.text_remaining).1 ≠ 0
  · rw [if_pos h]; exact Or.inl ⟨h, rfl⟩
  · rw [if_neg h]; exact Or.inr ⟨not_not.mp h, rfl⟩

theorem feedText_frame (s : PState σ) :
    (feedText W p s).bufused = s.bufused ∧ (feedText W p s).pcm_buffer = s.pcm_buffer ∧
    (feedText W p s).log = s.log ++ [submissionEvent W p s] ∧
    (feedText W p s).sdOutFile = s.sdOutFile ∧ (feedText W p s).text_length = s.text_length ∧
    (feedText W p s).inpSrc = s.inpSrc ∧ (feedText W p s).do_startpad = s.do_startpad ∧
    (feedText W p s).do_endpad = s.do_endpad := by
  unfold feedText
  split <;> exact ⟨rfl, rfl, rfl, rfl, rfl, rfl, rfl, rfl⟩

theorem init_retInv (w : σ) : RetInv W p w (init W p w) := by
  refine ⟨by rw [init_bufused]; omega, ?_⟩
  intro r hr
  unfold init at hr ⊢
  cases hw : p.pico_writeWavPcm with
  | false =>
    rw [hw] at hr
    simp only [Bool.false_eq_true, if_false] at hr
    unfold init0 at hr
    cases hm : p.modifiers <;> rw [hm] at hr <;> cases hr
  | true =>
    rw [hw] at hr
    simp only [if_true] at hr ⊢
    cases ho : (W.picoos_sdfOpenOut w).1 with
    | true =>
      rw [ho] at hr
      simp only [if_true] at hr
      unfold init0 at hr
      cases hm : p.modifiers <;> rw [hm] at hr <;> cases hr
    | false =>
      rw [ho] at hr
      simp only [Bool.false_eq_true, if_false] at hr ⊢
      injection hr with hr
      exact Or.inl ⟨hr.symm, trivial, trivial, trivial⟩

theorem step_retInv (w : σ) (s : PState σ) (hs : RetInv W p w s) : RetInv W p w (step W p s) := by
  obtain ⟨hb, hret⟩ := hs
  cases hpc : s.pc with
  | returned r0 =>
    rw [step_returned W p s r0 hpc]
    exact ⟨hb, hret⟩
  | feed =>
    rw [step_feed W p s hpc]
    unfold stepFeed
    cases hsel : selectChunk p s with
    | none =>
      have hv := selectV_none p (feedView s) (selectChunk_none_view p s hsel)
      refine ⟨hb, ?_⟩
      intro r hr
      have hr2 : wrap32 (s.bufused : Int) = r := by
        have : (leave W s).pc = Pc.returned (wrap32 s.bufused) := rfl
        rw [this] at hr
        injection hr
      rw [wrap32_small _ hb] at hr2
      refine Or.inr (Or.inr (Or.inr ⟨by omega, hr2.symm, hv.1, hv.2.1, hv.2.2.1, hv.2.2.2⟩))
    | some s1 =>
      obtain ⟨f1, -, f3, -⟩ := selectChunk_frame p s s1 hsel
      obtain ⟨g1, -, g3, -⟩ := feedText_frame W p s1
      refine ⟨by show (feedText W p s1).bufused ≤ 32767; rw [g1, f1]; exact hb, ?_⟩
      intro r hr
      have hr1 : (feedText W p s1).pc = Pc.returned r := hr
      rcases feedText_pc W p s1 with ⟨herr, hp⟩ | ⟨-, hp⟩
      · rw [hp] at hr1
        injection hr1 with hr1
        refine Or.inr (Or.inl ⟨hr1.symm, s1.log, _, _, _, _, _, _, g3, herr⟩)
      · rw [hp] at hr1; cases hr1
  | drain =>
    rw [step_drain W p s hpc]
    have hgb : (getData W s).bufused ≤ 32767 := hb
    have hab := accumulate_bufused_le W p (getData W s) (W.pico_getData s.world).2.1 hgb
    by_cases herr : (W.pico_getData s.world).1 ≠ PICO_STEP_BUSY ∧
        (W.pico_getData s.world).1 ≠ PICO_STEP_IDLE
    · rw [stepDrain_error W p s herr]
      refine ⟨hb, ?_⟩
      intro r hr
      have hr1 : Pc.returned (-4) = Pc.returned r := hr
      injection hr1 with hr1
      exact Or.inr (Or.inr (Or.inl ⟨hr1.symm, s.log, _, _, rfl, herr.1, herr.2⟩))
    · by_cases hbusy : (W.pico_getData s.world).1 = PICO_STEP_BUSY
      · rw [stepDrain_busy W p s hbusy]
        refine ⟨hab, ?_⟩
        intro r hr
        rw [accumulate_pc] at hr
        have hr1 : s.pc = Pc.returned r := hr
        rw [hpc] at hr1; cases hr1
      · have hidle : (W.pico_getData s.world).1 = PICO_STEP_IDLE := by
          by_contra hni
          exact herr ⟨hbusy, hni⟩
        rw [stepDrain_idle W p s hidle]
        refine ⟨by show (writeOut W p _).bufused ≤ 32767; rw [writeOut_bufused]; exact hab, ?_⟩
        intro r hr
        cases hr

theorem process_retInv (w : σ) (n : Nat) : RetInv W p w (process W p w n) :=
  process_invariant W p w (RetInv W p w) (init_retInv W p w) (step_retInv W p w) n

theorem process_succ (w : σ) (n : Nat) :
    process W p w (n + 1) = step W p (process W p w n) := run_succ W p n _

theorem process_after_return (w : σ) (n : Nat) (r : Int)
    (h : (process W p w n).pc = Pc.returned r) (k : Nat) :
    process W p w (n + k) = process W p w n := by
  rw [process_add, run_returned W p _ r h]

end returnValues

section rangeLemmas

variable {σ : Type} (W : World σ) (p : Pico)

theorem selectV_range (hc : p.closer.length ≤ 32767) (v v1 : FeedView) (hv : RangeV p v)
    (h : selectV p v = some v1) :
    RangeV p v1 ∧ v1.text_length ≤ v.text_length ∧
      (v1.text_remaining = v.text_remaining ∨
        v1.text_remaining = (if v.text_length ≥ 32767 then 32767 else v.text_length) ∨
        v1.text_remaining = p.closer.length) := by
  obtain ⟨h0, h1, h2, h3, h4⟩ := hv
  obtain ⟨i0, i1, i2, -, -⟩ := increment_bounds v.text_length h2
  have hw : wrap16 (increment v.text_length) = increment v.text_length := wrap16_id _ i0 i1
  have hie := increment_eq v.text_length h2
  unfold selectV at h
  rw [hw] at h
  split at h
  · split at h
    · cases h
      exact ⟨⟨i0, i1, by show 0 ≤ v.text_length - _; omega,
        by show v.text_length - _ ≤ _; omega, h4⟩,
        by show v.text_length - _ ≤ _; omega, Or.inr (Or.inl hie)⟩
    · split at h
      · split at h
        · rename_i hep
          split at h
          · rename_i b hb
            cases h
            have hcl := closer_some p b hb
            have hlen : (b.plate_end.length : Int) ≤ 32767 := by rw [← hcl]; exact_mod_cast hc
            have hw2 : wrap16 ((Boilerplate.getCloser b).2 : Int) = b.plate_end.length :=
              wrap16_id _ (by simp [Boilerplate.getCloser])
                (by simpa [Boilerplate.getCloser] using hlen)
            refine ⟨⟨by simp only [hw2]; omega, by simp only [hw2]; omega, h2, h3, ?_⟩,
              le_refl _, Or.inr (Or.inr ?_)⟩
            · intro hf; cases hf
            · simp only [hw2, hcl]
          · rename_i hb
            have := h4 hep
            rw [hb] at this
            cases this
        · cases h
      · cases h
        exact ⟨⟨i0, i1, by show 0 ≤ v.text_length - _; omega,
          by show v.text_length - _ ≤ _; omega, h4⟩,
          by show v.text_length - _ ≤ _; omega, Or.inr (Or.inl hie)⟩
  · cases h
    exact ⟨⟨h0, h1, h2, h3, h4⟩, le_refl _, Or.inl rfl⟩

theorem putV_range (v : FeedView) (sent : Int) (hv : RangeV p v) (h0 : 0 ≤ sent)
    (h1 : sent ≤ v.text_remaining) :
    RangeV p (putV p v sent) ∧ (putV p v sent).text_remaining = v.text_remaining - sent := by
  obtain ⟨g0, g1, g2, g3, g4⟩ := hv
  have hw : wrap16 (v.text_remaining - sent) = v.text_remaining - sent :=
    wrap16_id _ (by omega) (by omega)
  unfold putV
  simp only [hw]
  exact ⟨⟨by dsimp only; omega, by dsimp only; omega, g2, g3, g4⟩, trivial⟩

theorem feedView_init0_range (w : σ) (h0 : 0 ≤ p.total_text_length)
    (hfresh : p.text_remaining = 0) (ho : p.opener.length ≤ 32767) :
    RangeV p (feedView (init0 p w : PState σ)) ∧
      (feedView (init0 p w : PState σ)).text_length = p.total_text_length ∧
      (feedView (init0 p w : PState σ)).text_remaining = p.opener.length := by
  unfold init0 feedView
  split
  · rename_i b hb
    have hop := opener_some p b hb
    have hlen : (b.plate_begin.length : Int) ≤ 32767 := by rw [← hop]; omega
    have hw : wrap16 ((Boilerplate.getOpener b).2 : Int) = b.plate_begin.length :=
      wrap16_id _ (by simp [Boilerplate.getOpener]) hlen
    simp only [hw, hop]
    exact ⟨⟨by dsimp only; omega, hlen, h0, le_refl _, fun _ => by simp [hb]⟩, trivial, trivial⟩
  · rename_i hb
    have hop := opener_none p hb
    simp only [hfresh, hop]
    exact ⟨⟨le_refl _, by dsimp only; omega, h0, le_refl _, fun h => by cases h⟩, trivial, by simp⟩

theorem feedText_error_view (s : PState σ)
    (herr : (W.pico_putTextUtf8 s.world (offeredBytes p s.inpSrc s.inpOff s.text_remaining)
      s.text_remaining).1 ≠ 0) :
    (feedText W p s).text_remaining = s.text_remaining ∧
    (feedText W p s).text_length = s.text_length ∧
    (feedText W p s).do_endpad = s.do_endpad ∧ (feedText W p s).do_startpad = s.do_startpad ∧
    (feedText W p s).inpSrc = s.inpSrc ∧ (feedText W p s).inpOff = s.inpOff := by
  rw [feedText_error W p s herr]
  exact ⟨rfl, rfl, rfl, rfl, rfl, rfl⟩

theorem step_range (hc : p.closer.length ≤ 32767)
    (heng : ∀ w bytes size, 0 ≤ size →
      0 ≤ (W.pico_putTextUtf8 w bytes size).2.1 ∧ (W.pico_putTextUtf8 w bytes size).2.1 ≤ size)
    (s : PState σ) (hs : RangeV p (feedView s)) :
    RangeV p (feedView (step W p s)) ∧ (step W p s).text_length ≤ s.text_length := by
  cases hpc : s.pc with
  | returned r0 =>
    rw [step_returned W p s r0 hpc]
    exact ⟨hs, le_refl _⟩
  | drain =>
    rw [step_drain W p s hpc]
    obtain ⟨hview, -⟩ := stepDrain_view W p s
    rw [hview]
    exact ⟨hs, le_of_eq (congrArg FeedView.text_length hview)⟩
  | feed =>
    rw [step_feed W p s hpc]
    unfold stepFeed
    cases hsel : selectChunk p s with
    | none =>
      show RangeV p (feedView (leave W s)) ∧ (leave W s).text_length ≤ s.text_length
      rw [feedView_leave]
      exact ⟨hs, le_refl _⟩
    | some s1 =>
      show RangeV p (feedView (feedText W p s1)) ∧ (feedText W p s1).text_length ≤ s.text_length
      have hsv := selectChunk_some_view p s s1 hsel
      obtain ⟨hr1, hle, -⟩ := selectV_range p hc _ _ hs hsv
      have hle' : s1.text_length ≤ s.text_length := hle
      by_cases herr : (W.pico_putTextUtf8 s1.world
          (offeredBytes p s1.inpSrc s1.inpOff s1.text_remaining) s1.text_remaining).1 ≠ 0
      · obtain ⟨e1, e2, e3, -⟩ := feedText_error_view W p s1 herr
        obtain ⟨g0, g1, g2, g3, g4⟩ := hr1
        refine ⟨⟨?_, ?_, ?_, ?_, ?_⟩, by rw [e2]; exact hle'⟩
        · show 0 ≤ (feedText W p s1).text_remaining
          rw [e1]; exact g0
        · show (feedText W p s1).text_remaining ≤ 32767
          rw [e1]; exact g1
        · show 0 ≤ (feedText W p s1).text_length
          rw [e2]; exact g2
        · show (feedText W p s1).text_length ≤ _
          rw [e2]; exact g3
        · show (feedText W p s1).do_endpad = true → _
          rw [e3]; exact g4
      · obtain ⟨e2, e3⟩ := heng s1.world (offeredBytes p s1.inpSrc s1.inpOff s1.text_remaining)
          s1.text_remaining hr1.1
        obtain ⟨hview, -⟩ := feedText_view W p s1 (not_not.mp herr)
        have hp := putV_range p (feedView s1) _ hr1 e2 e3
        rw [hview]
        refine ⟨hp.1, ?_⟩
        have : (feedText W p s1).text_length = s1.text_length :=
          (feedText_frame W p s1).2.2.2.2.1
        rw [this]; exact hle'

theorem process_range (w : σ) (h0 : 0 ≤ p.total_text_length) (hfresh : p.text_remaining = 0)
    (ho : p.opener.length ≤ 32767) (hc : p.closer.length ≤ 32767)
    (heng : ∀ w bytes size, 0 ≤ size →
      0 ≤ (W.pico_putTextUtf8 w bytes size).2.1 ∧ (W.pico_putTextUtf8 w bytes size).2.1 ≤ size)
    (n : Nat) : RangeV p (feedView (process W p w n)) :=
  process_invariant W p w (fun s => RangeV p (feedView s))
    (by show RangeV p (feedView (init W p w))
        rw [feedView_init]; exact (feedView_init0_range p w h0 hfresh ho).1)
    (fun s hs => (step_range W p hc heng s hs).1) n

end rangeLemmas

section countLemmas

variable {σ : Type} (W : World σ) (p : Pico)

theorem budget_nonneg (v : FeedView) (hv : RangeV p v) : 0 ≤ budget p v := by
  obtain ⟨h0, h1, h2, h3, h4⟩ := hv
  unfold budget
  split <;> split <;> omega

theorem selectV_budget (hc : p.closer.length ≤ 32767)
    (hcl : p.modifiers.isSome = true → 1 ≤ p.closer.length) (v v1 : FeedView)
    (hv : RangeV p v) (h : selectV p v = some v1) :
    budget p v1 ≤ budget p v ∧ (v1.text_remaining ≤ 0 → budget p v1 + 1 ≤ budget p v) := by
  obtain ⟨h0, h1, h2, h3, h4⟩ := hv
  obtain ⟨i0, i1, i2, i3, i4⟩ := increment_bounds v.text_length h2
  have hw : wrap16 (increment v.text_length) = increment v.text_length := wrap16_id _ i0 i1
  unfold selectV at h
  rw [hw] at h
  split at h
  · split at h
    · rename_i htr hsp
      cases h
      simp only [budget, hsp, if_true, Bool.false_eq_true, if_false]
      constructor
      · omega
      · intro hz
        omega
    · split at h
      · split at h
        · rename_i htr hsp hl hep
          split at h
          · rename_i b hb
            cases h
            have hcl1 := hcl (by simp [hb])
            have hclo := closer_some p b hb
            have hlen : (b.plate_end.length : Int) ≤ 32767 := by rw [← hclo]; exact_mod_cast hc
            have hw2 : wrap16 ((Boilerplate.getCloser b).2 : Int) = b.plate_end.length :=
              wrap16_id _ (by simp [Boilerplate.getCloser])
                (by simpa [Boilerplate.getCloser] using hlen)
            have hsp' : v.do_startpad = false := by simpa using hsp
            simp only [budget, hsp', hep, hw2, hclo, if_true, Bool.false_eq_true, if_false]
            rw [hclo] at hcl1
            constructor
            · omega
            · intro hz
              omega
          · rename_i hb
            have := h4 hep
            rw [hb] at this
            cases this
        · cases h
      · rename_i htr hsp hl
        cases h
        have hsp' : v.do_startpad = false := by simpa using hsp
        simp only [budget, hsp', Bool.false_eq_true, if_false]
        constructor
        · omega
        · intro hz
          omega
  · rename_i htr
    cases h
    exact ⟨le_refl _, fun hz => absurd hz htr⟩

theorem putV_budget (v : FeedView) (sent : Int) (hv : RangeV p v) (h0 : 0 ≤ sent)
    (h1 : sent ≤ v.text_remaining) :
    budget p (putV p v sent) = budget p v - sent ∧
      (putV p v sent).subs.length = v.subs.length + 1 := by
  obtain ⟨g0, g1, g2, g3, g4⟩ := hv
  have hw : wrap16 (v.text_remaining - sent) = v.text_remaining - sent :=
    wrap16_id _ (by omega) (by omega)
  unfold putV budget
  simp only [hw, List.length_append, List.length_singleton]
  constructor
  · omega
  · trivial

end countLemmas

section countStep

variable {σ : Type} (W : World σ) (p : Pico)

theorem step_count (hc : p.closer.length ≤ 32767)
    (hcl : p.modifiers.isSome = true → 1 ≤ p.closer.length)
    (hput : ∀ w bytes size, 0 ≤ size →
      (W.pico_putTextUtf8 w bytes size).1 = 0 ∧ 0 ≤ (W.pico_putTextUtf8 w bytes size).2.1 ∧
        (W.pico_putTextUtf8 w bytes size).2.1 ≤ size ∧
        (1 ≤ size → 1 ≤ (W.pico_putTextUtf8 w bytes size).2.1))
    (s : PState σ) (hs : CountV p (feedView s)) :
    CountV p (feedView (step W p s)) ∧
    budget p (feedView (step W p s)) ≤ budget p (feedView s) ∧
    (s.pc = Pc.feed →
      (step W p s).pc = Pc.returned (wrap32 s.bufused) ∨
      ((step W p s).pc = Pc.drain ∧
        budget p (feedView (step W p s)) + 1 ≤ budget p (feedView s))) := by
  obtain ⟨hr, hcnt⟩ := hs
  cases hpc : s.pc with
  | returned r0 =>
    rw [step_returned W p s r0 hpc]
    exact ⟨⟨hr, hcnt⟩, le_refl _, fun h => by cases h⟩
  | drain =>
    rw [step_drain W p s hpc]
    obtain ⟨hview, -⟩ := stepDrain_view W p s
    rw [hview]
    exact ⟨⟨hr, hcnt⟩, le_refl _, fun h => by cases h⟩
  | feed =>
    rw [step_feed W p s hpc]
    unfold stepFeed
    cases hsel : selectChunk p s with
    | none =>
      show CountV p (feedView (leave W s)) ∧ budget p (feedView (leave W s)) ≤ _ ∧
        (_ → (leave W s).pc = _ ∨ _)
      rw [feedView_leave]
      exact ⟨⟨hr, hcnt⟩, le_refl _, fun _ => Or.inl rfl⟩
    | some s1 =>
      show CountV p (feedView (feedText W p s1)) ∧ budget p (feedView (feedText W p s1)) ≤ _ ∧
        (_ → (feedText W p s1).pc = _ ∨ ((feedText W p s1).pc = _ ∧
          budget p (feedView (feedText W p s1)) + 1 ≤ _))
      have hsv := selectChunk_some_view p s s1 hsel
      obtain ⟨hr1, -, -⟩ := selectV_range p hc _ _ hr hsv
      obtain ⟨hb1, hb2⟩ := selectV_budget p hc hcl _ _ hr hsv
      have hsubs := selectV_subs p _ _ hsv
      obtain ⟨e1, e2, e3, e4⟩ := hput s1.world
        (offeredBytes p s1.inpSrc s1.inpOff s1.text_remaining) s1.text_remaining hr1.1
      obtain ⟨hview, hpc1⟩ := feedText_view W p s1 e1
      obtain ⟨hp1, hp2⟩ := putV_budget p (feedView s1) _ hr1 e2 e3
      have hp3 := (putV_range p (feedView s1) _ hr1 e2 e3).1
      rw [hview, hp1]
      have hdec : budget p (feedView s1) -
          (W.pico_putTextUtf8 s1.world (offeredBytes p s1.inpSrc s1.inpOff s1.text_remaining)
            s1.text_remaining).2.1 + 1 ≤ budget p (feedView s) := by
        by_cases hz : (feedView s1).text_remaining ≤ 0
        · have := hb2 hz
          omega
        · have h1 : 1 ≤ s1.text_remaining := by
            have : ¬ s1.text_remaining ≤ 0 := hz
            omega
          have := e4 h1
          omega
      refine ⟨⟨hp3, ?_⟩, by omega, fun _ => Or.inr ⟨hpc1, hdec⟩⟩
      rw [hp1]
      have hl : ((putV p (feedView s1) (W.pico_putTextUtf8 s1.world
          (offeredBytes p s1.inpSrc s1.inpOff s1.text_remaining) s1.text_remaining).2.1).subs.length
            : Int) = ((feedView s).subs.length : Int) + 1 := by
        rw [hp2, hsubs]; push_cast; rfl
      rw [hl]
      omega

theorem init_count (w : σ) (h0 : 0 ≤ p.total_text_length) (hfresh : p.text_remaining = 0)
    (ho : p.opener.length ≤ 32767) : CountV p (feedView (init W p w)) := by
  rw [feedView_init]
  refine ⟨(feedView_init0_range p w h0 hfresh ho).1, ?_⟩
  unfold init0 feedView
  split
  · rename_i b hb
    have hop := opener_some p b hb
    have hlen : (b.plate_begin.length : Int) ≤ 32767 := by rw [← hop]; omega
    have hw : wrap16 ((Boilerplate.getOpener b).2 : Int) = b.plate_begin.length :=
      wrap16_id _ (by simp [Boilerplate.getOpener]) hlen
    simp only [budget, submissionBound, hw, hop, submissions, List.filterMap_nil,
      List.length_nil, if_true]
    omega
  · rename_i hb
    simp only [budget, submissionBound, hfresh, submissions, List.filterMap_nil,
      List.length_nil, Bool.false_eq_true, if_false]
    omega

theorem process_count (w : σ) (h0 : 0 ≤ p.total_text_length) (hfresh : p.text_remaining = 0)
    (ho : p.opener.length ≤ 32767) (hc : p.closer.length ≤ 32767)
    (hcl : p.modifiers.isSome = true → 1 ≤ p.closer.length)
    (hput : ∀ w bytes size, 0 ≤ size →
      (W.pico_putTextUtf8 w bytes size).1 = 0 ∧ 0 ≤ (W.pico_putTextUtf8 w bytes size).2.1 ∧
        (W.pico_putTextUtf8 w bytes size).2.1 ≤ size ∧
        (1 ≤ size → 1 ≤ (W.pico_putTextUtf8 w bytes size).2.1))
    (n : Nat) : CountV p (feedView (process W p w n)) :=
  process_invariant W p w (fun s => CountV p (feedView s)) (init_count W p w h0 hfresh ho)
    (fun s hs => (step_count W p hc hcl hput s hs).1) n

theorem run_budget (hc : p.closer.length ≤ 32767)
    (hcl : p.modifiers.isSome = true → 1 ≤ p.closer.length)
    (hput : ∀ w bytes size, 0 ≤ size →
      (W.pico_putTextUtf8 w bytes size).1 = 0 ∧ 0 ≤ (W.pico_putTextUtf8 w bytes size).2.1 ∧
        (W.pico_putTextUtf8 w bytes size).2.1 ≤ size ∧
        (1 ≤ size → 1 ≤ (W.pico_putTextUtf8 w bytes size).2.1))
    (k : Nat) : ∀ (s : PState σ), CountV p (feedView s) →
      CountV p (feedView (run W p k s)) ∧
        budget p (feedView (run W p k s)) ≤ budget p (feedView s) := by
  induction k with
  | zero => intro s hs; exact ⟨hs, le_refl _⟩
  | succ k ih =>
    intro s hs
    obtain ⟨h1, h2, -⟩ := step_count W p hc hcl hput s hs
    obtain ⟨h3, h4⟩ := ih (step W p s) h1
    exact ⟨h3, le_trans h4 h2⟩

theorem step_bufused_le (s : PState σ) (h : s.bufused ≤ 32767) :
    (step W p s).bufused ≤ 32767 := by
  cases hpc : s.pc with
  | returned r0 => rw [step_returned W p s r0 hpc]; exact h
  | feed =>
    rw [step_feed W p s hpc, (stepFeed_frame W p s).1]; exact h
  | drain =>
    rw [step_drain W p s hpc]
    have hab := accumulate_bufused_le W p (getData W s) (W.pico_getData s.world).2.1 h
    unfold stepDrain
    split
    · exact h
    · split
      · exact hab
      · show (writeOut W p _).bufused ≤ 32767
        rw [writeOut_bufused]; exact hab

theorem run_bufused_le (k : Nat) : ∀ (s : PState σ), s.bufused ≤ 32767 →
    (run W p k s).bufused ≤ 32767 := by
  induction k with
  | zero => intro s h; exact h
  | succ k ih => intro s h; exact ih _ (step_bufused_le W p s h)

theorem feed_reaches_return (hc : p.closer.length ≤ 32767)
    (hcl : p.modifiers.isSome = true → 1 ≤ p.closer.length)
    (hput : ∀ w bytes size, 0 ≤ size →
      (W.pico_putTextUtf8 w bytes size).1 = 0 ∧ 0 ≤ (W.pico_putTextUtf8 w bytes size).2.1 ∧
        (W.pico_putTextUtf8 w bytes size).2.1 ≤ size ∧
        (1 ≤ size → 1 ≤ (W.pico_putTextUtf8 w bytes size).2.1))
    (μ : σ → Nat)
    (hbusy : ∀ w, (W.pico_getData w).1 = PICO_STEP_BUSY → μ (W.pico_getData w).2.2 < μ w)
    (hsink : ∀ w n buf, μ (W.picoos_sdfPutSamples w n buf).2 ≤ μ w)
    (hstat : ∀ w, (W.pico_getData w).1 = PICO_STEP_BUSY ∨ (W.pico_getData w).1 = PICO_STEP_IDLE) :
    ∀ (m : Nat) (s : PState σ), CountV p (feedView s) → s.bufused ≤ 32767 → s.pc = Pc.feed →
      budget p (feedView s) ≤ m →
      ∃ k r, (run W p k s).pc = Pc.returned r ∧ 0 ≤ r := by
  intro m
  induction m with
  | zero =>
    intro s hs hbu hpc hb
    obtain ⟨h1, h2, h3⟩ := step_count W p hc hcl hput s hs
    rcases h3 hpc with h | ⟨-, h⟩
    · exact ⟨1, _, h, by rw [wrap32_small _ hbu]; omega⟩
    · have := budget_nonneg p _ h1.1
      omega
  | succ m ih =>
    intro s hs hbu hpc hb
    obtain ⟨h1, h2, h3⟩ := step_count W p hc hcl hput s hs
    rcases h3 hpc with h | ⟨hd, h⟩
    · exact ⟨1, _, h, by rw [wrap32_small _ hbu]; omega⟩
    · obtain ⟨k, -, hk⟩ := drain_reaches_feed W p μ hbusy hsink hstat (μ (step W p s).world)
        (step W p s) (le_refl _) hd
      obtain ⟨c1, c2⟩ := run_budget W p hc hcl hput k (step W p s) h1
      have hbu2 := run_bufused_le W p k _ (step_bufused_le W p s hbu)
      obtain ⟨k2, r, e1, e2⟩ := ih (run W p k (step W p s)) c1 hbu2 hk (by omega)
      refine ⟨1 + k + k2, r, ?_, e2⟩
      rw [run_add W p (1 + k) k2 s, run_add W p 1 k s]
      exact e1

end countStep

section markupLemmas

variable (p : Pico)

theorem markup_facts (cs : List (ValRef × F32))
    (h : p.modifiers = getModifiers (Boilerplate.applySetters Boilerplate.new cs)) :
    p.opener.length ≤ 99 ∧ p.closer.length ≤ 49 ∧
      (p.modifiers.isSome = true → 1 ≤ p.opener.length ∧ 1 ≤ p.closer.length) := by
  generalize hb : Boilerplate.applySetters Boilerplate.new cs = b at h
  have hpl := Boilerplate.applySetters_plates cs
  rw [hb] at hpl
  have hb1 : b.plate_begin = (Boilerplate.platesOf b.speed b.pitch b.volume).1 :=
    congrArg Prod.fst hpl
  have hb2 : b.plate_end = (Boilerplate.platesOf b.speed b.pitch b.volume).2 :=
    congrArg Prod.snd hpl
  have hne := Boilerplate.platesOf_nonempty b.speed b.pitch b.volume
  have hlen := Boilerplate.platesOf_length b.speed b.pitch b.volume
  have hiff := Boilerplate.isChanged_iff b
  unfold getModifiers at h
  by_cases hch : Boilerplate.isChanged b = true
  · rw [if_pos hch] at h
    have ho := opener_some p b h
    have hc := closer_some p b h
    have h1 : b.plate_begin ≠ [] := by rw [hb1, hne.1]; exact hiff.mp hch
    have h2 : b.plate_end ≠ [] := by rw [hb2, hne.2]; exact hiff.mp hch
    have l1 : b.plate_begin.length ≤ 82 := by rw [hb1]; exact hlen.1
    have l2 : b.plate_end.length ≤ 25 := by rw [hb2]; exact hlen.2
    have p1 := List.length_pos.mpr h1
    have p2 := List.length_pos.mpr h2
    rw [ho, hc]
    exact ⟨by omega, by omega, fun _ => ⟨p1, p2⟩⟩
  · rw [if_neg hch] at h
    rw [opener_none p h, closer_none p h, h]
    exact ⟨by simp, by simp, fun hf => by cases hf⟩

end markupLemmas

section sizeLemmas

variable {σ : Type} (W : World σ) (p : Pico)

theorem selectV_size (hc : p.closer.length ≤ 32767)
    (hcl : p.modifiers.isSome = true → 1 ≤ p.closer.length)
    (hL1 : p.modifiers = none ∨ 1 ≤ p.total_text_length) (v v1 : FeedView)
    (hv : RangeV p v)
    (hsp : v.do_startpad = true → p.modifiers.isSome = true ∧ v.text_length = p.total_text_length)
    (h : selectV p v = some v1) :
    1 ≤ v1.text_remaining ∧
      (v1.do_startpad = true →
        p.modifiers.isSome = true ∧ v1.text_length = p.total_text_length) := by
  obtain ⟨h0, h1, h2, h3, h4⟩ := hv
  obtain ⟨i0, i1, i2, i3, i4⟩ := increment_bounds v.text_length h2
  have hw : wrap16 (increment v.text_length) = increment v.text_length := wrap16_id _ i0 i1
  unfold selectV at h
  rw [hw] at h
  split at h
  · split at h
    · rename_i htr hst
      cases h
      obtain ⟨m1, m2⟩ := hsp hst
      have hL : 1 ≤ p.total_text_length := by
        rcases hL1 with hn | hn
        · rw [hn] at m1; cases m1
        · exact hn
      refine ⟨?_, fun hf => by cases hf⟩
      show 1 ≤ increment v.text_length
      by_cases hbig : 32767 ≤ v.text_length
      · rw [i4 hbig]; decide
      · rw [i3 (by omega)]; omega
    · split at h
      · split at h
        · rename_i htr hst hl hep
          split at h
          · rename_i b hb
            cases h
            have hcl1 := hcl (by simp [hb])
            have hclo := closer_some p b hb
            have hlen : (b.plate_end.length : Int) ≤ 32767 := by rw [← hclo]; exact_mod_cast hc
            have hw2 : wrap16 ((Boilerplate.getCloser b).2 : Int) = b.plate_end.length :=
              wrap16_id _ (by simp [Boilerplate.getCloser])
                (by simpa [Boilerplate.getCloser] using hlen)
            rw [hclo] at hcl1
            refine ⟨?_, fun hf => absurd hf hst⟩
            show 1 ≤ wrap16 ((Boilerplate.getCloser b).2 : Int)
            rw [hw2]; exact_mod_cast hcl1
          · rename_i hb
            have := h4 hep
            rw [hb] at this
            cases this
        · cases h
      · rename_i htr hst hl
        cases h
        refine ⟨?_, fun hf => absurd hf hst⟩
        show 1 ≤ increment v.text_length
        by_cases hbig : 32767 ≤ v.text_length
        · rw [i4 hbig]; decide
        · rw [i3 (by omega)]; omega
  · rename_i htr
    cases h
    exact ⟨by omega, hsp⟩

theorem submissions_submissionEvent (s : PState σ) :
    submissions [submissionEvent W p s] =
      [⟨s.inpSrc, s.inpOff, offeredBytes p s.inpSrc s.inpOff s.text_remaining, s.text_remaining,
        (W.pico_putTextUtf8 s.world (offeredBytes p s.inpSrc s.inpOff s.text_remaining)
          s.text_remaining).2.1⟩] := by
  simp [submissions, submissionEvent]

theorem step_sizeInv (hc : p.closer.length ≤ 32767)
    (hcl : p.modifiers.isSome = true → 1 ≤ p.closer.length)
    (hL1 : p.modifiers = none ∨ 1 ≤ p.total_text_length)
    (heng : ∀ w bytes size, 0 ≤ size →
      0 ≤ (W.pico_putTextUtf8 w bytes size).2.1 ∧ (W.pico_putTextUtf8 w bytes size).2.1 ≤ size)
    (s : PState σ) (hs : SizeInv p s) : SizeInv p (step W p s) := by
  obtain ⟨hr, hsp, hsz⟩ := hs
  have hr' := (step_range W p hc heng s hr).1
  refine ⟨hr', ?_⟩
  cases hpc : s.pc with
  | returned r0 =>
    rw [step_returned W p s r0 hpc]
    exact ⟨hsp, hsz⟩
  | drain =>
    rw [step_drain W p s hpc]
    obtain ⟨hview, -⟩ := stepDrain_view W p s
    have e1 : (stepDrain W p s).do_startpad = s.do_startpad :=
      congrArg FeedView.do_startpad hview
    have e2 : (stepDrain W p s).text_length = s.text_length :=
      congrArg FeedView.text_length hview
    have e3 : submissions (stepDrain W p s).log = submissions s.log :=
      congrArg FeedView.subs hview
    rw [e1, e2, e3]
    exact ⟨hsp, hsz⟩
  | feed =>
    rw [step_feed W p s hpc]
    unfold stepFeed
    cases hsel : selectChunk p s with
    | none =>
      show ((leave W s).do_startpad = true → _ ∧ (leave W s).text_length = _) ∧
        ∀ a ∈ submissions (leave W s).log, _
      have e3 : submissions (leave W s).log = submissions s.log :=
        congrArg FeedView.subs (feedView_leave W s)
      rw [e3]
      exact ⟨hsp, hsz⟩
    | some s1 =>
      show ((feedText W p s1).do_startpad = true → _ ∧ (feedText W p s1).text_length = _) ∧
        ∀ a ∈ submissions (feedText W p s1).log, _
      have hsv := selectChunk_some_view p s s1 hsel
      obtain ⟨hr1, -, -⟩ := selectV_range p hc _ _ hr hsv
      obtain ⟨z1, z2⟩ := selectV_size p hc hcl hL1 _ _ hr hsp hsv
      obtain ⟨-, -, g3, -, g5, -, g7, -⟩ := feedText_frame W p s1
      have hl : s1.log = s.log := (selectChunk_frame p s s1 hsel).2.2.1
      rw [g7, g5, g3, hl, submissions_append, submissions_submissionEvent]
      refine ⟨z2, ?_⟩
      intro a ha
      rw [List.mem_append] at ha
      rcases ha with ha | ha
      · exact hsz a ha
      · rw [List.mem_singleton] at ha
        subst ha
        exact ⟨z1, hr1.2.1⟩

theorem init_sizeInv (w : σ) (h0 : 0 ≤ p.total_text_length) (hfresh : p.text_remaining = 0)
    (ho : p.opener.length ≤ 32767) : SizeInv p (init W p w) := by
  have hv := feedView_init W p w
  refine ⟨by rw [hv]; exact (feedView_init0_range p w h0 hfresh ho).1, ?_, ?_⟩
  · have e1 : (init W p w).do_startpad = (init0 p w : PState σ).do_startpad :=
      congrArg FeedView.do_startpad hv
    have e2 : (init W p w).text_length = (init0 p w : PState σ).text_length :=
      congrArg FeedView.text_length hv
    rw [e1, e2]
    unfold init0
    split
    · rename_i b hb
      intro _
      exact ⟨by simp [hb], rfl⟩
    · intro hf
      cases hf
  · rw [(init_log_proj W p w).1]
    intro a ha
    cases ha

theorem process_sizeInv (w : σ) (h0 : 0 ≤ p.total_text_length) (hfresh : p.text_remaining = 0)
    (ho : p.opener.length ≤ 32767) (hc : p.closer.length ≤ 32767)
    (hcl : p.modifiers.isSome = true → 1 ≤ p.closer.length)
    (hL1 : p.modifiers = none ∨ 1 ≤ p.total_text_length)
    (heng : ∀ w bytes size, 0 ≤ size →
      0 ≤ (W.pico_putTextUtf8 w bytes size).2.1 ∧ (W.pico_putTextUtf8 w bytes size).2.1 ≤ size)
    (n : Nat) : SizeInv p (process W p w n) :=
  process_invariant W p w (SizeInv p) (init_sizeInv W p w h0 hfresh ho)
    (step_sizeInv W p hc hcl hL1 heng) n

end sizeLemmas

section emptyText

variable {σ : Type} (W : World σ) (p : Pico)

theorem leave_log_plain (s : PState σ)
    (h : ∀ e ∈ s.log, e.isEngineCall = false ∧ e.isSinkWrite = false) :
    ∀ e ∈ (leave W s).log, e.isEngineCall = false ∧ e.isSinkWrite = false := by
  intro e he
  unfold leave at he
  dsimp only at he
  split at he
  · rw [List.mem_append] at he
    rcases he with he | he
    · exact h e he
    · rw [List.mem_cons, List.mem_singleton] at he
      rcases he with he | he <;> (subst he; exact ⟨rfl, rfl⟩)
  · exact h e he

theorem init_log_plain (w : σ) :
    ∀ e ∈ (init W p w).log, e.isEngineCall = false ∧ e.isSinkWrite = false := by
  intro e he
  rcases init_log W p w with h | ⟨ok, h⟩
  · rw [h] at he; cases he
  · rw [h, List.mem_singleton] at he
    subst he
    exact ⟨rfl, rfl⟩

theorem process_empty_text (w : σ) (hm : p.modifiers = none) (hL : p.total_text_length ≤ 0)
    (hfresh : p.text_remaining = 0) (n : Nat) :
    ((init W p w).pc = Pc.feed ∧ process W p w (n + 1) = leave W (init W p w)) ∨
    ((init W p w).pc = Pc.returned (-1) ∧ process W p w (n + 1) = init W p w) := by
  rcases init_pc W p w with hpc | hpc
  · left
    refine ⟨hpc, ?_⟩
    have hv := feedView_init_none W p w hm hfresh
    have hsel : selectChunk p (init W p w) = none := by
      apply selectChunk_none_of_view
      rw [hv]
      unfold selectV
      simp [hL]
    have h1 : process W p w 1 = leave W (init W p w) := by
      show step W p (init W p w) = _
      rw [step_feed W p _ hpc]
      unfold stepFeed
      rw [hsel]
    have h2 := process_after_return W p w 1 (wrap32 (init W p w).bufused) (by rw [h1]; rfl) n
    rw [Nat.add_comm] at h2
    rw [h2, h1]
  · right
    refine ⟨hpc, ?_⟩
    have h2 := process_after_return W p w 0 (-1) hpc (n + 1)
    rw [Nat.zero_add] at h2
    exact h2

theorem process_empty_text_log (w : σ) (hm : p.modifiers = none)
    (hL : p.total_text_length ≤ 0) (hfresh : p.text_remaining = 0) (n : Nat) :
    ∀ e ∈ (process W p w n).log, e.isEngineCall = false ∧ e.isSinkWrite = false := by
  cases n with
  | zero => exact init_log_plain W p w
  | succ n =>
    rcases process_empty_text W p w hm hL hfresh n with ⟨-, h⟩ | ⟨-, h⟩
    · rw [h]; exact leave_log_plain W _ (init_log_plain W p w)
    · rw [h]; exact init_log_plain W p w

theorem plain_log_proj (log : List Event)
    (h : ∀ e ∈ log, e.isEngineCall = false ∧ e.isSinkWrite = false) :
    submissions log = [] ∧ drainedFrags log = [] ∧ wavCalls log = [] ∧ stdoutCalls log = [] ∧
      playbackCalls log = [] := by
  induction log with
  | nil => exact ⟨rfl, rfl, rfl, rfl, rfl⟩
  | cons e rest ih =>
    obtain ⟨i1, i2, i3, i4, i5⟩ := ih (fun x hx => h x (List.mem_cons_of_mem _ hx))
    obtain ⟨e1, e2⟩ := h e (List.mem_cons_self _ _)
    have hcons : e :: rest = [e] ++ rest := rfl
    rw [hcons, submissions_append, drainedFrags_append, wavCalls_append, stdoutCalls_append,
      playbackCalls_append, i1, i2, i3, i4, i5]
    cases e with
    | putText a b c d f g => exact Bool.noConfusion e1
    | getData a b => exact Bool.noConfusion e1
    | memcpy a b => exact ⟨rfl, rfl, rfl, rfl, rfl⟩
    | sdfOpenOut a => exact ⟨rfl, rfl, rfl, rfl, rfl⟩
    | sdfPutSamples a b c => exact Bool.noConfusion e2
    | fwrite a b => exact Bool.noConfusion e2
    | SubmitFrames a b => exact Bool.noConfusion e2
    | sdfCloseOut => exact ⟨rfl, rfl, rfl, rfl, rfl⟩
    | fileSize a => exact ⟨rfl, rfl, rfl, rfl, rfl⟩

end emptyText

section emptyMarked

variable {σ : Type} (W : World σ) (p : Pico)

theorem offered_opener : offeredBytes p SRC_OPENER 0 (p.opener.length) = p.opener := by
  simp [offeredBytes, Pico.opener]

theorem offered_closer : offeredBytes p SRC_CLOSER 0 (p.closer.length) = p.closer := by
  simp [offeredBytes, Pico.closer]

theorem step_stageEmpty (ho : p.opener.length ≤ 32767) (hc : p.closer.length ≤ 32767)
    (ho1 : 1 ≤ p.opener.length) (hm : p.modifiers.isSome = true)
    (hwhole : ∀ w bytes size,
      (W.pico_putTextUtf8 w bytes size).1 = 0 ∧ (W.pico_putTextUtf8 w bytes size).2.1 = size)
    (s : PState σ) (hs : StageEmpty p (feedView s)) : StageEmpty p (feedView (step W p s)) := by
  unfold step
  split
  · unfold stepFeed
    split
    · rw [feedView_leave]; exact hs
    · rename_i s1 hsel
      have hsv := selectChunk_some_view p s s1 hsel
      obtain ⟨e1, e2⟩ := hwhole s1.world (offeredBytes p s1.inpSrc s1.inpOff s1.text_remaining)
        s1.text_remaining
      obtain ⟨hview, -⟩ := feedText_view W p s1 e1
      rw [hview, e2]
      rcases hs with h | h | h | h
      · rw [h] at hsv
        have : feedView s1 = ⟨SRC_OPENER, 0, p.opener.length, 0, true, true, []⟩ := by
          have h2 := selectV_pos p ⟨SRC_OPENER, 0, p.opener.length, 0, true, true, []⟩
            (feedView s1) hsv (by show (0 : Int) < p.opener.length; omega)
          exact h2
        have htr : s1.text_remaining = p.opener.length := congrArg FeedView.text_remaining this
        rw [this, htr]
        right; left
        have hw : wrap16 ((p.opener.length : Int) - p.opener.length) = 0 := by
          rw [sub_self]; decide
        simp only [putV, hw, offered_opener, openSub, List.nil_append, zero_add]
      · rw [h] at hsv
        have : feedView s1 = ⟨SRC_TEXT, 0, 0, 0, false, true, [openSub p]⟩ := by
          have h2 : selectV p ⟨SRC_OPENER, p.opener.length, 0, 0, true, true, [openSub p]⟩ =
              some ⟨SRC_TEXT, 0, 0, 0, false, true, [openSub p]⟩ := by
            simp [selectV, increment, wrap16, wrap32]
          rw [h2] at hsv; exact (Option.some.inj hsv).symm
        have htr : s1.text_remaining = 0 := congrArg FeedView.text_remaining this
        rw [this, htr]
        right; right; left
        simp [putV, emptySub, offeredBytes, wrap16]
      · rw [h] at hsv
        obtain ⟨b, hb⟩ := Option.isSome_iff_exists.mp hm
        have hclo := closer_some p b hb
        have hlen : (b.plate_end.length : Int) ≤ 32767 := by rw [← hclo]; exact_mod_cast hc
        have hw2 : wrap16 ((Boilerplate.getCloser b).2 : Int) = p.closer.length := by
          rw [hclo]
          exact wrap16_id _ (by simp [Boilerplate.getCloser])
            (by simpa [Boilerplate.getCloser] using hlen)
        have : feedView s1 =
            ⟨SRC_CLOSER, 0, p.closer.length, 0, false, false, [openSub p, emptySub]⟩ := by
          have h2 : selectV p ⟨SRC_TEXT, 0, 0, 0, false, true, [openSub p, emptySub]⟩ =
              some ⟨SRC_CLOSER, 0, p.closer.length, 0, false, false, [openSub p, emptySub]⟩ := by
            simp [selectV, hb, hw2]
          rw [h2] at hsv; exact (Option.some.inj hsv).symm
        have htr : s1.text_remaining = p.closer.length := congrArg FeedView.text_remaining this
        rw [this, htr]
        right; right; right
        have hw : wrap16 ((p.closer.length : Int) - p.closer.length) = 0 := by
          rw [sub_self]; decide
        simp only [putV, hw, offered_closer, closeSub, zero_add]
        rfl
      · rw [h] at hsv
        have h2 : selectV p ⟨SRC_CLOSER, p.closer.length, 0, 0, false, false,
            [openSub p, emptySub, closeSub p]⟩ = none := by
          simp [selectV]
        rw [h2] at hsv; cases hsv
  · rw [(stepDrain_view W p s).1]; exact hs
  · exact hs

theorem init_stageEmpty (w : σ) (ho : p.opener.length ≤ 32767) (hm : p.modifiers.isSome = true)
    (hL : p.total_text_length = 0) : StageEmpty p (feedView (init W p w)) := by
  rw [feedView_init]
  left
  obtain ⟨b, hb⟩ := Option.isSome_iff_exists.mp hm
  have hop := opener_some p b hb
  have hlen : (b.plate_begin.length : Int) ≤ 32767 := by rw [← hop]; omega
  have hw : wrap16 ((Boilerplate.getOpener b).2 : Int) = p.opener.length := by
    rw [hop]
    exact wrap16_id _ (by simp [Boilerplate.getOpener]) hlen
  unfold init0 feedView
  rw [hb]
  simp [hw, hL, submissions]

theorem process_stageEmpty (w : σ) (ho : p.opener.length ≤ 32767) (hc : p.closer.length ≤ 32767)
    (ho1 : 1 ≤ p.opener.length) (hm : p.modifiers.isSome = true)
    (hL : p.total_text_length = 0)
    (hwhole : ∀ w bytes size,
      (W.pico_putTextUtf8 w bytes size).1 = 0 ∧ (W.pico_putTextUtf8 w bytes size).2.1 = size)
    (n : Nat) : StageEmpty p (feedView (process W p w n)) :=
  process_invariant W p w (fun s => StageEmpty p (feedView s))
    (init_stageEmpty W p w ho hm hL) (step_stageEmpty W p ho hc ho1 hm hwhole) n

end emptyMarked

section tailLemmas

variable {σ : Type} (W : World σ) (p : Pico)

theorem accumulate_sdOutFile (s : PState σ) (outbuf : List Nat) :
    (accumulate W p s outbuf).sdOutFile = s.sdOutFile := by
  unfold accumulate
  split
  · split
    · rfl
    · exact writeOut_sdOutFile W p s
  · rfl

theorem init_tailInv (w : σ) : TailInv W p (init W p w) := by
  refine ⟨fun _ => Or.inl (init_log_proj W p w).1, fun _ _ _ => Or.inl (init_log_proj W p w).1,
    ?_⟩
  intro hpc hw
  unfold init at hpc ⊢
  rw [hw] at hpc ⊢
  simp only [if_true] at hpc ⊢
  cases ho : (W.picoos_sdfOpenOut w).1 with
  | true => simp
  | false =>
    rw [ho] at hpc
    simp at hpc

theorem step_tailInv (s : PState σ) (hs : TailInv W p s) :
    TailInv W p (step W p s) := by
  obtain ⟨t1, t2, t3⟩ := hs
  cases hpc : s.pc with
  | returned r0 =>
    rw [step_returned W p s r0 hpc]
    exact ⟨t1, t2, t3⟩
  | feed =>
    rw [step_feed W p s hpc]
    unfold stepFeed
    cases hsel : selectChunk p s with
    | none =>
      show TailInv W p (leave W s)
      have e3 : submissions (leave W s).log = submissions s.log :=
        congrArg FeedView.subs (feedView_leave W s)
      refine ⟨fun h => (by cases h), ?_, fun h => (by rcases h with h | h <;> cases h)⟩
      intro r _ _
      rcases t1 hpc with h | ⟨pre, a, h1, h2, h3⟩
      · left; rw [e3]; exact h
      · right
        refine ⟨pre, a, if s.sdOutFile then
          [Event.sdfCloseOut, Event.fileSize (W.fileSize s.world)] else [], ?_, h2, h3, ?_, ?_⟩
        · show (if s.sdOutFile then
            s.log ++ [Event.sdfCloseOut, Event.fileSize (W.fileSize s.world)] else s.log) = _
          split
          · rw [h1]
          · rw [h1, List.append_nil]
        · split
          · exact Or.inr rfl
          · exact Or.inl rfl
        · intro hw
          rw [t3 (Or.inl hpc) hw]
          rfl
    | some s1 =>
      show TailInv W p (feedText W p s1)
      obtain ⟨-, -, -, g4, -⟩ := feedText_frame W p s1
      have hsd : s1.sdOutFile = s.sdOutFile := (selectChunk_frame p s s1 hsel).2.2.2.2.2.1
      rcases feedText_pc W p s1 with ⟨-, hp⟩ | ⟨-, hp⟩
      · refine ⟨fun h => (by rw [hp] at h; cases h), ?_, ?_⟩
        · intro r hr h0
          rw [hp] at hr
          injection hr with hr
          omega
        · intro h
          rw [hp] at h
          rcases h with h | h <;> cases h
      · refine ⟨fun h => (by rw [hp] at h; cases h), fun r hr => (by rw [hp] at hr; cases hr), ?_⟩
        intro _ hw
        rw [g4, hsd]
        exact t3 (Or.inl hpc) hw
  | drain =>
    rw [step_drain W p s hpc]
    have hsd : (accumulate W p (getData W s) (W.pico_getData s.world).2.1).sdOutFile =
        s.sdOutFile := by
      rw [accumulate_sdOutFile]; rfl
    by_cases herr : (W.pico_getData s.world).1 ≠ PICO_STEP_BUSY ∧
        (W.pico_getData s.world).1 ≠ PICO_STEP_IDLE
    · rw [stepDrain_error W p s herr]
      refine ⟨fun h => (by cases h), ?_, fun h => (by rcases h with h | h <;> cases h)⟩
      intro r hr h0
      have hr1 : Pc.returned (-4) = Pc.returned r := hr
      injection hr1 with hr1
      omega
    · by_cases hbusy : (W.pico_getData s.world).1 = PICO_STEP_BUSY
      · rw [stepDrain_busy W p s hbusy]
        have hp : (accumulate W p (getData W s) (W.pico_getData s.world).2.1).pc = Pc.drain := by
          rw [accumulate_pc]; exact hpc
        refine ⟨fun h => (by rw [hp] at h; cases h), fun r hr => (by rw [hp] at hr; cases hr), ?_⟩
        intro _ hw
        rw [hsd]
        exact t3 (Or.inr hpc) hw
      · have hidle : (W.pico_getData s.world).1 = PICO_STEP_IDLE := by
          by_contra hni
          exact herr ⟨hbusy, hni⟩
        rw [stepDrain_idle W p s hidle]
        refine ⟨?_, fun r hr => (by cases hr), ?_⟩
        · intro _
          right
          exact ⟨_, accumulate W p (getData W s) (W.pico_getData s.world).2.1,
            writeOut_log_eq W p _, (writeOut_bufused W p _).symm,
            (writeOut_pcm_buffer W p _).symm⟩
        · intro _ hw
          show (writeOut W p _).sdOutFile = true
          rw [writeOut_sdOutFile, hsd]
          exact t3 (Or.inr hpc) hw

theorem process_tailInv (w : σ) (n : Nat) : TailInv W p (process W p w n) :=
  process_invariant W p w (TailInv W p) (init_tailInv W p w) (step_tailInv W p) n

theorem step_noSubs (w : σ) (s : PState σ)
    (hs : submissions s.log = [] → feedView s = feedView (init W p w)) :
    submissions (step W p s).log = [] → feedView (step W p s) = feedView (init W p w) := by
  cases hpc : s.pc with
  | returned r0 =>
    rw [step_returned W p s r0 hpc]
    exact hs
  | drain =>
    rw [step_drain W p s hpc]
    obtain ⟨hview, -⟩ := stepDrain_view W p s
    have e3 : submissions (stepDrain W p s).log = submissions s.log :=
      congrArg FeedView.subs hview
    rw [e3, hview]
    exact hs
  | feed =>
    rw [step_feed W p s hpc]
    unfold stepFeed
    cases hsel : selectChunk p s with
    | none =>
      show submissions (leave W s).log = [] → feedView (leave W s) = _
      have e3 : submissions (leave W s).log = submissions s.log :=
        congrArg FeedView.subs (feedView_leave W s)
      rw [e3, feedView_leave]
      exact hs
    | some s1 =>
      show submissions (feedText W p s1).log = [] → _
      intro h
      rw [(feedText_frame W p s1).2.2.1, submissions_append, submissions_submissionEvent] at h
      simp at h

theorem process_noSubs (w : σ) (n : Nat) :
    submissions (process W p w n).log = [] →
      feedView (process W p w n) = feedView (init W p w) :=
  process_invariant W p w
    (fun s => submissions s.log = [] → feedView s = feedView (init W p w))
    (fun _ => rfl) (step_noSubs W p w) n

theorem flushEvents_zero (s : PState σ) (h : s.bufused = 0) :
    (∀ c ∈ wavCalls (flushEvents W p s), c.2 = 0) ∧
    (∀ c ∈ stdoutCalls (flushEvents W p s), c.2 = 0) ∧
    (∀ c ∈ playbackCalls (flushEvents W p s), c.2 = 0) := by
  obtain ⟨a1, a2, a3⟩ := flushEvents_sinkAgree W p s
  rw [a1, a2, a3, h]
  refine ⟨?_, ?_, ?_⟩ <;>
  · intro c hc
    split at hc
    · rw [List.mem_singleton] at hc
      rw [hc]
    · cases hc

theorem step_silentInv (hsil : ∀ w, (W.pico_getData w).2.1 = []) (s : PState σ)
    (hs : SilentInv s) : SilentInv (step W p s) := by
  obtain ⟨s0, s1, s2, s3⟩ := hs
  cases hpc : s.pc with
  | returned r0 =>
    rw [step_returned W p s r0 hpc]
    exact ⟨s0, s1, s2, s3⟩
  | feed =>
    rw [step_feed W p s hpc]
    obtain ⟨f1, -, evs, f3, -, -, -, f4, f5, f6⟩ := stepFeed_frame W p s
    refine ⟨by rw [f1]; exact s0, ?_, ?_, ?_⟩
    · rw [f3, wavCalls_append, f4, List.append_nil]; exact s1
    · rw [f3, stdoutCalls_append, f5, List.append_nil]; exact s2
    · rw [f3, playbackCalls_append, f6, List.append_nil]; exact s3
  | drain =>
    rw [step_drain W p s hpc]
    have hacc : accumulate W p (getData W s) (W.pico_getData s.world).2.1 = getData W s := by
      apply accumulate_empty
      rw [hsil]; rfl
    have hg : SilentInv (getData W s) := by
      refine ⟨s0, ?_, ?_, ?_⟩
      · show ∀ c ∈ wavCalls (s.log ++ _), _
        rw [wavCalls_append]
        simpa [wavCalls] using s1
      · show ∀ c ∈ stdoutCalls (s.log ++ _), _
        rw [stdoutCalls_append]
        simpa [stdoutCalls] using s2
      · show ∀ c ∈ playbackCalls (s.log ++ _), _
        rw [playbackCalls_append]
        simpa [playbackCalls] using s3
    unfold stepDrain
    rw [hacc]
    split
    · exact hg
    · split
      · exact hg
      · obtain ⟨g0, g1, g2, g3⟩ := hg
        obtain ⟨z1, z2, z3⟩ := flushEvents_zero W p (getData W s) g0
        refine ⟨by show (writeOut W p _).bufused = 0; rw [writeOut_bufused]; exact g0, ?_, ?_, ?_⟩
        · show ∀ c ∈ wavCalls (writeOut W p _).log, _
          rw [writeOut_log_eq, wavCalls_append]
          intro c hc
          rw [List.mem_append] at hc
          rcases hc with hc | hc
          · exact g1 c hc
          · exact z1 c hc
        · show ∀ c ∈ stdoutCalls (writeOut W p _).log, _
          rw [writeOut_log_eq, stdoutCalls_append]
          intro c hc
          rw [List.mem_append] at hc
          rcases hc with hc | hc
          · exact g2 c hc
          · exact z2 c hc
        · show ∀ c ∈ playbackCalls (writeOut W p _).log, _
          rw [writeOut_log_eq, playbackCalls_append]
          intro c hc
          rw [List.mem_append] at hc
          rcases hc with hc | hc
          · exact g3 c hc
          · exact z3 c hc

theorem process_silentInv (hsil : ∀ w, (W.pico_getData w).2.1 = []) (w : σ) (n : Nat) :
    SilentInv (process W p w n) := by
  apply process_invariant W p w SilentInv _ (step_silentInv W p hsil) n
  obtain ⟨-, -, -, -, i5, i6, i7⟩ := init_log_proj W p w
  refine ⟨init_bufused W p w, ?_, ?_, ?_⟩
  · rw [i5]; intro c hc; cases hc
  · rw [i6]; intro c hc; cases hc
  · rw [i7]; intro c hc; cases hc

end tailLemmas

section sinkResults

variable {σ : Type} (W : World σ) (p : Pico) (f : σ → Nat → List Nat → Bool)

theorem eraseOk_idem (e : Event) : e.eraseOk.eraseOk = e.eraseOk := by
  cases e <;> rfl

theorem map_eraseOk_idem (l : List Event) :
    (l.map Event.eraseOk).map Event.eraseOk = l.map Event.eraseOk := by
  rw [List.map_map]
  apply List.map_congr_left
  intro e _
  exact eraseOk_idem e

end sinkResults

section sinkResultsRun

variable {σ : Type} (W : World σ) (p : Pico) (f : σ → Nat → List Nat → Bool)

end sinkResultsRun

section kindLemmas

variable {σ : Type} (W : World σ) (p : Pico)

theorem selectV_kind (v v1 : FeedView) (hsp : v.do_startpad = true → v.inpSrc = SRC_OPENER)
    (hle : v.inpSrc ≤ SRC_CLOSER) (h : selectV p v = some v1) :
    v.inpSrc ≤ v1.inpSrc ∧ v1.inpSrc ≤ SRC_CLOSER ∧
      (v1.do_startpad = true → v1.inpSrc = SRC_OPENER) ∧
      (p.modifiers = none → v.inpSrc = SRC_TEXT ∧ v.do_startpad = false ∧ v.do_endpad = false →
        v1.inpSrc = SRC_TEXT ∧ v1.do_startpad = false ∧ v1.do_endpad = false) := by
  unfold selectV at h
  split at h
  · split at h
    · rename_i htr hst
      cases h
      have := hsp hst
      refine ⟨by rw [this]; show SRC_OPENER ≤ SRC_TEXT; decide,
        by show SRC_TEXT ≤ SRC_CLOSER; decide, fun hf => (by cases hf), ?_⟩
      intro _ hx
      rw [hx.2.1] at hst
      cases hst
    · split at h
      · split at h
        · rename_i htr hst hl hep
          split at h
          · rename_i b hb
            cases h
            refine ⟨hle, le_refl _, fun hf => absurd hf hst, ?_⟩
            intro hm
            rw [hm] at hb
            cases hb
          · cases h
            refine ⟨le_refl _, hle, hsp, ?_⟩
            intro _ hx
            rw [hx.2.2] at hep
            cases hep
        · cases h
      · cases h
        exact ⟨le_refl _, hle, hsp, fun _ hx => hx⟩
  · cases h
    exact ⟨le_refl _, hle, hsp, fun _ hx => hx⟩

theorem chain_snoc_le (l : List Submission) (a : Submission)
    (hc : List.Chain' (fun a b : Submission => a.src ≤ b.src) l)
    (hl : ∀ b ∈ l.getLast?, b.src ≤ a.src) :
    List.Chain' (fun a b : Submission => a.src ≤ b.src) (l ++ [a]) := by
  refine List.Chain'.append hc (List.chain'_singleton a) ?_
  intro x hx y hy
  simp only [List.head?_cons, Option.mem_def, Option.some.injEq] at hy
  subst hy
  exact hl x hx

theorem step_kindInv (hne : p.modifiers.isSome = true → 1 ≤ p.opener.length) (s : PState σ)
    (hs : KindInv p s) : KindInv p (step W p s) := by
  obtain ⟨k1, k2, k3, k4, k7, k5, k6⟩ := hs
  cases hpc : s.pc with
  | returned r0 =>
    rw [step_returned W p s r0 hpc]
    exact ⟨k1, k2, k3, k4, k7, k5, k6⟩
  | drain =>
    rw [step_drain W p s hpc]
    obtain ⟨hview, -⟩ := stepDrain_view W p s
    have e1 : (stepDrain W p s).do_startpad = s.do_startpad :=
      congrArg FeedView.do_startpad hview
    have e2 : (stepDrain W p s).inpSrc = s.inpSrc := congrArg FeedView.inpSrc hview
    have e3 : submissions (stepDrain W p s).log = submissions s.log :=
      congrArg FeedView.subs hview
    have e4 : (stepDrain W p s).do_endpad = s.do_endpad := congrArg FeedView.do_endpad hview
    have e5 : (stepDrain W p s).inpOff = s.inpOff := congrArg FeedView.inpOff hview
    have e6 : (stepDrain W p s).text_remaining = s.text_remaining :=
      congrArg FeedView.text_remaining hview
    unfold KindInv
    rw [e1, e2, e3, e4, e5, e6]
    exact ⟨k1, k2, k3, k4, k7, k5, k6⟩
  | feed =>
    rw [step_feed W p s hpc]
    unfold stepFeed
    cases hsel : selectChunk p s with
    | none =>
      show KindInv p (leave W s)
      have e3 : submissions (leave W s).log = submissions s.log :=
        congrArg FeedView.subs (feedView_leave W s)
      unfold KindInv
      rw [e3]
      exact ⟨k1, k2, k3, k4, k7, k5, k6⟩
    | some s1 =>
      show KindInv p (feedText W p s1)
      have hsv := selectChunk_some_view p s s1 hsel
      obtain ⟨m1, m2, m3, m4⟩ := selectV_kind p (feedView s) (feedView s1) k3 k4 hsv
      have m1' : s.inpSrc ≤ s1.inpSrc := m1
      obtain ⟨-, -, g3, -, -, g6, g7, g8⟩ := feedText_frame W p s1
      have hl : s1.log = s.log := (selectChunk_frame p s s1 hsel).2.2.1
      have hsubs : submissions (feedText W p s1).log = submissions s.log ++
          [⟨s1.inpSrc, s1.inpOff, offeredBytes p s1.inpSrc s1.inpOff s1.text_remaining,
            s1.text_remaining,
            (W.pico_putTextUtf8 s1.world (offeredBytes p s1.inpSrc s1.inpOff s1.text_remaining)
              s1.text_remaining).2.1⟩] := by
        rw [g3, hl, submissions_append, submissions_submissionEvent]
      unfold KindInv
      rw [hsubs, g6, g7, g8]
      refine ⟨?_, ?_, m3, m2, ?_, ?_, ?_⟩
      · apply chain_snoc_le _ _ k1
        intro b hb
        exact le_trans (k2 b hb) m1'
      · intro a ha
        rw [List.getLast?_append, List.getLast?_singleton] at ha
        simp only [Option.or_some, Option.mem_def, Option.some.injEq] at ha
        subst ha
        exact le_refl _
      · intro a ha
        rw [List.mem_append] at ha
        rcases ha with ha | ha
        · exact k7 a ha
        · rw [List.mem_singleton] at ha
          subst ha
          exact m2
      · intro hm
        obtain ⟨n1, n2, n3, n4⟩ := k5 hm
        obtain ⟨o1, o2, o3⟩ := m4 hm ⟨n1, n2, n3⟩
        refine ⟨o1, o2, o3, ?_⟩
        intro a ha
        rw [List.mem_append] at ha
        rcases ha with ha | ha
        · exact n4 a ha
        · rw [List.mem_singleton] at ha
          subst ha
          exact o1
      · intro hm
        rcases k6 hm with ⟨q1, q2, q3, q4⟩ | ⟨sent, rest, q⟩
        · right
          have hpos : 0 < s.text_remaining := by
            rw [q4]
            have := hne hm
            omega
          have hv1 := selectV_pos p _ _ hsv hpos
          have f1 : s1.inpSrc = s.inpSrc := congrArg FeedView.inpSrc hv1
          have f2 : s1.inpOff = s.inpOff := congrArg FeedView.inpOff hv1
          have f3 : s1.text_remaining = s.text_remaining :=
            congrArg FeedView.text_remaining hv1
          refine ⟨(W.pico_putTextUtf8 s1.world
            (offeredBytes p s1.inpSrc s1.inpOff s1.text_remaining) s1.text_remaining).2.1, [], ?_⟩
          rw [q1, f1, f2, f3, q2, q3, q4, offered_opener]
          rfl
        · right
          exact ⟨sent, rest ++ _, by rw [q]; rfl⟩

end kindLemmas

section wholeLemmas

variable {σ : Type} (W : World σ) (p : Pico)

theorem wrap16_sub_self (x : Int) : wrap16 (x - x) = 0 := by
  rw [sub_self]; rfl

theorem init_kindInv (w : σ) (ho : p.opener.length ≤ 32767) : KindInv p (init W p w) := by
  have hv := feedView_init W p w
  have e1 : (init W p w).do_startpad = (init0 p w : PState σ).do_startpad :=
    congrArg FeedView.do_startpad hv
  have e2 : (init W p w).inpSrc = (init0 p w : PState σ).inpSrc := congrArg FeedView.inpSrc hv
  have e4 : (init W p w).do_endpad = (init0 p w : PState σ).do_endpad :=
    congrArg FeedView.do_endpad hv
  have e5 : (init W p w).inpOff = (init0 p w : PState σ).inpOff := congrArg FeedView.inpOff hv
  have e6 : (init W p w).text_remaining = (init0 p w : PState σ).text_remaining :=
    congrArg FeedView.text_remaining hv
  unfold KindInv
  rw [(init_log_proj W p w).1, e1, e2, e4, e5, e6]
  unfold init0
  cases hm : p.modifiers with
  | none =>
    dsimp only
    refine ⟨List.chain'_nil, fun a ha => (by cases ha), fun hf => (by cases hf),
      (by show SRC_TEXT ≤ SRC_CLOSER; decide), fun a ha => (by cases ha), ?_, ?_⟩
    · intro _
      exact ⟨rfl, rfl, rfl, fun a ha => (by cases ha)⟩
    · intro hf
      cases hf
  | some b =>
    have hop := opener_some p b hm
    have hlen : (b.plate_begin.length : Int) ≤ 32767 := by rw [← hop]; omega
    have hw : wrap16 ((Boilerplate.getOpener b).2 : Int) = p.opener.length := by
      rw [hop]
      exact wrap16_id _ (by simp [Boilerplate.getOpener]) hlen
    dsimp only
    refine ⟨List.chain'_nil, fun a ha => (by cases ha), fun _ => rfl,
      (by show SRC_OPENER ≤ SRC_CLOSER; decide), fun a ha => (by cases ha), ?_, ?_⟩
    · intro hf
      cases hf
    · intro _
      exact Or.inl ⟨rfl, rfl, rfl, hw⟩

theorem process_kindInv (w : σ) (ho : p.opener.length ≤ 32767)
    (hne : p.modifiers.isSome = true → 1 ≤ p.opener.length) (n : Nat) :
    KindInv p (process W p w n) :=
  process_invariant W p w (KindInv p) (init_kindInv W p w ho) (step_kindInv W p hne) n

theorem selectV_putV_whole (hc : p.closer.length ≤ 32767)
    (hne : p.modifiers.isSome = true → 1 ≤ p.opener.length) (v v1 : FeedView)
    (hv : WholeV p v) (h : selectV p v = some v1) :
    WholeV p (putV p v1 v1.text_remaining) := by
  rcases hv with ⟨a1, a2, a3, a4, a5, hb⟩ | ⟨c1, c2, c3, c4, c5, body, d1, d2, d3⟩ |
    ⟨c1, c2, c3, c4, c5, -⟩
  · rcases hb with ⟨b1, b2, b3⟩ | ⟨b1, b3⟩
    · have hpos : 0 < v.text_remaining := by
        rw [b1]
        have := hne a4
        omega
      have hv1 := selectV_pos p v v1 h hpos
      rw [hv1]
      left
      refine ⟨a1, a2, a3, a4, a5, Or.inr ⟨wrap16_sub_self _, ?_⟩⟩
      show v.subs ++ [_] = _
      rw [b3, a1, b2, b1, offered_opener]
      rfl
    · obtain ⟨i0, i1, i2, -, -⟩ := increment_bounds v.text_length a5
      have hw : wrap16 (increment v.text_length) = increment v.text_length := wrap16_id _ i0 i1
      unfold selectV at h
      rw [if_pos (le_of_eq b1), if_pos a2, hw] at h
      cases h
      right; left
      refine ⟨rfl, rfl, (by show v.do_endpad = _; rw [a3, a4]), wrap16_sub_self _,
        (by show 0 ≤ v.text_length - _; omega),
        [⟨SRC_TEXT, 0, offeredBytes p SRC_TEXT 0 (increment v.text_length),
          increment v.text_length, increment v.text_length⟩], ?_, ?_, fun _ => (by simp)⟩
      · show v.subs ++ [_] = _
        rw [b3, a4]
        rfl
      · intro a ha
        rw [List.mem_singleton] at ha
        rw [ha]
  · obtain ⟨i0, i1, i2, -, -⟩ := increment_bounds v.text_length c5
    have hw : wrap16 (increment v.text_length) = increment v.text_length := wrap16_id _ i0 i1
    unfold selectV at h
    rw [if_pos (le_of_eq c4), if_neg (by rw [c2]; decide), hw] at h
    split at h
    · rename_i hl
      split at h
      · rename_i hep
        have hm : p.modifiers.isSome = true := by rw [← c3]; exact hep
        split at h
        · rename_i b hb
          cases h
          have hclo := closer_some p b hb
          have hlen : (b.plate_end.length : Int) ≤ 32767 := by rw [← hclo]; exact_mod_cast hc
          have hw2 : wrap16 ((Boilerplate.getCloser b).2 : Int) = p.closer.length := by
            rw [hclo]
            exact wrap16_id _ (by simp [Boilerplate.getCloser])
              (by simpa [Boilerplate.getCloser] using hlen)
          right; right
          refine ⟨rfl, c2, rfl, wrap16_sub_self _, hl, body, ?_, d2, d3 hm⟩
          show v.subs ++ [_] = _
          rw [d1, hm]
          simp only [if_true]
          show _ ++ [(⟨SRC_CLOSER, 0, offeredBytes p SRC_CLOSER 0 (wrap16 _), wrap16 _, wrap16 _⟩ :
            Submission)] = _
          rw [hw2, offered_closer]
          rfl
        · rename_i hb
          rw [hb] at hm
          cases hm
      · cases h
    · cases h
      right; left
      refine ⟨c1, c2, c3, wrap16_sub_self _, (by show 0 ≤ v.text_length - _; omega),
        body ++ [⟨v.inpSrc, v.inpOff, offeredBytes p v.inpSrc v.inpOff (increment v.text_length),
          increment v.text_length, increment v.text_length⟩], ?_, ?_, fun _ => (by simp)⟩
      · show v.subs ++ [_] = _
        rw [d1, List.append_assoc]
      · intro a ha
        rw [List.mem_append] at ha
        rcases ha with ha | ha
        · exact d2 a ha
        · rw [List.mem_singleton] at ha
          rw [ha]
          exact c1
  · exfalso
    unfold selectV at h
    rw [if_pos (le_of_eq c4), if_neg (by rw [c2]; decide), if_pos c5,
      if_neg (by rw [c3]; decide)] at h
    cases h

theorem step_wholeV (hc : p.closer.length ≤ 32767)
    (hne : p.modifiers.isSome = true → 1 ≤ p.opener.length)
    (hwhole : ∀ w bytes size,
      (W.pico_putTextUtf8 w bytes size).1 = 0 ∧ (W.pico_putTextUtf8 w bytes size).2.1 = size)
    (s : PState σ) (hs : WholeV p (feedView s)) : WholeV p (feedView (step W p s)) := by
  unfold step
  split
  · unfold stepFeed
    split
    · rw [feedView_leave]; exact hs
    · rename_i s1 hsel
      have hsv := selectChunk_some_view p s s1 hsel
      obtain ⟨e1, e2⟩ := hwhole s1.world (offeredBytes p s1.inpSrc s1.inpOff s1.text_remaining)
        s1.text_remaining
      obtain ⟨hview, -⟩ := feedText_view W p s1 e1
      rw [hview, e2]
      exact selectV_putV_whole p hc hne _ _ hs hsv
  · rw [(stepDrain_view W p s).1]; exact hs
  · exact hs

theorem init_wholeV (w : σ) (h0 : 0 ≤ p.total_text_length) (hfresh : p.text_remaining = 0)
    (ho : p.opener.length ≤ 32767) : WholeV p (feedView (init W p w)) := by
  rw [feedView_init]
  unfold init0 feedView
  cases hm : p.modifiers with
  | none =>
    have hs : p.modifiers.isSome = false := by rw [hm]; rfl
    dsimp only
    right; left
    refine ⟨rfl, rfl, (by show false = _; rw [hs]), hfresh, h0, [], ?_,
      fun a ha => (by cases ha), fun hf => (by rw [hs] at hf; cases hf)⟩
    show submissions [] = _
    rw [hs]
    rfl
  | some b =>
    have hs : p.modifiers.isSome = true := by rw [hm]; rfl
    have hop := opener_some p b hm
    have hlen : (b.plate_begin.length : Int) ≤ 32767 := by rw [← hop]; omega
    have hw : wrap16 ((Boilerplate.getOpener b).2 : Int) = p.opener.length := by
      rw [hop]
      exact wrap16_id _ (by simp [Boilerplate.getOpener]) hlen
    dsimp only
    left
    exact ⟨rfl, rfl, rfl, hs, h0, Or.inl ⟨hw, rfl, rfl⟩⟩

theorem process_wholeV (w : σ) (h0 : 0 ≤ p.total_text_length) (hfresh : p.text_remaining = 0)
    (ho : p.opener.length ≤ 32767) (hc : p.closer.length ≤ 32767)
    (hne : p.modifiers.isSome = true → 1 ≤ p.opener.length)
    (hwhole : ∀ w bytes size,
      (W.pico_putTextUtf8 w bytes size).1 = 0 ∧ (W.pico_putTextUtf8 w bytes size).2.1 = size)
    (n : Nat) : WholeV p (feedView (process W p w n)) :=
  process_invariant W p w (fun s => WholeV p (feedView s)) (init_wholeV W p w h0 hfresh ho)
    (step_wholeV W p hc hne hwhole) n

end wholeLemmas

section sameRun

variable {σ τ : Type} (W : World σ) (V : World τ) (R : σ → τ → Prop) (p : Pico)

theorem map_eraseSink_snoc {a b : List Event}
    (h : a.map Event.eraseSink = b.map Event.eraseSink) (l : List Event) :
    (a ++ l).map Event.eraseSink = (b ++ l).map Event.eraseSink := by
  rw [List.map_append, List.map_append, h]

theorem sameRun_selectChunk (s : PState σ) (t : PState τ) (h : SameRun R s t) :
    (selectChunk p s = none ∧ selectChunk p t = none) ∨
    ∃ s1 t1, selectChunk p s = some s1 ∧ selectChunk p t = some t1 ∧ SameRun R s1 t1 := by
  unfold selectChunk
  rw [← h.text_remaining, ← h.text_length, ← h.do_startpad, ← h.do_endpad]
  by_cases h1 : s.text_remaining ≤ 0
  · rw [if_pos h1, if_pos h1]
    by_cases h2 : s.do_startpad = true
    · rw [if_pos h2, if_pos h2]
      refine Or.inr ⟨_, _, rfl, rfl, ?_⟩
      exact { h with inpSrc := rfl, inpOff := rfl, text_remaining := rfl, text_length := rfl,
                     do_startpad := rfl, do_endpad := rfl }
    · rw [if_neg h2, if_neg h2]
      by_cases h3 : s.text_length ≤ 0
      · rw [if_pos h3, if_pos h3]
        by_cases h4 : s.do_endpad = true
        · rw [if_pos h4, if_pos h4]
          cases p.modifiers with
          | none =>
            refine Or.inr ⟨_, _, rfl, rfl, ?_⟩
            exact { h with text_remaining := rfl, text_length := rfl, do_startpad := rfl,
                           do_endpad := rfl }
          | some b =>
            refine Or.inr ⟨_, _, rfl, rfl, ?_⟩
            exact { h with inpSrc := rfl, inpOff := rfl, text_remaining := rfl,
                           text_length := rfl, do_startpad := rfl, do_endpad := rfl }
        · rw [if_neg h4, if_neg h4]
          exact Or.inl ⟨rfl, rfl⟩
      · rw [if_neg h3, if_neg h3]
        refine Or.inr ⟨_, _, rfl, rfl, ?_⟩
        exact { h with text_remaining := rfl, text_length := rfl, do_startpad := rfl,
                       do_endpad := rfl }
  · rw [if_neg h1, if_neg h1]
    exact Or.inr ⟨_, _, rfl, rfl, h⟩

theorem sameRun_leave (s : PState σ) (t : PState τ) (h : SameRun R s t) :
    SameRun R (leave W s) (leave V t) := by
  unfold leave
  rw [← h.bufused, ← h.sdOutFile]
  refine { h with pc := rfl, bufused := rfl, sdOutFile := rfl, log := ?_ }
  dsimp only
  cases s.sdOutFile
  · exact h.log
  · simp only [if_true, List.map_append, h.log]
    rfl

theorem sameRun_feedText (s : PState σ) (t : PState τ) (h : SameRun R s t)
    (hput : ∀ a b bytes size, R a b →
      (W.pico_putTextUtf8 a bytes size).1 = (V.pico_putTextUtf8 b bytes size).1 ∧
      (W.pico_putTextUtf8 a bytes size).2.1 = (V.pico_putTextUtf8 b bytes size).2.1 ∧
      R (W.pico_putTextUtf8 a bytes size).2.2 (V.pico_putTextUtf8 b bytes size).2.2) :
    SameRun R (feedText W p s) (feedText V p t) := by
  obtain ⟨e1, e2, e3⟩ := hput s.world t.world
    (offeredBytes p s.inpSrc s.inpOff s.text_remaining) s.text_remaining h.world
  unfold feedText submissionEvent
  rw [← h.inpSrc, ← h.inpOff, ← h.text_remaining, ← e1, ← e2]
  by_cases hc : (W.pico_putTextUtf8 s.world (offeredBytes p s.inpSrc s.inpOff s.text_remaining)
      s.text_remaining).1 ≠ 0
  · rw [if_pos hc, if_pos hc]
    exact { h with pc := rfl, world := e3, log := map_eraseSink_snoc h.log _, inpSrc := rfl,
                   inpOff := rfl, text_remaining := rfl }
  · rw [if_neg hc, if_neg hc]
    exact { h with pc := rfl, world := e3, log := map_eraseSink_snoc h.log _, inpSrc := rfl,
                   inpOff := rfl, text_remaining := rfl }

theorem sameRun_getData (s : PState σ) (t : PState τ) (h : SameRun R s t)
    (hget : ∀ a b, R a b →
      (W.pico_getData a).1 = (V.pico_getData b).1 ∧
      (W.pico_getData a).2.1 = (V.pico_getData b).2.1 ∧
      R (W.pico_getData a).2.2 (V.pico_getData b).2.2) :
    SameRun R (getData W s) (getData V t) := by
  obtain ⟨e1, e2, e3⟩ := hget s.world t.world h.world
  unfold getData
  rw [← e1, ← e2]
  exact { h with world := e3, log := map_eraseSink_snoc h.log _ }

theorem writeData_eraseSink (l : Listener) (data : List Nat) (n : Nat) :
    (l.writeData data n).map Event.eraseSink = l.writeData data n := by
  obtain ⟨c, m⟩ := l
  rcases c with _ | c
  · rfl
  · cases c <;>
      simp only [Listener.writeData, write_short_to_stdout, write_short_to_playback,
        write_short_to_playback_and_stdout]
    · split <;> rfl
    · split <;> rfl
    · split <;> split <;> rfl

theorem sameRun_writeOut (s : PState σ) (t : PState τ) (h : SameRun R s t)
    (hsink : ∀ a b n buf, R a b →
      R (W.picoos_sdfPutSamples a n buf).2 (V.picoos_sdfPutSamples b n buf).2) :
    SameRun R (writeOut W p s) (writeOut V p t) := by
  have hs : R (W.picoos_sdfPutSamples s.world (s.bufused / 2) s.pcm_buffer).2
      (V.picoos_sdfPutSamples t.world (t.bufused / 2) t.pcm_buffer).2 := by
    rw [← h.bufused, ← h.pcm_buffer]
    exact hsink s.world t.world (s.bufused / 2) s.pcm_buffer h.world
  have hl1 : ∀ l : Listener,
      (s.log ++ l.writeData s.pcm_buffer (s.bufused / 2)).map Event.eraseSink =
        (t.log ++ l.writeData t.pcm_buffer (t.bufused / 2)).map Event.eraseSink := by
    intro l
    rw [h.pcm_buffer, h.bufused]
    exact map_eraseSink_snoc h.log _
  have hl2 : ∀ a b : Bool,
      (s.log ++ [Event.sdfPutSamples (s.bufused / 2) s.pcm_buffer a]).map Event.eraseSink =
        (t.log ++ [Event.sdfPutSamples (t.bufused / 2) t.pcm_buffer b]).map Event.eraseSink := by
    intro a b
    rw [List.map_append, List.map_append, h.log, h.bufused, h.pcm_buffer]
    rfl
  have hl3 : ∀ (a b : Bool) (l : Listener),
      (s.log ++ [Event.sdfPutSamples (s.bufused / 2) s.pcm_buffer a] ++
          l.writeData s.pcm_buffer (s.bufused / 2)).map Event.eraseSink =
        (t.log ++ [Event.sdfPutSamples (t.bufused / 2) t.pcm_buffer b] ++
          l.writeData t.pcm_buffer (t.bufused / 2)).map Event.eraseSink := by
    intro a b l
    have h2 := hl2 a b
    simp only [List.map_append] at h2 ⊢
    rw [h2, h.bufused, h.pcm_buffer]
  unfold writeOut
  cases p.pico_writeWavPcm <;> cases p.listener
  · exact h
  · exact { h with log := hl1 _ }
  · exact { h with world := hs, log := hl2 _ _ }
  · exact { h with world := hs, log := hl3 _ _ _ }

theorem sameRun_accumulate (s : PState σ) (t : PState τ) (h : SameRun R s t)
    (hsink : ∀ a b n buf, R a b →
      R (W.picoos_sdfPutSamples a n buf).2 (V.picoos_sdfPutSamples b n buf).2)
    (outbuf : List Nat) :
    SameRun R (accumulate W p s outbuf) (accumulate V p t outbuf) := by
  have hw := sameRun_writeOut W V R p s t h hsink
  unfold accumulate
  rw [← h.bufused, ← h.pcm_buffer, ← hw.pcm_buffer]
  by_cases h1 : 0 < wrap16 outbuf.length
  · rw [if_pos h1, if_pos h1]
    by_cases h2 : (s.bufused + bytesRecv outbuf) % 4294967296 ≤ PCM_BUFFER_SIZE
    · rw [if_pos h2, if_pos h2]
      exact { h with pcm_buffer := rfl, bufused := rfl, log := map_eraseSink_snoc h.log _ }
    · rw [if_neg h2, if_neg h2]
      exact { hw with pcm_buffer := rfl, bufused := rfl, log := map_eraseSink_snoc hw.log _ }
  · rw [if_neg h1, if_neg h1]
    exact h

theorem sameRun_step (s : PState σ) (t : PState τ) (h : SameRun R s t)
    (hput : ∀ a b bytes size, R a b →
      (W.pico_putTextUtf8 a bytes size).1 = (V.pico_putTextUtf8 b bytes size).1 ∧
      (W.pico_putTextUtf8 a bytes size).2.1 = (V.pico_putTextUtf8 b bytes size).2.1 ∧
      R (W.pico_putTextUtf8 a bytes size).2.2 (V.pico_putTextUtf8 b bytes size).2.2)
    (hget : ∀ a b, R a b →
      (W.pico_getData a).1 = (V.pico_getData b).1 ∧
      (W.pico_getData a).2.1 = (V.pico_getData b).2.1 ∧
      R (W.pico_getData a).2.2 (V.pico_getData b).2.2)
    (hsink : ∀ a b n buf, R a b →
      R (W.picoos_sdfPutSamples a n buf).2 (V.picoos_sdfPutSamples b n buf).2) :
    SameRun R (step W p s) (step V p t) := by
  unfold step
  rw [← h.pc]
  cases hpc : s.pc with
  | feed =>
    show SameRun R (stepFeed W p s) (stepFeed V p t)
    unfold stepFeed
    rcases sameRun_selectChunk R p s t h with ⟨a, b⟩ | ⟨s1, t1, a, b, c⟩
    · rw [a, b]
      exact sameRun_leave W V R s t h
    · rw [a, b]
      exact sameRun_feedText W V R p s1 t1 c hput
  | drain =>
    show SameRun R (stepDrain W p s) (stepDrain V p t)
    obtain ⟨e1, e2, -⟩ := hget s.world t.world h.world
    have hg := sameRun_getData W V R s t h hget
    have ha := sameRun_accumulate W V R p _ _ hg hsink (W.pico_getData s.world).2.1
    unfold stepDrain
    rw [← e1, ← e2]
    by_cases h1 : (W.pico_getData s.world).1 ≠ PICO_STEP_BUSY ∧
        (W.pico_getData s.world).1 ≠ PICO_STEP_IDLE
    · rw [if_pos h1, if_pos h1]
      exact { hg with pc := rfl }
    · rw [if_neg h1, if_neg h1]
      by_cases h2 : (W.pico_getData s.world).1 = PICO_STEP_BUSY
      · rw [if_pos h2, if_pos h2]
        exact ha
      · rw [if_neg h2, if_neg h2]
        exact { sameRun_writeOut W V R p _ _ ha hsink with pc := rfl }
  | returned r => exact h

theorem sameRun_init (w : σ) (v : τ) (hw : R w v)
    (hopen : ∀ a b, R a b →
      (W.picoos_sdfOpenOut a).1 = (V.picoos_sdfOpenOut b).1 ∧
      R (W.picoos_sdfOpenOut a).2 (V.picoos_sdfOpenOut b).2) :
    SameRun R (init W p w) (init V p v) := by
  obtain ⟨e1, e2⟩ := hopen w v hw
  have h0 : SameRun R (init0 p w) (init0 p v) := by
    unfold init0
    cases p.modifiers <;>
      exact ⟨rfl, hw, rfl, rfl, rfl, rfl, rfl, rfl, rfl, rfl, rfl, rfl, rfl⟩
  unfold init
  rw [← e1]
  cases p.pico_writeWavPcm
  · exact h0
  · cases (W.picoos_sdfOpenOut w).1
    · exact { h0 with world := e2, pc := rfl, log := rfl }
    · exact { h0 with world := e2, sdOutFile := rfl, log := rfl }

theorem sameRun_process (w : σ) (v : τ) (hw : R w v)
    (hput : ∀ a b bytes size, R a b →
      (W.pico_putTextUtf8 a bytes size).1 = (V.pico_putTextUtf8 b bytes size).1 ∧
      (W.pico_putTextUtf8 a bytes size).2.1 = (V.pico_putTextUtf8 b bytes size).2.1 ∧
      R (W.pico_putTextUtf8 a bytes size).2.2 (V.pico_putTextUtf8 b bytes size).2.2)
    (hget : ∀ a b, R a b →
      (W.pico_getData a).1 = (V.pico_getData b).1 ∧
      (W.pico_getData a).2.1 = (V.pico_getData b).2.1 ∧
      R (W.pico_getData a).2.2 (V.pico_getData b).2.2)
    (hopen : ∀ a b, R a b →
      (W.picoos_sdfOpenOut a).1 = (V.picoos_sdfOpenOut b).1 ∧
      R (W.picoos_sdfOpenOut a).2 (V.picoos_sdfOpenOut b).2)
    (hsink : ∀ a b n buf, R a b →
      R (W.picoos_sdfPutSamples a n buf).2 (V.picoos_sdfPutSamples b n buf).2)
    (n : Nat) : SameRun R (process W p w n) (process V p v n) := by
  induction n with
  | zero => exact sameRun_init W V R p w v hw hopen
  | succ n ih =>
    rw [process_succ, process_succ]
    exact sameRun_step W V R p _ _ ih hput hget hsink

theorem eraseSink_proj (log : List Event) :
    submissions (log.map Event.eraseSink) = submissions log ∧
    drainedFrags (log.map Event.eraseSink) = drainedFrags log ∧
    copies (log.map Event.eraseSink) = copies log ∧
    wavCalls (log.map Event.eraseSink) = wavCalls log ∧
    stdoutCalls (log.map Event.eraseSink) = stdoutCalls log ∧
    playbackCalls (log.map Event.eraseSink) = playbackCalls log := by
  induction log with
  | nil => exact ⟨rfl, rfl, rfl, rfl, rfl, rfl⟩
  | cons e rest ih =>
    obtain ⟨i1, i2, i3, i4, i5, i6⟩ := ih
    have hcons : (e :: rest).map Event.eraseSink = [e.eraseSink] ++ rest.map Event.eraseSink :=
      rfl
    have a1 : submissions (e :: rest) = submissions [e] ++ submissions rest :=
      submissions_append [e] rest
    have a2 : drainedFrags (e :: rest) = drainedFrags [e] ++ drainedFrags rest :=
      drainedFrags_append [e] rest
    have a3 : copies (e :: rest) = copies [e] ++ copies rest := copies_append [e] rest
    have a4 : wavCalls (e :: rest) = wavCalls [e] ++ wavCalls rest := wavCalls_append [e] rest
    have a5 : stdoutCalls (e :: rest) = stdoutCalls [e] ++ stdoutCalls rest :=
      stdoutCalls_append [e] rest
    have a6 : playbackCalls (e :: rest) = playbackCalls [e] ++ playbackCalls rest :=
      playbackCalls_append [e] rest
    rw [hcons, submissions_append, drainedFrags_append, copies_append, wavCalls_append,
      stdoutCalls_append, playbackCalls_append, i1, i2, i3, i4, i5, i6, a1, a2, a3, a4, a5, a6]
    cases e <;> exact ⟨rfl, rfl, rfl, rfl, rfl, rfl⟩

end sameRun

section statusLemmas

variable {σ : Type} (W : World σ) (p : Pico)

theorem selectChunk_status (s s1 : PState σ) (h : selectChunk p s = some s1) :
    s1.status = s.status := by
  unfold selectChunk at h
  split at h
  · split at h
    · cases h; rfl
    · split at h
      · split at h
        · split at h <;> (cases h; rfl)
        · cases h
      · cases h; rfl
  · cases h; rfl

theorem writeOut_status (s : PState σ) : (writeOut W p s).status = s.status := by
  unfold writeOut; split <;> split <;> rfl

theorem accumulate_status (s : PState σ) (outbuf : List Nat) :
    (accumulate W p s outbuf).status = s.status := by
  unfold accumulate
  split
  · split
    · rfl
    · exact writeOut_status W p s
  · rfl

theorem step_status (s : PState σ) : (step W p s).status = s.status := by
  unfold step
  split
  · unfold stepFeed
    cases hsel : selectChunk p s with
    | none => rfl
    | some s1 =>
      show (feedText W p s1).status = s.status
      rw [← selectChunk_status p s s1 hsel]
      unfold feedText
      split <;> rfl
  · unfold stepDrain
    split
    · rfl
    · split
      · exact accumulate_status W p _ _
      · show (writeOut W p (accumulate W p (getData W s) _)).status = s.status
        rw [writeOut_status, accumulate_status]
        rfl
  · rfl

theorem init_status (w : σ) : (init W p w).status = (init0 p w).status := by
  unfold init
  split
  · split <;> rfl
  · rfl

theorem init0_status (w : σ) :
    (init0 p w).status =
      match p.modifiers with
      | some b => Boilerplate.getStatusMessage b
      | none => some [] := by
  unfold init0
  cases p.modifiers <;> rfl

theorem process_status (w : σ) (n : Nat) : (process W p w n).status = (init0 p w).status :=
  process_invariant W p w (fun s => s.status = (init0 p w).status) (init_status W p w)
    (fun s hs => by show (step W p s).status = _; rw [step_status]; exact hs) n

end statusLemmas

section termination

/-- Once the status message of line 1243 has been printed without overflow:
let the modifiers be what `getModifiers` returns after any sequence of setter
calls, the text length be `L ≥ 0`, the engine never report an error, accept
between 0 and `size` bytes of each submission and at least one byte when
`size ≥ 1`, and each busy drain lower a measure `μ` of the engine that the sink
writes do not raise.  Then `process` returns: after some number of steps it is
at its `return`, with the fill count (at least 0) or, when the WAV file cannot
be opened, with -1, and it stays there; and at every point of the run the
number of submissions made is at most `|opener| + max(L, 1) + |closer|`. -/
theorem run_returns_within_bound {σ : Type} (W : World σ) (p : Pico) (w : σ)
    (cs : List (ValRef × F32))
    (hmk : p.modifiers = getModifiers (Boilerplate.applySetters Boilerplate.new cs))
    (h0 : 0 ≤ p.total_text_length) (hfresh : p.text_remaining = 0)
    (hput : ∀ w bytes size, 0 ≤ size →
      (W.pico_putTextUtf8 w bytes size).1 = 0 ∧ 0 ≤ (W.pico_putTextUtf8 w bytes size).2.1 ∧
        (W.pico_putTextUtf8 w bytes size).2.1 ≤ size ∧
        (1 ≤ size → 1 ≤ (W.pico_putTextUtf8 w bytes size).2.1))
    (μ : σ → Nat)
    (hbusy : ∀ w, (W.pico_getData w).1 = PICO_STEP_BUSY → μ (W.pico_getData w).2.2 < μ w)
    (hsink : ∀ w n buf, μ (W.picoos_sdfPutSamples w n buf).2 ≤ μ w)
    (hstat : ∀ w, (W.pico_getData w).1 = PICO_STEP_BUSY ∨ (W.pico_getData w).1 = PICO_STEP_IDLE)
    (_hfit : (init0 p w).status ≠ none) :
    (∃ n r, (∀ k, (process W p w (n + k)).pc = Pc.returned r) ∧
      (0 ≤ r ∨ (r = -1 ∧ p.pico_writeWavPcm = true ∧ (W.picoos_sdfOpenOut w).1 = false))) ∧
    (∀ n, ((submissions (process W p w n).log).length : Int) ≤
      p.opener.length + max p.total_text_length 1 + p.closer.length) := by
  obtain ⟨ho, hc, hne⟩ := markup_facts p cs hmk
  have ho' : p.opener.length ≤ 32767 := by omega
  have hc' : p.closer.length ≤ 32767 := by omega
  have hcl : p.modifiers.isSome = true → 1 ≤ p.closer.length := fun h => (hne h).2
  constructor
  · rcases init_pc W p w with hpc | hpc
    · have hcnt := init_count W p w h0 hfresh ho'
      have hbu : (init W p w).bufused ≤ 32767 := by rw [init_bufused]; omega
      obtain ⟨k, r, e1, e2⟩ := feed_reaches_return W p hc' hcl hput μ hbusy hsink hstat
        (budget p (feedView (init W p w))).toNat (init W p w) hcnt hbu hpc
        (by have := budget_nonneg p _ hcnt.1; omega)
      refine ⟨k, r, ?_, Or.inl e2⟩
      intro j
      rw [process_after_return W p w k r e1 j]
      exact e1
    · refine ⟨0, -1, ?_, Or.inr ⟨rfl, ?_⟩⟩
      · intro j
        rw [process_after_return W p w 0 (-1) hpc j]
        exact hpc
      · rcases (process_retInv W p w 0).2 (-1) hpc with h | h | h | h
        · exact ⟨h.2.1, h.2.2.1⟩
        · exact absurd h.1 (by decide)
        · exact absurd h.1 (by decide)
        · exact absurd h.1 (by decide)
  · intro n
    obtain ⟨hr, hcnt⟩ := process_count W p w h0 hfresh ho' hc' hcl hput n
    have := budget_nonneg p _ hr
    unfold submissionBound at hcnt
    have hs : (feedView (process W p w n)).subs = submissions (process W p w n).log := rfl
    rw [hs] at hcnt
    omega

end termination

/-! ## The properties -/

namespace Boilerplate

/-- C7: let `cs` be any sequence of `setSpeed` / `setPitch` / `setVolume` calls
on a freshly constructed `Boilerplate`, in any order, and `setBy cs` the
members these calls set: those whose setter was last called with a value other
than `-1` (every member that has a call, when no call passes `-1`), taken in
the order speed, pitch, volume.  Then the opener is the opening tags of the
members of `setBy cs` in that order, each with the value last passed for it,
and the closer is the closing tags of the same list in the reverse order: one
closing tag per opening tag, in the opposite order. -/
theorem closer_tags_reverse_opener_tags (cs : List (ValRef × F32)) :
    (setBy cs).Sublist [ValRef.speed, ValRef.pitch, ValRef.volume] ∧
    (∀ r, r ∈ setBy cs ↔ lastSet cs r ≠ F32.negOne) ∧
    ((∀ c ∈ cs, c.2 ≠ F32.negOne) → ∀ r, r ∈ setBy cs ↔ ∃ v, (r, v) ∈ cs) ∧
    (getOpener (applySetters Boilerplate.new cs)).1 =
      ((setBy cs).map fun r => openTag r (lastSet cs r)).flatten ∧
    (getCloser (applySetters Boilerplate.new cs)).1 =
      ((setBy cs).reverse.map closeTag).flatten := by
  have hmem : ∀ r, r ∈ setBy cs ↔ lastSet cs r ≠ F32.negOne := by
    intro r
    cases r <;> simp [setBy]
  have hs : (applySetters Boilerplate.new cs).speed = lastSet cs ValRef.speed :=
    applySetters_vals cs ValRef.speed
  have hp : (applySetters Boilerplate.new cs).pitch = lastSet cs ValRef.pitch :=
    applySetters_vals cs ValRef.pitch
  have hv : (applySetters Boilerplate.new cs).volume = lastSet cs ValRef.volume :=
    applySetters_vals cs ValRef.volume
  have h := applySetters_plates cs
  rw [hs, hp, hv] at h
  refine ⟨List.filter_sublist _, hmem, ?_, ?_, ?_⟩
  · intro hall r
    rw [hmem]
    constructor
    · exact lastSet_mem cs r
    · rintro ⟨v, hv⟩
      obtain ⟨c, hc, -, e⟩ := lastSet_of_mem cs r v hv
      rw [e]
      exact hall c hc
  · have h1 := congrArg Prod.fst h
    simp only [platesOf, setRefs, getVal] at h1
    show (applySetters Boilerplate.new cs).plate_begin = _
    rw [h1]
    unfold setBy
    by_cases a1 : lastSet cs ValRef.speed = F32.negOne <;>
      by_cases a2 : lastSet cs ValRef.pitch = F32.negOne <;>
      by_cases a3 : lastSet cs ValRef.volume = F32.negOne <;>
      simp [a1, a2, a3, getVal, List.filter]
  · have h2 := congrArg Prod.snd h
    simp only [platesOf, setRefs, getVal] at h2
    show (applySetters Boilerplate.new cs).plate_end = _
    rw [h2]
    unfold setBy
    by_cases a1 : lastSet cs ValRef.speed = F32.negOne <;>
      by_cases a2 : lastSet cs ValRef.pitch = F32.negOne <;>
      by_cases a3 : lastSet cs ValRef.volume = F32.negOne <;>
      simp [a1, a2, a3, List.filter]

/-- Witness of C7: volume 0.5 is set first, then speed 2.0, then speed again to
1.5.  Speed and volume are set, the opener lists speed before volume and the
closer closes volume before speed. -/
theorem closer_tags_reverse_opener_tags_witness :
    (∀ c ∈ [(ValRef.volume, 0x3F000000), (ValRef.speed, 0x40000000),
      (ValRef.speed, 0x3FC00000)], c.2 ≠ F32.negOne) ∧
    setBy [(ValRef.volume, 0x3F000000), (ValRef.speed, 0x40000000),
      (ValRef.speed, 0x3FC00000)] = [ValRef.speed, ValRef.volume] ∧
    ValRef.volume ∈ setBy [(ValRef.volume, 0x3F000000), (ValRef.speed, 0x40000000),
      (ValRef.speed, 0x3FC00000)] ∧
    (getOpener (applySetters Boilerplate.new [(ValRef.volume, 0x3F000000),
      (ValRef.speed, 0x40000000), (ValRef.speed, 0x3FC00000)])).1 =
      "<speed level=\"150\"><volume level=\"50\">".toList ∧
    (getCloser (applySetters Boilerplate.new [(ValRef.volume, 0x3F000000),
      (ValRef.speed, 0x40000000), (ValRef.speed, 0x3FC00000)])).1 =
      "</volume></speed>".toList :=
  ⟨by decide, by decide,
    ((closer_tags_reverse_opener_tags [(ValRef.volume, 0x3F000000), (ValRef.speed, 0x40000000),
      (ValRef.speed, 0x3FC00000)]).2.2.1 (by decide) ValRef.volume).2 ⟨0x3F000000, by decide⟩,
    (closer_tags_reverse_opener_tags [(ValRef.volume, 0x3F000000), (ValRef.speed, 0x40000000),
      (ValRef.speed, 0x3FC00000)]).2.2.2.1.trans (by decide),
    (closer_tags_reverse_opener_tags [(ValRef.volume, 0x3F000000), (ValRef.speed, 0x40000000),
      (ValRef.speed, 0x3FC00000)]).2.2.2.2.trans (by decide)⟩

/-- C8: after any sequence of setter calls `cs` on a freshly constructed
`Boilerplate`, each member holds the value last set for it (`-1` if none), the
opener is the concatenation, in the order speed, pitch, volume, of
`<NAME level="N">` for exactly the members whose value is not `-1`, where `N`
is the decimal form of `ceilf( value * 100.0f )` as an `int`, and the closer
holds the closing tags of the same members; a member at `-1` adds nothing to
either.  With speed 1.5 (bit pattern 0x3FC00000) alone, the opener is
`<speed level="150">`, the closer `</speed>` and `isChanged` is true. -/
theorem opener_lists_set_values (cs : List (ValRef × F32)) :
    (∀ r, getVal (applySetters Boilerplate.new cs) r = lastSet cs r) ∧
    (getOpener (applySetters Boilerplate.new cs)).1 =
      (if lastSet cs ValRef.speed ≠ F32.negOne then
          "<speed level=\"".toList ++ decimal (ivalueOf (lastSet cs ValRef.speed)) ++ "\">".toList
        else [])
      ++ (if lastSet cs ValRef.pitch ≠ F32.negOne then
          "<pitch level=\"".toList ++ decimal (ivalueOf (lastSet cs ValRef.pitch)) ++ "\">".toList
        else [])
      ++ (if lastSet cs ValRef.volume ≠ F32.negOne then
          "<volume level=\"".toList ++ decimal (ivalueOf (lastSet cs ValRef.volume)) ++ "\">".toList
        else []) ∧
    (getCloser (applySetters Boilerplate.new cs)).1 =
      (if lastSet cs ValRef.volume ≠ F32.negOne then "</volume>".toList else [])
      ++ (if lastSet cs ValRef.pitch ≠ F32.negOne then "</pitch>".toList else [])
      ++ (if lastSet cs ValRef.speed ≠ F32.negOne then "</speed>".toList else []) ∧
    ivalueOf 0x3FC00000 = 150 ∧
    getOpener (setSpeed Boilerplate.new 0x3FC00000) = ("<speed level=\"150\">".toList, 19) ∧
    getCloser (setSpeed Boilerplate.new 0x3FC00000) = ("</speed>".toList, 8) ∧
    isChanged (setSpeed Boilerplate.new 0x3FC00000) = true := by
  have hs : (applySetters Boilerplate.new cs).speed = lastSet cs ValRef.speed :=
    applySetters_vals cs ValRef.speed
  have hp : (applySetters Boilerplate.new cs).pitch = lastSet cs ValRef.pitch :=
    applySetters_vals cs ValRef.pitch
  have hv : (applySetters Boilerplate.new cs).volume = lastSet cs ValRef.volume :=
    applySetters_vals cs ValRef.volume
  have h := applySetters_plates cs
  rw [hs, hp, hv] at h
  have hb : (applySetters Boilerplate.new cs).plate_begin = (platesOf (lastSet cs ValRef.speed)
      (lastSet cs ValRef.pitch) (lastSet cs ValRef.volume)).1 := congrArg Prod.fst h
  have he : (applySetters Boilerplate.new cs).plate_end = (platesOf (lastSet cs ValRef.speed)
      (lastSet cs ValRef.pitch) (lastSet cs ValRef.volume)).2 := congrArg Prod.snd h
  refine ⟨applySetters_vals cs, ?_, ?_, by decide, by decide, by decide, by decide⟩
  · simp only [getOpener, hb, platesOf, setRefs, getVal]
    by_cases h1 : lastSet cs ValRef.speed = F32.negOne <;>
      by_cases h2 : lastSet cs ValRef.pitch = F32.negOne <;>
      by_cases h3 : lastSet cs ValRef.volume = F32.negOne <;>
      simp [h1, h2, h3, openTag, tagName, getVal]
  · simp only [getCloser, he, platesOf, setRefs, getVal]
    by_cases h1 : lastSet cs ValRef.speed = F32.negOne <;>
      by_cases h2 : lastSet cs ValRef.pitch = F32.negOne <;>
      by_cases h3 : lastSet cs ValRef.volume = F32.negOne <;>
      simp [h1, h2, h3, closeTag, tagName]

/-- C9: the two strings of a `Boilerplate` after any sequence of setter calls
are the function `platesOf` of the three current values alone; setting a
member again overwrites: the state is the one reached by setting the new
value directly, so no tag of the old value remains and none is doubled;
setting the same value twice changes nothing; setters of different members
commute. -/
theorem plates_depend_on_values_only (cs : List (ValRef × F32)) (b : Boilerplate)
    (r q : ValRef) (x y : F32) :
    ((applySetters Boilerplate.new cs).plate_begin, (applySetters Boilerplate.new cs).plate_end) =
      platesOf (applySetters Boilerplate.new cs).speed (applySetters Boilerplate.new cs).pitch
        (applySetters Boilerplate.new cs).volume ∧
    applySetter (applySetter b (r, x)) (r, y) = applySetter b (r, y) ∧
    applySetter (applySetter b (r, x)) (r, x) = applySetter b (r, x) ∧
    (r ≠ q →
      applySetter (applySetter b (r, x)) (q, y) = applySetter (applySetter b (q, y)) (r, x)) := by
  refine ⟨applySetters_plates cs, ?_, ?_, ?_⟩
  · apply applySetter_ext
    intro z
    simp only [applySetter_vals]
    by_cases hz : z = r <;> simp [hz]
  · apply applySetter_ext
    intro z
    simp only [applySetter_vals]
    by_cases hz : z = r <;> simp [hz]
  · intro hrq
    apply applySetter_ext
    intro z
    simp only [applySetter_vals]
    by_cases hz : z = r
    · subst hz
      simp [hrq]
    · by_cases hz2 : z = q
      · subst hz2
        simp [hz]
      · simp [hz, hz2]

/-- Witness of C9 with speed 1.5 and pitch 0.5 set in both orders. -/
theorem plates_depend_on_values_only_witness :
    ValRef.speed ≠ ValRef.pitch ∧
    applySetter (applySetter Boilerplate.new (ValRef.speed, 0x3FC00000)) (ValRef.pitch, 0x3F000000) =
      applySetter (applySetter Boilerplate.new (ValRef.pitch, 0x3F000000))
        (ValRef.speed, 0x3FC00000) :=
  ⟨by decide,
    (plates_depend_on_values_only [] Boilerplate.new ValRef.speed ValRef.pitch 0x3FC00000
      0x3F000000).2.2.2 (by decide)⟩

end Boilerplate

/-- C1: for a freshly constructed `Pico` whose text has `L ≥ 0` bytes, with or
without modifiers (strings that fit their buffers), and an engine that
reports no error on a submission and accepts between 0 and the offered
number of bytes, a run of `process` that ends normally (returns `r ≥ 0`) has
made the engine accept exactly opener ++ text ++ closer, in order and each
byte once; every submission offers `inp[0 .. size)`, and a submission not
accepted whole is followed by the offer of exactly its remainder, so a new
chunk is taken only when the remainder is 0. -/
theorem accepted_is_opener_text_closer {σ : Type} (W : World σ) (p : Pico) (w : σ)
    (n : Nat) (r : Int)
    (hfresh : p.text_remaining = 0)
    (hL : p.total_text_length = p.local_text.length)
    (ho : p.opener.length ≤ 32767) (hc : p.closer.length ≤ 32767)
    (heng : ∀ w bytes size, 0 ≤ size →
      (W.pico_putTextUtf8 w bytes size).1 = 0 ∧ 0 ≤ (W.pico_putTextUtf8 w bytes size).2.1 ∧
        (W.pico_putTextUtf8 w bytes size).2.1 ≤ size)
    (hr : (process W p w n).pc = Pc.returned r) (h0 : 0 ≤ r) :
    accepted (process W p w n).log = p.opener ++ p.local_text ++ p.closer ∧
    List.Chain' Reoffer (submissions (process W p w n).log) ∧
    ∀ a ∈ submissions (process W p w n).log,
      a.offered = offeredBytes p a.src a.off a.size ∧ (a.offered.length : Int) = a.size ∧
        0 ≤ a.sent ∧ a.sent ≤ a.size := by
  have hinv := process_feedInv W p w hfresh hL ho hc heng n
  refine ⟨feedInv_final p _ hinv r hr h0, hinv.2.1.2.1, ?_⟩
  intro a ha
  obtain ⟨a1, a2, a3, a4, a5, a6⟩ := hinv.2.1.1 a ha
  exact ⟨a1, a6, a3, a4⟩

set_option maxRecDepth 100000 in
/-- Witness of C1: the text `Hello` with speed 1.5 and an engine that accepts
at most two bytes per submission. -/
theorem accepted_is_opener_text_closer_witness :
    (∀ (w : List (Int × List Nat)) (bytes : List Char) (size : Int), 0 ≤ size →
      ((scriptWorld 2).pico_putTextUtf8 w bytes size).1 = 0 ∧
        0 ≤ ((scriptWorld 2).pico_putTextUtf8 w bytes size).2.1 ∧
        ((scriptWorld 2).pico_putTextUtf8 w bytes size).2.1 ≤ size) ∧
    (process (scriptWorld 2) picoMarked [] 35).pc = Pc.returned 0 ∧
    accepted (process (scriptWorld 2) picoMarked [] 35).log =
      picoMarked.opener ++ picoMarked.local_text ++ picoMarked.closer :=
  have heng : ∀ (w : List (Int × List Nat)) (bytes : List Char) (size : Int), 0 ≤ size →
      ((scriptWorld 2).pico_putTextUtf8 w bytes size).1 = 0 ∧
        0 ≤ ((scriptWorld 2).pico_putTextUtf8 w bytes size).2.1 ∧
        ((scriptWorld 2).pico_putTextUtf8 w bytes size).2.1 ≤ size := by
    intro w bytes size h
    exact ⟨rfl, le_min h (by decide), min_le_left _ _⟩
  ⟨heng, by decide,
    (accepted_is_opener_text_closer (scriptWorld 2) picoMarked [] 35 0 (by decide) (by decide)
      (by decide) (by decide) heng (by decide) (by decide)).1⟩

/-- C2: with an engine that accepts every offer whole, each chunk of the text
that `process` offers has between 0 and 32767 bytes; when the run ends
normally the chunk sizes sum to the text length `L`; and for `L = 40000`
without modifiers the submissions of a normally ended run are exactly the
first 32767 bytes and then the remaining 7233 bytes. -/
theorem text_chunks_bounded_and_complete {σ : Type} (W : World σ) (p : Pico) (w : σ) (n : Nat)
    (hfresh : p.text_remaining = 0)
    (hL : p.total_text_length = p.local_text.length)
    (ho : p.opener.length ≤ 32767) (hc : p.closer.length ≤ 32767)
    (hwhole : ∀ w bytes size,
      (W.pico_putTextUtf8 w bytes size).1 = 0 ∧ (W.pico_putTextUtf8 w bytes size).2.1 = size) :
    (∀ a ∈ submissions (process W p w n).log, a.src = SRC_TEXT →
      0 ≤ a.size ∧ a.size ≤ 32767 ∧ (a.offered.length : Int) = a.size) ∧
    (∀ r, (process W p w n).pc = Pc.returned r → 0 ≤ r →
      (bodyChunks (process W p w n).log).sum = p.total_text_length) ∧
    (p.modifiers = none → p.total_text_length = 40000 →
      ∀ r, (process W p w n).pc = Pc.returned r → 0 ≤ r →
        submissions (process W p w n).log =
          [⟨SRC_TEXT, 0, p.local_text.take 32767, 32767, 32767⟩,
           ⟨SRC_TEXT, 32767, (p.local_text.drop 32767).take 7233, 7233, 7233⟩] ∧
        bodyChunks (process W p w n).log = [32767, 7233]) := by
  have hinv : ChunkInv p (process W p w n) :=
    process_invariant W p w (ChunkInv p) (init_chunkInv W p w hfresh hL ho)
      (step_chunkInv W p hc hwhole) n
  refine ⟨?_, ?_, ?_⟩
  · intro a ha _
    obtain ⟨a1, a2, a3, a4, a5, a6⟩ := hinv.1.2.1.1 a ha
    exact ⟨by omega, a5, a6⟩
  · intro r hr h0
    rw [hL]
    exact chunkInv_final p _ hinv r hr h0
  · intro hm h40 r hr h0
    have hst := process_stage40k W p w hm hfresh h40 hwhole n
    have hdone := hinv.1.2.2 r hr h0
    have hlen : (feedView (process W p w n)).text_length = 0 := hdone.2.2.1
    have hsub : submissions (process W p w n).log = [chunkA p, chunkB p] := by
      rcases hst with h | h | h
      · rw [h] at hlen; simp at hlen
      · rw [h] at hlen; simp at hlen
      · exact congrArg FeedView.subs h
    refine ⟨hsub, ?_⟩
    unfold bodyChunks
    rw [hsub]
    simp [chunkA, chunkB]

theorem pico40k_length : pico40k.total_text_length = pico40k.local_text.length := by
  show (40000 : Int) = ((List.replicate 40000 'a').length : Int)
  rw [List.length_replicate]
  rfl

set_option maxRecDepth 100000 in
/-- Witness of C2: a text of 40000 bytes, no modifiers, and an engine that
accepts every offer whole. -/
theorem text_chunks_bounded_and_complete_witness :
    (∀ (w : Nat) (bytes : List Char) (size : Int),
      (toneWorld.pico_putTextUtf8 w bytes size).1 = 0 ∧
        (toneWorld.pico_putTextUtf8 w bytes size).2.1 = size) ∧
    (process toneWorld pico40k 0 11).pc = Pc.returned 256 ∧
    bodyChunks (process toneWorld pico40k 0 11).log = [32767, 7233] :=
  have hwhole : ∀ (w : Nat) (bytes : List Char) (size : Int),
      (toneWorld.pico_putTextUtf8 w bytes size).1 = 0 ∧
        (toneWorld.pico_putTextUtf8 w bytes size).2.1 = size := fun _ _ _ => ⟨rfl, rfl⟩
  ⟨hwhole, by decide,
    ((text_chunks_bounded_and_complete toneWorld pico40k 0 11 (by decide)
      pico40k_length (by decide) (by decide) hwhole).2.2
        (by decide) (by decide) 256 (by decide) (by decide)).2⟩

set_option maxRecDepth 100000 in
/-- C3 (the code departs from it): on the text `Hello`, stdout as the only
sink, with an engine that accepts four bytes and then the other two and yields
one two-byte fragment per drain cycle, the run ends normally having drained
the four bytes 1 2 3 4, yet stdout was handed the six bytes 1 2 1 2 3 4: the
bytes flushed at the end of the first cycle are still counted in `bufused`
and are flushed a second time. -/
theorem second_cycle_flushes_first_cycle_again :
    (process (scriptWorld 4) picoHello [(PICO_STEP_IDLE, [1, 2]), (PICO_STEP_IDLE, [3, 4])] 5).pc
      = Pc.returned 4 ∧
    drained (process (scriptWorld 4) picoHello
      [(PICO_STEP_IDLE, [1, 2]), (PICO_STEP_IDLE, [3, 4])] 5).log = [1, 2, 3, 4] ∧
    streamOf (stdoutCalls (process (scriptWorld 4) picoHello
      [(PICO_STEP_IDLE, [1, 2]), (PICO_STEP_IDLE, [3, 4])] 5).log) = [1, 2, 1, 2, 3, 4] := by
  decide

set_option maxRecDepth 100000 in
/-- C4 (the code departs from it): the two writes of a flush never change
`bufused`; the overflow path sets it to 0 itself (line 1336) before it stores
the new fragment, the flush after an idle drain does not: on the text `Hello`
with one two-byte fragment, after the first drain cycle and its flush of one
sample the run is back at the loop head with `bufused` equal to 2. -/
theorem flush_after_idle_keeps_bufused :
    (∀ {σ : Type} (W : World σ) (p : Pico) (s : PState σ),
      (writeOut W p s).bufused = s.bufused) ∧
    (process (scriptWorld 100) picoHello [(PICO_STEP_IDLE, [1, 2])] 2).pc = Pc.feed ∧
    (stdoutCalls (process (scriptWorld 100) picoHello [(PICO_STEP_IDLE, [1, 2])] 2).log).map
      (fun c => c.2) = [1] ∧
    (process (scriptWorld 100) picoHello [(PICO_STEP_IDLE, [1, 2])] 2).bufused = 2 :=
  ⟨fun W p s => writeOut_bufused W p s, by decide, by decide, by decide⟩

/-- C5: when every fragment the engine returns has at most 128 bytes, then at
every point of every run of `process` the fill count `bufused` is at most 256,
`pcm_buffer` has its 256 bytes, and every copy into `pcm_buffer` made so far
ended inside it (offset plus length at most 256). -/
theorem bufused_within_pcm_buffer {σ : Type} (W : World σ) (p : Pico) (w : σ)
    (hfrag : ∀ w, (W.pico_getData w).2.1.length ≤ MAX_OUTBUF_SIZE) (n : Nat) :
    0 ≤ (process W p w n).bufused ∧ (process W p w n).bufused ≤ PCM_BUFFER_SIZE ∧
    (process W p w n).pcm_buffer.length = PCM_BUFFER_SIZE ∧
    ∀ c ∈ copies (process W p w n).log, c.1 + c.2 ≤ PCM_BUFFER_SIZE := by
  have h := process_invariant W p w BufInv (init_bufInv W p w) (step_bufInv W p hfrag) n
  exact ⟨Nat.zero_le _, h.1, h.2.1, h.2.2⟩

/-- Witness of C5: the text `Hello` with three full fragments. -/
theorem bufused_within_pcm_buffer_witness :
    (∀ w : Nat, (toneWorld.pico_getData w).2.1.length ≤ MAX_OUTBUF_SIZE) ∧
    (process toneWorld picoHello 0 4).bufused ≤ PCM_BUFFER_SIZE :=
  have hfrag : ∀ w : Nat, (toneWorld.pico_getData w).2.1.length ≤ MAX_OUTBUF_SIZE := by
    intro w
    cases w <;> simp [toneWorld, MAX_OUTBUF_SIZE]
  ⟨hfrag, (bufused_within_pcm_buffer toneWorld picoHello 0 hfrag 4).2.1⟩

/-- C6: for a freshly constructed `Pico` without modifiers whose text of `L`
bytes, `1 ≤ L ≤ 32767`, is accepted whole by the engine at the first
submission, and fragments of even length at most 128: a run that ends
normally has made exactly one submission, of the whole text as one chunk of
`L` bytes, and exactly one drain reported idle, and every active sink (WAV
file, stdout, playback) read exactly the drained bytes, in order and once
each.  Moreover, if the drain status is always busy or idle, the WAV file (if
enabled) opens, and some measure of the outside world drops at each busy drain
and does not grow at a WAV write, then the run does end normally. -/
theorem single_chunk_run_delivers_once {σ : Type} (W : World σ) (p : Pico) (w : σ)
    (hm : p.modifiers = none) (hfresh : p.text_remaining = 0)
    (hL : p.total_text_length = p.local_text.length) (h1 : 1 ≤ p.local_text.length)
    (h2 : p.local_text.length ≤ 32767)
    (hput : (W.pico_putTextUtf8 (init W p w).world p.local_text p.local_text.length).1 = 0 ∧
      (W.pico_putTextUtf8 (init W p w).world p.local_text p.local_text.length).2.1 =
        p.local_text.length)
    (hfrag : ∀ w, (W.pico_getData w).2.1.length ≤ 128 ∧ (W.pico_getData w).2.1.length % 2 = 0) :
    (∀ n r, (process W p w n).pc = Pc.returned r → 0 ≤ r →
      submissions (process W p w n).log =
        [⟨SRC_TEXT, 0, p.local_text, p.local_text.length, p.local_text.length⟩] ∧
      idleDrains (process W p w n).log = 1 ∧
      (p.pico_writeWavPcm = true →
        streamOf (wavCalls (process W p w n).log) = drained (process W p w n).log) ∧
      (p.stdoutOn = true →
        streamOf (stdoutCalls (process W p w n).log) = drained (process W p w n).log) ∧
      (p.playbackOn = true →
        streamOf (playbackCalls (process W p w n).log) = drained (process W p w n).log)) ∧
    (∀ μ : σ → Nat,
      (∀ w, (W.pico_getData w).1 = PICO_STEP_BUSY → μ (W.pico_getData w).2.2 < μ w) →
      (∀ w k buf, μ (W.picoos_sdfPutSamples w k buf).2 ≤ μ w) →
      (∀ w, (W.pico_getData w).1 = PICO_STEP_BUSY ∨ (W.pico_getData w).1 = PICO_STEP_IDLE) →
      (p.pico_writeWavPcm = true → (W.picoos_sdfOpenOut w).1 = true) →
      ∃ n r, (process W p w n).pc = Pc.returned r ∧ 0 ≤ r) := by
  refine ⟨?_, ?_⟩
  · intro n r hr h0
    rcases process_single W p w hm hfresh hL h1 h2 hput hfrag n with hs | hs
    · rw [hs] at hr
      rcases init_pc W p w with h | h
      · rw [h] at hr; cases hr
      · rw [h] at hr; cases hr; omega
    · obtain ⟨hv, hb, he, fl, ⟨g1, g2, g3⟩, hdr, hfl⟩ := hs
      have hne : r ≠ -4 := by omega
      obtain ⟨k1, k2⟩ := hfl (by rw [hr]; simp) (by rw [hr]; simpa using hne)
      refine ⟨congrArg FeedView.subs hv, k1, ?_, ?_, ?_⟩
      · intro h; rw [g1, if_pos h]; exact k2
      · intro h; rw [g2, if_pos h]; exact k2
      · intro h; rw [g3, if_pos h]; exact k2
  · intro μ hbusy hsink hstat hopen
    have hpc := init_pc_feed W p w hopen
    obtain ⟨hc1, hd1⟩ := step_init_cycle W p w hm hfresh hL h1 h2 hput hfrag hpc
    obtain ⟨k, -, hk⟩ := drain_reaches_feed W p μ hbusy hsink hstat _ _ (le_refl _) hd1
    have hck : CycleInv p (oneChunk p) (run W p k (step W p (init W p w))) :=
      run_invariant W p _ (step_cycleInv W p _ hfrag) k _ hc1
    have hret := cycle_feed_returns W p _ _ hck hk
    refine ⟨k + 1 + 1, wrap32 (run W p k (step W p (init W p w))).bufused, ?_, ?_⟩
    · show (run W p (k + 1) (step W p (init W p w))).pc = _
      rw [run_succ]; exact hret
    · have hbu := hck.2.1.1
      unfold PCM_BUFFER_SIZE at hbu
      unfold wrap32; omega

set_option maxRecDepth 100000 in
/-- Witness of C6: the text `Hello` and its terminator, stdout as the only
sink, three full fragments. -/
theorem single_chunk_run_delivers_once_witness :
    (∀ w : Nat, (toneWorld.pico_getData w).2.1.length ≤ 128 ∧
      (toneWorld.pico_getData w).2.1.length % 2 = 0) ∧
    (process toneWorld picoHello 0 6).pc = Pc.returned 128 ∧
    submissions (process toneWorld picoHello 0 6).log =
      [⟨SRC_TEXT, 0, picoHello.local_text, picoHello.local_text.length,
        picoHello.local_text.length⟩] ∧
    idleDrains (process toneWorld picoHello 0 6).log = 1 ∧
    streamOf (stdoutCalls (process toneWorld picoHello 0 6).log) =
      drained (process toneWorld picoHello 0 6).log ∧
    ∃ n r, (process toneWorld picoHello 0 n).pc = Pc.returned r ∧ 0 ≤ r :=
  have hfrag : ∀ w : Nat, (toneWorld.pico_getData w).2.1.length ≤ 128 ∧
      (toneWorld.pico_getData w).2.1.length % 2 = 0 := by
    intro w
    cases w <;> simp [toneWorld]
  have h := single_chunk_run_delivers_once toneWorld picoHello 0 (by decide) (by decide)
    (by decide) (by decide) (by decide) (by decide) hfrag
  have h6 := h.1 6 128 (by decide) (by decide)
  ⟨hfrag, by decide, h6.1, h6.2.1, h6.2.2.2.1 (by decide),
    h.2 (fun k => k)
      (by
        intro w hb
        cases w with
        | zero => simp [toneWorld, PICO_STEP_IDLE, PICO_STEP_BUSY] at hb
        | succ k => simp [toneWorld])
      (fun _ _ _ => le_refl _)
      (by intro w; cases w <;> simp [toneWorld])
      (by decide)⟩

/-- C10: a flush makes at most one write to each sink, and each active sink
(the WAV file when enabled, stdout and the playback device when the
listener's callback serves them) is given the same buffer `pcm_buffer` and
the same count `bufused / 2`; when both stdout and playback are selected
`setup_input_output` binds the combined consumer, which passes the same data
and count to `fwrite` and to `SubmitFrames`; hence at every point of a run
there is one sequence of writes that every active sink has received. -/
theorem sinks_get_identical_writes {σ : Type} (W : World σ) (p : Pico) (w : σ) :
    (∀ s : PState σ, ∃ evs, (writeOut W p s).log = s.log ++ evs ∧
      wavCalls evs = (if p.pico_writeWavPcm then [(s.pcm_buffer, s.bufused / 2)] else []) ∧
      stdoutCalls evs = (if p.stdoutOn then [(s.pcm_buffer, s.bufused / 2)] else []) ∧
      playbackCalls evs = (if p.playbackOn then [(s.pcm_buffer, s.bufused / 2)] else [])) ∧
    (∀ (m : Nat) (data : List Nat) (k : Nat), m &&& OUT_STDOUT ≠ 0 → m &&& OUT_PLAYBACK ≠ 0 →
      ∃ l, getListener (setup_input_output m) = some l ∧
        l.consume = some Consumer.write_short_to_playback_and_stdout ∧
        l.writeData data k = [Event.fwrite data k, Event.SubmitFrames data k]) ∧
    (∀ n, ∃ fl : List (List Nat × Nat),
      wavCalls (process W p w n).log = (if p.pico_writeWavPcm then fl else []) ∧
      stdoutCalls (process W p w n).log = (if p.stdoutOn then fl else []) ∧
      playbackCalls (process W p w n).log = (if p.playbackOn then fl else [])) := by
  refine ⟨?_, ?_, ?_⟩
  · intro s
    obtain ⟨evs, hlog, -, -, -, -, h1, h2, h3⟩ := writeOut_log W p s
    exact ⟨evs, hlog, h1, h2, h3⟩
  · intro m data k h1 h4
    refine ⟨_, setup_both m h1 h4, rfl, ?_⟩
    simp [Listener.writeData, write_short_to_playback_and_stdout, h1, h4]
  · intro n
    exact process_sinkAgree W p w n

/-- Witness of C10: output mode stdout plus playback. -/
theorem sinks_get_identical_writes_witness :
    (5 &&& OUT_STDOUT ≠ 0 ∧ 5 &&& OUT_PLAYBACK ≠ 0) ∧
    ∃ l, getListener (setup_input_output 5) = some l ∧
      l.consume = some Consumer.write_short_to_playback_and_stdout ∧
      l.writeData [1, 2] 1 = [Event.fwrite [1, 2] 1, Event.SubmitFrames [1, 2] 1] :=
  ⟨⟨by decide, by decide⟩,
    (sinks_get_identical_writes toneWorld picoHello 0).2.1 5 [1, 2] 1 (by decide) (by decide)⟩

/-- C19: `isChanged` is true exactly when one of speed, pitch, volume is not
the sentinel `-1`; after any sequence of setter calls on a freshly
constructed `Boilerplate` that is exactly when the opener is non-empty and
exactly when the closer is non-empty; `getModifiers` returns the modifiers
exactly when `isChanged` is true and null otherwise; so a `Pico` given
`getModifiers` enters its loop with `do_startpad` and `do_endpad` equal to
`isChanged`, and when they are set the first chunk is the opener, of at least
one byte. -/
theorem isChanged_enables_open_and_close (cs : List (ValRef × F32)) {σ : Type} (W : World σ)
    (w : σ) (q : Pico) :
    (Boilerplate.isChanged (Boilerplate.applySetters Boilerplate.new cs) = true ↔
      ((Boilerplate.applySetters Boilerplate.new cs).speed ≠ F32.negOne ∨
       (Boilerplate.applySetters Boilerplate.new cs).pitch ≠ F32.negOne ∨
       (Boilerplate.applySetters Boilerplate.new cs).volume ≠ F32.negOne)) ∧
    (Boilerplate.isChanged (Boilerplate.applySetters Boilerplate.new cs) = true ↔
      (Boilerplate.getOpener (Boilerplate.applySetters Boilerplate.new cs)).1 ≠ []) ∧
    (Boilerplate.isChanged (Boilerplate.applySetters Boilerplate.new cs) = true ↔
      (Boilerplate.getCloser (Boilerplate.applySetters Boilerplate.new cs)).1 ≠ []) ∧
    getModifiers (Boilerplate.applySetters Boilerplate.new cs) =
      (if Boilerplate.isChanged (Boilerplate.applySetters Boilerplate.new cs) = true then
        some (Boilerplate.applySetters Boilerplate.new cs) else none) ∧
    (init W (q.addModifiers (getModifiers (Boilerplate.applySetters Boilerplate.new cs)))
      w).do_startpad = Boilerplate.isChanged (Boilerplate.applySetters Boilerplate.new cs) ∧
    (init W (q.addModifiers (getModifiers (Boilerplate.applySetters Boilerplate.new cs)))
      w).do_endpad = Boilerplate.isChanged (Boilerplate.applySetters Boilerplate.new cs) ∧
    (Boilerplate.isChanged (Boilerplate.applySetters Boilerplate.new cs) = true →
      (init W (q.addModifiers (getModifiers (Boilerplate.applySetters Boilerplate.new cs)))
        w).inpSrc = SRC_OPENER ∧
      (init W (q.addModifiers (getModifiers (Boilerplate.applySetters Boilerplate.new cs)))
        w).text_remaining =
          (Boilerplate.getOpener (Boilerplate.applySetters Boilerplate.new cs)).2 ∧
      0 < (init W (q.addModifiers (getModifiers (Boilerplate.applySetters Boilerplate.new cs)))
        w).text_remaining) := by
  generalize hb : Boilerplate.applySetters Boilerplate.new cs = b
  have hpl := Boilerplate.applySetters_plates cs
  rw [hb] at hpl
  have hb1 : b.plate_begin = (Boilerplate.platesOf b.speed b.pitch b.volume).1 :=
    congrArg Prod.fst hpl
  have hb2 : b.plate_end = (Boilerplate.platesOf b.speed b.pitch b.volume).2 :=
    congrArg Prod.snd hpl
  have hne := Boilerplate.platesOf_nonempty b.speed b.pitch b.volume
  have hlen := Boilerplate.platesOf_length b.speed b.pitch b.volume
  have hiff := Boilerplate.isChanged_iff b
  have hflags : ∀ p : Pico,
      (init W p w).do_startpad = (init0 p w).do_startpad ∧
      (init W p w).do_endpad = (init0 p w).do_endpad ∧
      (init W p w).inpSrc = (init0 p w).inpSrc ∧
      (init W p w).text_remaining = (init0 p w).text_remaining := by
    intro p
    have h := feedView_init W p w
    exact ⟨congrArg FeedView.do_startpad h, congrArg FeedView.do_endpad h,
      congrArg FeedView.inpSrc h, congrArg FeedView.text_remaining h⟩
  refine ⟨hiff, ?_, ?_, rfl, ?_, ?_, ?_⟩
  · show _ ↔ b.plate_begin ≠ []
    rw [hb1, hne.1]; exact hiff
  · show _ ↔ b.plate_end ≠ []
    rw [hb2, hne.2]; exact hiff
  · rw [(hflags _).1]
    unfold getModifiers Pico.addModifiers init0
    cases hc : Boilerplate.isChanged b <;> simp
  · rw [(hflags _).2.1]
    unfold getModifiers Pico.addModifiers init0
    cases hc : Boilerplate.isChanged b <;> simp
  · intro hc
    rw [(hflags _).2.2.1, (hflags _).2.2.2]
    have hpos : b.plate_begin ≠ [] := by rw [hb1, hne.1]; exact hiff.mp hc
    have hl : b.plate_begin.length ≤ 82 := by rw [hb1]; exact hlen.1
    have hl0 : 0 < b.plate_begin.length := List.length_pos.mpr hpos
    have hw : wrap16 (b.plate_begin.length : Int) = b.plate_begin.length :=
      wrap16_id _ (by omega) (by omega)
    unfold getModifiers Pico.addModifiers init0
    simp only [hc, if_true, Boilerplate.getOpener, hw]
    exact ⟨trivial, trivial, by exact_mod_cast hl0⟩

/-- C20: a `%d` of any 32-bit `int` prints at most 11 characters, so the three
opening tags together take at most 27 + 27 + 28 = 82 bytes, each of them at
most 28 bytes of the 100-byte scratch buffer, and the integer
`ceilf( value * 100.0f )` is always a 32-bit `int`; hence after any sequence
of setter calls the opener has at most 99 bytes and the closer at most 49, so
both fit their buffers of 100 and 50 bytes with the terminator, and the opener
is no longer than the 32767-byte chunk limit. -/
theorem plates_fit_their_buffers (cs : List (ValRef × F32)) :
    (∀ N1 N2 N3 : Int, (-2147483648 ≤ N1 ∧ N1 < 2147483648) →
      (-2147483648 ≤ N2 ∧ N2 < 2147483648) → (-2147483648 ≤ N3 ∧ N3 < 2147483648) →
      (sprintf_d "<speed level=\"%d\">".toList N1).length ≤ 27 ∧
      (sprintf_d "<pitch level=\"%d\">".toList N2).length ≤ 27 ∧
      (sprintf_d "<volume level=\"%d\">".toList N3).length ≤ 28 ∧
      (sprintf_d "<speed level=\"%d\">".toList N1).length +
        (sprintf_d "<pitch level=\"%d\">".toList N2).length +
        (sprintf_d "<volume level=\"%d\">".toList N3).length ≤ 99) ∧
    (∀ x : F32, -2147483648 ≤ ivalueOf x ∧ ivalueOf x < 2147483648) ∧
    (Boilerplate.getOpener (Boilerplate.applySetters Boilerplate.new cs)).2 ≤ 99 ∧
    (Boilerplate.getCloser (Boilerplate.applySetters Boilerplate.new cs)).2 ≤ 49 ∧
    (Boilerplate.getOpener (Boilerplate.applySetters Boilerplate.new cs)).2 ≤ 32767 := by
  have hpl := Boilerplate.applySetters_plates cs
  have hb1 := congrArg Prod.fst hpl
  have hb2 := congrArg Prod.snd hpl
  have hlen := Boilerplate.platesOf_length
    (Boilerplate.applySetters Boilerplate.new cs).speed
    (Boilerplate.applySetters Boilerplate.new cs).pitch
    (Boilerplate.applySetters Boilerplate.new cs).volume
  have ho : (Boilerplate.applySetters Boilerplate.new cs).plate_begin.length ≤ 82 := by
    have : (Boilerplate.applySetters Boilerplate.new cs).plate_begin = _ := hb1
    rw [this]; exact hlen.1
  have hc : (Boilerplate.applySetters Boilerplate.new cs).plate_end.length ≤ 25 := by
    have : (Boilerplate.applySetters Boilerplate.new cs).plate_end = _ := hb2
    rw [this]; exact hlen.2
  refine ⟨?_, ivalueOf_range, ?_, ?_, ?_⟩
  · intro N1 N2 N3 h1 h2 h3
    have d1 := decimal_length N1 h1.1 h1.2
    have d2 := decimal_length N2 h2.1 h2.2
    have d3 := decimal_length N3 h3.1 h3.2
    rw [(sprintf_pads N1).1, (sprintf_pads N2).2.1, (sprintf_pads N3).2.2]
    simp only [List.length_append]
    have e1 : "<speed level=\"".toList.length = 14 := by decide
    have e2 : "<pitch level=\"".toList.length = 14 := by decide
    have e3 : "<volume level=\"".toList.length = 15 := by decide
    have e4 : "\">".toList.length = 2 := by decide
    rw [e1, e2, e3, e4]
    omega
  · show (Boilerplate.applySetters Boilerplate.new cs).plate_begin.length ≤ 99
    omega
  · show (Boilerplate.applySetters Boilerplate.new cs).plate_end.length ≤ 49
    omega
  · show (Boilerplate.applySetters Boilerplate.new cs).plate_begin.length ≤ 32767
    omega

/-- Witness of C20: the most negative percentage for all three values. -/
theorem plates_fit_their_buffers_witness :
    (-2147483648 ≤ (-2147483648 : Int) ∧ (-2147483648 : Int) < 2147483648) ∧
    (sprintf_d "<speed level=\"%d\">".toList (-2147483648)).length +
      (sprintf_d "<pitch level=\"%d\">".toList (-2147483648)).length +
      (sprintf_d "<volume level=\"%d\">".toList (-2147483648)).length ≤ 99 :=
  ⟨by decide,
    ((plates_fit_their_buffers []).1 (-2147483648) (-2147483648) (-2147483648) (by decide)
      (by decide) (by decide)).2.2.2⟩

/-- Witness of C19: with speed 1.5 set the run starts on the opener, of 19
bytes. -/
theorem isChanged_enables_open_and_close_witness :
    Boilerplate.isChanged (Boilerplate.applySetters Boilerplate.new
      [(ValRef.speed, 0x3FC00000)]) = true ∧
    0 < (init toneWorld (picoHello.addModifiers (getModifiers (Boilerplate.applySetters
      Boilerplate.new [(ValRef.speed, 0x3FC00000)]))) 0).text_remaining :=
  ⟨by decide,
    ((isChanged_enables_open_and_close [(ValRef.speed, 0x3FC00000)] toneWorld 0
      picoHello).2.2.2.2.2.2 (by decide)).2.2⟩

/-- C11: when `pico_putTextUtf8` reports a status other than 0, `process` returns
-2 at once, and when `pico_getData` reports a status other than busy and idle
it returns -4 at once: the failing call is the last call the run ever makes
(the log never grows again, so nothing is retried and no sink is written), and
the writes each sink was given are those it had been given before the failing
call.  Conversely a result of -2 or -4 only comes from such a call, which is
then the last of the log. -/
theorem engine_error_aborts_the_run {σ : Type} (W : World σ) (p : Pico) (w : σ) (n : Nat) :
    (∀ s1, (process W p w n).pc = Pc.feed → selectChunk p (process W p w n) = some s1 →
      (W.pico_putTextUtf8 s1.world (offeredBytes p s1.inpSrc s1.inpOff s1.text_remaining)
        s1.text_remaining).1 ≠ 0 →
      ∀ k, (process W p w (n + 1 + k)).pc = Pc.returned (-2) ∧
        (process W p w (n + 1 + k)).log =
          (process W p w n).log ++ [submissionEvent W p s1] ∧
        wavCalls (process W p w (n + 1 + k)).log = wavCalls (process W p w n).log ∧
        stdoutCalls (process W p w (n + 1 + k)).log = stdoutCalls (process W p w n).log ∧
        playbackCalls (process W p w (n + 1 + k)).log = playbackCalls (process W p w n).log) ∧
    ((process W p w n).pc = Pc.drain →
      ((W.pico_getData (process W p w n).world).1 ≠ PICO_STEP_BUSY ∧
        (W.pico_getData (process W p w n).world).1 ≠ PICO_STEP_IDLE) →
      ∀ k, (process W p w (n + 1 + k)).pc = Pc.returned (-4) ∧
        (process W p w (n + 1 + k)).log =
          (process W p w n).log ++
            [Event.getData (W.pico_getData (process W p w n).world).1
              (W.pico_getData (process W p w n).world).2.1] ∧
        wavCalls (process W p w (n + 1 + k)).log = wavCalls (process W p w n).log ∧
        stdoutCalls (process W p w (n + 1 + k)).log = stdoutCalls (process W p w n).log ∧
        playbackCalls (process W p w (n + 1 + k)).log = playbackCalls (process W p w n).log) ∧
    ((process W p w n).pc = Pc.returned (-2) →
      ∃ pre src off offered size ret sent,
        (process W p w n).log = pre ++ [Event.putText src off offered size ret sent] ∧ ret ≠ 0) ∧
    ((process W p w n).pc = Pc.returned (-4) →
      ∃ pre st frag, (process W p w n).log = pre ++ [Event.getData st frag] ∧
        st ≠ PICO_STEP_BUSY ∧ st ≠ PICO_STEP_IDLE) := by
  refine ⟨?_, ?_, ?_, ?_⟩
  · intro s1 hpc hsel herr k
    have h1 : process W p w (n + 1) =
        { s1 with
          world := (W.pico_putTextUtf8 s1.world
            (offeredBytes p s1.inpSrc s1.inpOff s1.text_remaining) s1.text_remaining).2.2,
          log := s1.log ++ [submissionEvent W p s1],
          pc := Pc.returned (-2) } := by
      rw [process_succ, step_feed W p _ hpc]
      unfold stepFeed
      rw [hsel]
      exact feedText_error W p s1 herr
    have h2 : process W p w (n + 1 + k) = process W p w (n + 1) :=
      process_after_return W p w (n + 1) (-2) (by rw [h1]) k
    have hl : s1.log = (process W p w n).log := (selectChunk_frame p _ s1 hsel).2.2.1
    rw [h2, h1]
    refine ⟨rfl, ?_, ?_, ?_, ?_⟩
    · show s1.log ++ _ = _
      rw [hl]
    · show wavCalls (s1.log ++ _) = _
      rw [hl, wavCalls_append]
      simp [wavCalls, submissionEvent]
    · show stdoutCalls (s1.log ++ _) = _
      rw [hl, stdoutCalls_append]
      simp [stdoutCalls, submissionEvent]
    · show playbackCalls (s1.log ++ _) = _
      rw [hl, playbackCalls_append]
      simp [playbackCalls, submissionEvent]
  · intro hpc herr k
    have h1 : process W p w (n + 1) =
        { getData W (process W p w n) with pc := Pc.returned (-4) } := by
      rw [process_succ, step_drain W p _ hpc]
      exact stepDrain_error W p _ herr
    have h2 : process W p w (n + 1 + k) = process W p w (n + 1) :=
      process_after_return W p w (n + 1) (-4) (by rw [h1]) k
    rw [h2, h1]
    refine ⟨rfl, rfl, ?_, ?_, ?_⟩
    · show wavCalls ((process W p w n).log ++ _) = _
      rw [wavCalls_append]
      simp [wavCalls]
    · show stdoutCalls ((process W p w n).log ++ _) = _
      rw [stdoutCalls_append]
      simp [stdoutCalls]
    · show playbackCalls ((process W p w n).log ++ _) = _
      rw [playbackCalls_append]
      simp [playbackCalls]
  · intro hpc
    rcases (process_retInv W p w n).2 (-2) hpc with h | h | h | h
    · exact absurd h.1 (by decide)
    · exact h.2
    · exact absurd h.1 (by decide)
    · exact absurd h.1 (by decide)
  · intro hpc
    rcases (process_retInv W p w n).2 (-4) hpc with h | h | h | h
    · exact absurd h.1 (by decide)
    · exact absurd h.1 (by decide)
    · exact h.2
    · exact absurd h.1 (by decide)

set_option maxRecDepth 100000 in
/-- Witness of C11: the text `Hello` to stdout; the engine accepts the text, yields
one busy fragment and then reports the error status `-102` on the second
drain. -/
theorem engine_error_aborts_the_run_witness :
    (process (scriptWorld 100) picoHello [(PICO_STEP_BUSY, [1, 2]), (-102, [])] 2).pc = Pc.drain ∧
    (process (scriptWorld 100) picoHello [(PICO_STEP_BUSY, [1, 2]), (-102, [])] (2 + 1 + 5)).pc =
      Pc.returned (-4) ∧
    stdoutCalls
      (process (scriptWorld 100) picoHello [(PICO_STEP_BUSY, [1, 2]), (-102, [])] (2 + 1 + 5)).log =
      stdoutCalls
        (process (scriptWorld 100) picoHello [(PICO_STEP_BUSY, [1, 2]), (-102, [])] 2).log :=
  ⟨by decide,
    ((engine_error_aborts_the_run (scriptWorld 100) picoHello
      [(PICO_STEP_BUSY, [1, 2]), (-102, [])] 2).2.1 (by decide) (by decide) 5).1,
    ((engine_error_aborts_the_run (scriptWorld 100) picoHello
      [(PICO_STEP_BUSY, [1, 2]), (-102, [])] 2).2.1 (by decide) (by decide) 5).2.2.2.1⟩

/-- C16: a pass of the `do` loop whose `pico_getData` reports idle ends the loop,
whatever the fill count is: after the fragment is stored, the WAV sink (if
enabled) and the listener (if any) are each called once with the buffer and
`bufused / 2` samples (lines 1344-1351), which are the only calls made after
the fragment is stored; the fill count is left as it is and control is back at
the head of the synthesis loop, so whatever is submitted next comes after these
writes.  A pass that reports busy only stores the fragment and stays in the
loop. -/
theorem idle_drain_is_followed_by_one_flush {σ : Type} (W : World σ) (p : Pico)
    (s : PState σ) (hpc : s.pc = Pc.drain) :
    ((W.pico_getData s.world).1 = PICO_STEP_IDLE →
      (step W p s).pc = Pc.feed ∧
      (step W p s).log =
        (accumulate W p (getData W s) (W.pico_getData s.world).2.1).log ++
          flushEvents W p (accumulate W p (getData W s) (W.pico_getData s.world).2.1) ∧
      SinkAgree p (flushEvents W p (accumulate W p (getData W s) (W.pico_getData s.world).2.1))
        [((accumulate W p (getData W s) (W.pico_getData s.world).2.1).pcm_buffer,
          (accumulate W p (getData W s) (W.pico_getData s.world).2.1).bufused / 2)] ∧
      (step W p s).bufused =
        (accumulate W p (getData W s) (W.pico_getData s.world).2.1).bufused ∧
      (step W p s).pcm_buffer =
        (accumulate W p (getData W s) (W.pico_getData s.world).2.1).pcm_buffer ∧
      submissions (step W p s).log = submissions s.log ∧
      ∀ k, ∃ evs, (run W p k (step W p s)).log =
        (accumulate W p (getData W s) (W.pico_getData s.world).2.1).log ++
          flushEvents W p (accumulate W p (getData W s) (W.pico_getData s.world).2.1) ++ evs) ∧
    ((W.pico_getData s.world).1 = PICO_STEP_BUSY →
      step W p s = accumulate W p (getData W s) (W.pico_getData s.world).2.1 ∧
      (step W p s).pc = Pc.drain) := by
  rw [step_drain W p s hpc]
  constructor
  · intro hidle
    rw [stepDrain_idle W p s hidle]
    refine ⟨rfl, writeOut_log_eq W p _, flushEvents_sinkAgree W p _, writeOut_bufused W p _,
      writeOut_pcm_buffer W p _, ?_, ?_⟩
    · have h1 := congrArg FeedView.subs
        (feedView_writeOut W p (accumulate W p (getData W s) (W.pico_getData s.world).2.1))
      have h2 := congrArg FeedView.subs
        (feedView_accumulate W p (getData W s) (W.pico_getData s.world).2.1)
      have h3 := congrArg FeedView.subs (feedView_getData W s)
      exact h1.trans (h2.trans h3)
    · intro k
      obtain ⟨evs, h⟩ := run_log_append W p k
        { writeOut W p (accumulate W p (getData W s) (W.pico_getData s.world).2.1) with
          pc := Pc.feed }
      refine ⟨evs, ?_⟩
      rw [h]
      show (writeOut W p _).log ++ evs = _
      rw [writeOut_log_eq]
  · intro hbusy
    rw [stepDrain_busy W p s hbusy]
    refine ⟨rfl, ?_⟩
    rw [accumulate_pc]
    exact hpc

set_option maxRecDepth 100000 in
/-- Witness of C16: the text `Hello`, stdout as the only sink; the fourth drain
reports idle with 128 bytes held, and stdout is given them as 64 samples. -/
theorem idle_drain_is_followed_by_one_flush_witness :
    (process toneWorld picoHello 0 4).pc = Pc.drain ∧
    (toneWorld.pico_getData (process toneWorld picoHello 0 4).world).1 = PICO_STEP_IDLE ∧
    (step toneWorld picoHello (process toneWorld picoHello 0 4)).pc = Pc.feed ∧
    (stdoutCalls (flushEvents toneWorld picoHello
      (accumulate toneWorld picoHello (getData toneWorld (process toneWorld picoHello 0 4))
        (toneWorld.pico_getData (process toneWorld picoHello 0 4).world).2.1))).map
      (fun c => c.2) = [64] :=
  ⟨by decide, by decide,
    ((idle_drain_is_followed_by_one_flush toneWorld picoHello (process toneWorld picoHello 0 4)
      (by decide)).1 (by decide)).1, by decide⟩

/-- C21: for a text length `L ≥ 0`, an opener and a closer of at most 32767
bytes, and an engine whose `bytes_sent` is between 0 and the `size` it was
given: at every point of the run `text_length` is between 0 and `L` and is not
larger than it was one step earlier, and `text_remaining` is between 0 and
32767.  No assignment to `text_remaining` overflows its `pico_Int16`: it
starts as the opener length (0 without modifiers), the value chosen at the
loop head is the old one, the smaller of `text_length` and 32767, or the closer
length, and after a submission it is the chosen value minus `bytes_sent`. -/
theorem text_counters_stay_in_range {σ : Type} (W : World σ) (p : Pico) (w : σ)
    (h0 : 0 ≤ p.total_text_length) (hfresh : p.text_remaining = 0)
    (ho : p.opener.length ≤ 32767) (hc : p.closer.length ≤ 32767)
    (heng : ∀ w bytes size, 0 ≤ size →
      0 ≤ (W.pico_putTextUtf8 w bytes size).2.1 ∧ (W.pico_putTextUtf8 w bytes size).2.1 ≤ size)
    (n : Nat) :
    (0 ≤ (process W p w n).text_length ∧
      (process W p w n).text_length ≤ p.total_text_length ∧
      (process W p w (n + 1)).text_length ≤ (process W p w n).text_length) ∧
    (0 ≤ (process W p w n).text_remaining ∧ (process W p w n).text_remaining ≤ 32767) ∧
    ((process W p w 0).text_length = p.total_text_length ∧
      (process W p w 0).text_remaining = p.opener.length) ∧
    (∀ s1, (process W p w n).pc = Pc.feed → selectChunk p (process W p w n) = some s1 →
      (s1.text_remaining = (process W p w n).text_remaining ∨
        s1.text_remaining = (if (process W p w n).text_length ≥ 32767 then 32767
          else (process W p w n).text_length) ∨
        s1.text_remaining = p.closer.length) ∧
      (0 ≤ s1.text_remaining ∧ s1.text_remaining ≤ 32767) ∧
      ((W.pico_putTextUtf8 s1.world (offeredBytes p s1.inpSrc s1.inpOff s1.text_remaining)
          s1.text_remaining).1 = 0 →
        (process W p w (n + 1)).text_remaining = s1.text_remaining -
          (W.pico_putTextUtf8 s1.world (offeredBytes p s1.inpSrc s1.inpOff s1.text_remaining)
            s1.text_remaining).2.1)) := by
  have hr := process_range W p w h0 hfresh ho hc heng n
  have hst := step_range W p hc heng _ hr
  obtain ⟨g0, g1, g2, g3, g4⟩ := hr
  have hi := feedView_init0_range (σ := σ) p w h0 hfresh ho
  have hvi := feedView_init W p w
  refine ⟨⟨g2, g3, by rw [process_succ]; exact hst.2⟩, ⟨g0, g1⟩, ⟨?_, ?_⟩, ?_⟩
  · have := congrArg FeedView.text_length hvi
    exact this.trans hi.2.1
  · have := congrArg FeedView.text_remaining hvi
    exact this.trans hi.2.2
  · intro s1 hpc hsel
    have hsv := selectChunk_some_view p _ s1 hsel
    obtain ⟨hr1, -, hch⟩ := selectV_range p hc _ _ ⟨g0, g1, g2, g3, g4⟩ hsv
    refine ⟨hch, ⟨hr1.1, hr1.2.1⟩, ?_⟩
    intro hok
    obtain ⟨e2, e3⟩ := heng s1.world (offeredBytes p s1.inpSrc s1.inpOff s1.text_remaining)
      s1.text_remaining hr1.1
    obtain ⟨hview, -⟩ := feedText_view W p s1 hok
    have hp := (putV_range p (feedView s1) _ hr1 e2 e3).2
    rw [← hview] at hp
    have hstep : process W p w (n + 1) = feedText W p s1 := by
      rw [process_succ, step_feed W p _ hpc]
      unfold stepFeed
      rw [hsel]
    rw [hstep]
    exact hp

set_option maxRecDepth 100000 in
/-- Witness of C21: the text `Hello` with speed 1.5 and an engine that accepts
at most two bytes per submission. -/
theorem text_counters_stay_in_range_witness :
    (0 : Int) ≤ picoMarked.total_text_length ∧
    (∀ (w : List (Int × List Nat)) (bytes : List Char) (size : Int), 0 ≤ size →
      0 ≤ ((scriptWorld 2).pico_putTextUtf8 w bytes size).2.1 ∧
        ((scriptWorld 2).pico_putTextUtf8 w bytes size).2.1 ≤ size) ∧
    (0 ≤ (process (scriptWorld 2) picoMarked [] 20).text_remaining ∧
      (process (scriptWorld 2) picoMarked [] 20).text_remaining ≤ 32767) :=
  have heng : ∀ (w : List (Int × List Nat)) (bytes : List Char) (size : Int), 0 ≤ size →
      0 ≤ ((scriptWorld 2).pico_putTextUtf8 w bytes size).2.1 ∧
        ((scriptWorld 2).pico_putTextUtf8 w bytes size).2.1 ≤ size := by
    intro w bytes size h
    show 0 ≤ min size ((2 : Nat) : Int) ∧ min size ((2 : Nat) : Int) ≤ size
    omega
  ⟨by decide, heng,
    (text_counters_stay_in_range (scriptWorld 2) picoMarked [] (by decide) (by decide)
      (by decide) (by decide) heng 20).2.1⟩

set_option maxRecDepth 100000 in
/-- C22: `process` is not sure to reach its loop, and so to return, for every
markup.  With `--speed 1e30` (bit pattern 0x7149F2CA, which line 596 passes to
`setSpeed` unchecked) `isChanged` holds, so `process` is given the modifiers
and executes line 1243; `%.2f` prints the value with 34 characters, the line
`speed: ...` needs 43 bytes with its NUL, and `getStatusMessage` writes them
into `tmp[40]`: the call overflows its buffer before the synthesis loop is
reached, in every run of `process` over the text `Hello`, with any engine.
With the speed 1.5 the message is `speed: 1.50` and fits. -/
theorem status_message_overflows_before_the_loop :
    Boilerplate.isChanged (Boilerplate.new.setSpeed 0x7149F2CA) = true ∧
    picoHuge.modifiers = some (Boilerplate.new.setSpeed 0x7149F2CA) ∧
    (0 : Int) ≤ picoHuge.total_text_length ∧
    sprintf_2f 0x7149F2CA = "1000000015047466219876688855040.00".toList ∧
    ("speed".toList ++ ": ".toList ++ sprintf_2f 0x7149F2CA ++ "\n".toList).length + 1 = 43 ∧
    Boilerplate.getStatusMessage (Boilerplate.new.setSpeed 0x7149F2CA) = none ∧
    (∀ {σ : Type} (W : World σ) (w : σ) (n : Nat), (process W picoHuge w n).status = none) ∧
    Boilerplate.getStatusMessage (Boilerplate.new.setSpeed 0x3FC00000) =
      some "speed: 1.50\n".toList ∧
    (∀ {σ : Type} (W : World σ) (w : σ) (n : Nat),
      (process W picoMarked w n).status = some "speed: 1.50\n".toList) :=
  ⟨by decide, by decide, by decide, by decide, by decide, by decide,
    fun W w n => (process_status W picoHuge w n).trans ((init0_status picoHuge w).trans (by decide)),
    by decide,
    fun W w n => (process_status W picoMarked w n).trans ((init0_status picoMarked w).trans (by decide))⟩

/-- C23: let the modifiers be what `getModifiers` returns after any sequence of
setter calls, the text length be `L ≥ 0` and the engine accept between 0 and
`size` bytes of each submission.  Without modifiers or with `L ≥ 1` every
submission has a `size` between 1 and 32767; so a submission of `size` 0 only
occurs with modifiers and `L = 0`.  Without modifiers and with `L = 0` the run
makes no engine call and no sink write at all and returns 0 (or -1 if the WAV
file cannot be opened).  With modifiers, `L = 0` and an engine that accepts
every offer whole, a normally ended run has made exactly three submissions:
the whole opener, zero bytes of the text, the whole closer. -/
theorem only_markup_with_empty_text_offers_zero_bytes {σ : Type} (W : World σ) (p : Pico)
    (w : σ) (cs : List (ValRef × F32))
    (hmk : p.modifiers = getModifiers (Boilerplate.applySetters Boilerplate.new cs))
    (h0 : 0 ≤ p.total_text_length) (hfresh : p.text_remaining = 0)
    (heng : ∀ w bytes size, 0 ≤ size →
      0 ≤ (W.pico_putTextUtf8 w bytes size).2.1 ∧ (W.pico_putTextUtf8 w bytes size).2.1 ≤ size) :
    ((p.modifiers = none ∨ 1 ≤ p.total_text_length) →
      ∀ n, ∀ a ∈ submissions (process W p w n).log, 1 ≤ a.size ∧ a.size ≤ 32767) ∧
    (∀ n, ∀ a ∈ submissions (process W p w n).log, a.size = 0 →
      p.modifiers.isSome = true ∧ p.total_text_length = 0) ∧
    (p.modifiers = none → p.total_text_length = 0 →
      ∀ n, (∀ e ∈ (process W p w n).log, e.isEngineCall = false ∧ e.isSinkWrite = false) ∧
        submissions (process W p w n).log = [] ∧ drainedFrags (process W p w n).log = [] ∧
        wavCalls (process W p w n).log = [] ∧ stdoutCalls (process W p w n).log = [] ∧
        playbackCalls (process W p w n).log = [] ∧
        ((process W p w (n + 1)).pc = Pc.returned 0 ∨
          (process W p w (n + 1)).pc = Pc.returned (-1))) ∧
    (p.modifiers.isSome = true → p.total_text_length = 0 →
      (∀ w bytes size,
        (W.pico_putTextUtf8 w bytes size).1 = 0 ∧ (W.pico_putTextUtf8 w bytes size).2.1 = size) →
      ∀ n r, (process W p w n).pc = Pc.returned r → 0 ≤ r →
        submissions (process W p w n).log =
          [⟨SRC_OPENER, 0, p.opener, p.opener.length, p.opener.length⟩,
           ⟨SRC_TEXT, 0, [], 0, 0⟩,
           ⟨SRC_CLOSER, 0, p.closer, p.closer.length, p.closer.length⟩] ∧
        (submissions (process W p w n).log).map (fun a => a.size) =
          [(p.opener.length : Int), 0, (p.closer.length : Int)] ∧
        1 ≤ p.opener.length ∧ 1 ≤ p.closer.length) := by
  obtain ⟨ho, hc, hne⟩ := markup_facts p cs hmk
  have ho' : p.opener.length ≤ 32767 := by omega
  have hc' : p.closer.length ≤ 32767 := by omega
  have hcl : p.modifiers.isSome = true → 1 ≤ p.closer.length := fun h => (hne h).2
  have hA : (p.modifiers = none ∨ 1 ≤ p.total_text_length) →
      ∀ n, ∀ a ∈ submissions (process W p w n).log, 1 ≤ a.size ∧ a.size ≤ 32767 :=
    fun hL1 n => (process_sizeInv W p w h0 hfresh ho' hc' hcl hL1 heng n).2.2
  refine ⟨hA, ?_, ?_, ?_⟩
  · intro n a ha hz
    by_contra hcon
    have hL1 : p.modifiers = none ∨ 1 ≤ p.total_text_length := by
      by_cases hm : p.modifiers = none
      · exact Or.inl hm
      · right
        by_contra hlt
        apply hcon
        refine ⟨?_, by omega⟩
        cases hmo : p.modifiers with
        | none => exact absurd hmo hm
        | some b => rfl
    have := (hA hL1 n a ha).1
    omega
  · intro hm hL n
    have hplain := process_empty_text_log W p w hm (le_of_eq hL) hfresh n
    obtain ⟨p1, p2, p3, p4, p5⟩ := plain_log_proj _ hplain
    refine ⟨hplain, p1, p2, p3, p4, p5, ?_⟩
    rcases process_empty_text W p w hm (le_of_eq hL) hfresh n with ⟨-, h⟩ | ⟨hpc, h⟩
    · left
      rw [h]
      show Pc.returned (wrap32 ((init W p w).bufused : Int)) = _
      rw [init_bufused]
      rfl
    · right
      rw [h]; exact hpc
  · intro hm hL hwhole n r hr hr0
    have hst := process_stageEmpty W p w ho' hc' (hne hm).1 hm hL hwhole n
    have hend : (process W p w n).do_endpad = false := by
      rcases (process_retInv W p w n).2 r hr with h | h | h | h
      · omega
      · omega
      · omega
      · exact h.2.2.2.2.2
    have hsubs : submissions (process W p w n).log = [openSub p, emptySub, closeSub p] := by
      rcases hst with h | h | h | h
      · have := congrArg FeedView.do_endpad h
        have : (process W p w n).do_endpad = true := this
        rw [hend] at this; cases this
      · have := congrArg FeedView.do_endpad h
        have : (process W p w n).do_endpad = true := this
        rw [hend] at this; cases this
      · have := congrArg FeedView.do_endpad h
        have : (process W p w n).do_endpad = true := this
        rw [hend] at this; cases this
      · exact congrArg FeedView.subs h
    refine ⟨hsubs, ?_, (hne hm).1, (hne hm).2⟩
    rw [hsubs]
    rfl

set_option maxRecDepth 100000 in
/-- Witness of C23: an empty text with speed 1.5; the three submissions offer
19, 0 and 8 bytes. -/
theorem only_markup_with_empty_text_offers_zero_bytes_witness :
    picoMarkedEmpty.modifiers =
      getModifiers (Boilerplate.applySetters Boilerplate.new [(ValRef.speed, 0x3FC00000)]) ∧
    picoMarkedEmpty.modifiers.isSome = true ∧ picoMarkedEmpty.total_text_length = 0 ∧
    (process toneWorld picoMarkedEmpty 0 16).pc = Pc.returned 128 ∧
    (submissions (process toneWorld picoMarkedEmpty 0 16).log).map (fun a => a.size) =
      [19, 0, 8] :=
  have heng : ∀ (w : Nat) (bytes : List Char) (size : Int), 0 ≤ size →
      0 ≤ (toneWorld.pico_putTextUtf8 w bytes size).2.1 ∧
        (toneWorld.pico_putTextUtf8 w bytes size).2.1 ≤ size :=
    fun _ _ _ h => ⟨h, le_refl _⟩
  ⟨by decide, by decide, by decide, by decide,
    ((only_markup_with_empty_text_offers_zero_bytes toneWorld picoMarkedEmpty 0
      [(ValRef.speed, 0x3FC00000)] (by decide) (by decide) (by decide) heng).2.2.2
      (by decide) (by decide) (fun _ _ _ => ⟨rfl, rfl⟩) 16 128 (by decide) (by decide)).2.1⟩

set_option maxRecDepth 100000 in
/-- C17 does not hold as stated: a `Pico` as constructed, given an empty text
and no modifiers, with the WAV file and stdout as sinks, returns 0 after
opening and closing the WAV file and reading its size, and nothing else: no
flush is made. -/
theorem empty_text_run_makes_no_flush :
    picoEmpty.pico_writeWavPcm = true ∧ picoEmpty.stdoutOn = true ∧
    (process (scriptWorld 100) picoEmpty [] 1).pc = Pc.returned 0 ∧
    (process (scriptWorld 100) picoEmpty [] 1).log =
      [Event.sdfOpenOut true, Event.sdfCloseOut, Event.fileSize 0] ∧
    wavCalls (process (scriptWorld 100) picoEmpty [] 1).log = [] ∧
    stdoutCalls (process (scriptWorld 100) picoEmpty [] 1).log = [] := by
  decide

/-- C17 (as corrected): `process` makes no flush of its own at the loop exit.  A
run that ended normally after at least one submission has as its last calls
the flush that followed the last idle drain, which wrote the accumulator as it
stands at the return to each active sink, and then, if the WAV file was open,
its close and the read of its size; so each active sink was written at least
once.  A run (of a `Pico` whose `text_remaining` was 0) that ended normally
without any submission is one without modifiers and with a text length of 0 or
less, and it wrote no sink at all.  With an engine that yields no PCM the fill
count stays 0, the result is 0 and every write to a sink is one of 0 samples. -/
theorem last_flush_precedes_close {σ : Type} (W : World σ) (p : Pico) (w : σ) (n : Nat)
    (r : Int) (hr : (process W p w n).pc = Pc.returned r) (h0 : 0 ≤ r) :
    (submissions (process W p w n).log ≠ [] →
      ∃ pre a cl, (process W p w n).log = pre ++ flushEvents W p a ++ cl ∧
        (a.bufused : Int) = r ∧ a.bufused = (process W p w n).bufused ∧
        a.pcm_buffer = (process W p w n).pcm_buffer ∧
        (cl = [] ∨
          cl = [Event.sdfCloseOut, Event.fileSize (W.fileSize (process W p w n).world)]) ∧
        (p.pico_writeWavPcm = true →
          cl = [Event.sdfCloseOut, Event.fileSize (W.fileSize (process W p w n).world)]) ∧
        SinkAgree p (flushEvents W p a) [(a.pcm_buffer, a.bufused / 2)] ∧
        (p.pico_writeWavPcm = true → wavCalls (process W p w n).log ≠ []) ∧
        (p.stdoutOn = true → stdoutCalls (process W p w n).log ≠ []) ∧
        (p.playbackOn = true → playbackCalls (process W p w n).log ≠ [])) ∧
    (submissions (process W p w n).log = [] → p.text_remaining = 0 →
      p.modifiers = none ∧ p.total_text_length ≤ 0 ∧
      wavCalls (process W p w n).log = [] ∧ stdoutCalls (process W p w n).log = [] ∧
      playbackCalls (process W p w n).log = []) ∧
    ((∀ w, (W.pico_getData w).2.1 = []) →
      (process W p w n).bufused = 0 ∧ r = 0 ∧
      (∀ c ∈ wavCalls (process W p w n).log, c.2 = 0) ∧
      (∀ c ∈ stdoutCalls (process W p w n).log, c.2 = 0) ∧
      (∀ c ∈ playbackCalls (process W p w n).log, c.2 = 0)) := by
  have hret : r = (process W p w n).bufused ∧ (process W p w n).do_startpad = false ∧
      (process W p w n).text_length ≤ 0 := by
    rcases (process_retInv W p w n).2 r hr with h | h | h | h
    · omega
    · omega
    · omega
    · exact ⟨h.2.1, h.2.2.2.1, h.2.2.2.2.1⟩
  refine ⟨?_, ?_, ?_⟩
  · intro hne
    rcases (process_tailInv W p w n).2.1 r hr h0 with h | ⟨pre, a, cl, h1, h2, h3, h4, h5⟩
    · exact absurd h hne
    · obtain ⟨a1, a2, a3⟩ := flushEvents_sinkAgree W p a
      refine ⟨pre, a, cl, h1, by rw [h2]; exact hret.1.symm, h2, h3, h4, h5, ⟨a1, a2, a3⟩,
        ?_, ?_, ?_⟩
      · intro hw
        rw [h1, wavCalls_append, wavCalls_append, a1, if_pos hw]
        simp
      · intro hw
        rw [h1, stdoutCalls_append, stdoutCalls_append, a2, if_pos hw]
        simp
      · intro hw
        rw [h1, playbackCalls_append, playbackCalls_append, a3, if_pos hw]
        simp
  · intro hnil hfresh
    have hv := process_noSubs W p w n hnil
    rw [feedView_init] at hv
    have hsp : (process W p w n).do_startpad = (init0 p w : PState σ).do_startpad :=
      congrArg FeedView.do_startpad hv
    have htl : (process W p w n).text_length = (init0 p w : PState σ).text_length :=
      congrArg FeedView.text_length hv
    have hm : p.modifiers = none := by
      cases hmo : p.modifiers with
      | none => rfl
      | some b =>
        exfalso
        unfold init0 at hsp
        rw [hmo] at hsp
        rw [hret.2.1] at hsp
        cases hsp
    have hL : p.total_text_length ≤ 0 := by
      have : (init0 p w : PState σ).text_length = p.total_text_length := by
        unfold init0
        rw [hm]
      rw [← this, ← htl]
      exact hret.2.2
    obtain ⟨-, -, p3, p4, p5⟩ :=
      plain_log_proj _ (process_empty_text_log W p w hm hL hfresh n)
    exact ⟨hm, hL, p3, p4, p5⟩
  · intro hsil
    obtain ⟨z0, z1, z2, z3⟩ := process_silentInv W p hsil w n
    refine ⟨z0, ?_, z1, z2, z3⟩
    rw [hret.1, z0]
    rfl

set_option maxRecDepth 100000 in
/-- Witness of C17: the text `Hello` to stdout; the run returns 128 after one
submission, and stdout has been written. -/
theorem last_flush_precedes_close_witness :
    (process toneWorld picoHello 0 6).pc = Pc.returned 128 ∧
    submissions (process toneWorld picoHello 0 6).log ≠ [] ∧
    stdoutCalls (process toneWorld picoHello 0 6).log ≠ [] :=
  ⟨by decide, by decide,
    Exists.elim
      ((last_flush_precedes_close toneWorld picoHello 0 6 128 (by decide) (by decide)).1
        (by decide))
      (fun _ h1 => Exists.elim h1 (fun _ h2 => Exists.elim h2 (fun _ h3 =>
        h3.2.2.2.2.2.2.2.2.1 (by decide))))⟩

set_option maxRecDepth 100000 in
/-- C13 does not hold as stated: the text `Hello` with the WAV file and stdout as
sinks and one idle drain of two bytes.  With a WAV sink whose write fails (it
returns `FALSE` and leaves zeros in the file instead of the samples) the run
returns 2 and reports a file of 2 bytes, exactly as the run whose write
succeeds does; the two runs make the same calls with the same arguments and
differ only in the result recorded for the write, which nothing reads. -/
theorem failed_wav_write_is_not_reported :
    failedWavCalls (process (diskWorld 100 zeroWrite) picoWav
      ([(PICO_STEP_IDLE, [1, 2])], []) 3).log = [(1 :: 2 :: List.replicate 254 0, 1)] ∧
    failedWavCalls (process (diskWorld 100 goodWrite) picoWav
      ([(PICO_STEP_IDLE, [1, 2])], []) 3).log = [] ∧
    (process (diskWorld 100 zeroWrite) picoWav ([(PICO_STEP_IDLE, [1, 2])], []) 3).world.2 =
      [0, 0] ∧
    (process (diskWorld 100 goodWrite) picoWav ([(PICO_STEP_IDLE, [1, 2])], []) 3).world.2 =
      [1, 2] ∧
    (process (diskWorld 100 zeroWrite) picoWav ([(PICO_STEP_IDLE, [1, 2])], []) 3).pc =
      Pc.returned 2 ∧
    (process (diskWorld 100 goodWrite) picoWav ([(PICO_STEP_IDLE, [1, 2])], []) 3).pc =
      Pc.returned 2 ∧
    (process (diskWorld 100 zeroWrite) picoWav ([(PICO_STEP_IDLE, [1, 2])], []) 3).log.getLast? =
      some (Event.fileSize 2) ∧
    (process (diskWorld 100 goodWrite) picoWav ([(PICO_STEP_IDLE, [1, 2])], []) 3).log.getLast? =
      some (Event.fileSize 2) ∧
    (process (diskWorld 100 zeroWrite) picoWav
        ([(PICO_STEP_IDLE, [1, 2])], []) 3).log.map Event.eraseOk =
      (process (diskWorld 100 goodWrite) picoWav
        ([(PICO_STEP_IDLE, [1, 2])], []) 3).log.map Event.eraseOk := by
  decide

/-- C13 (as corrected): no failure of a sink write is recorded or reported.  Take
two outside worlds whose states are related by `R`, in which the engine and
the opening of the WAV file answer alike and keep `R`, and whose writes to the
WAV file may return and do anything that keeps `R` (in one they may succeed,
in the other fail and lose the data).  Then after every number of steps the two
runs of `process` are at the same control point, with the same return value
once returned, the same fill count, buffer and status message, and they have
made the same calls with the same arguments: the same submissions, drains,
copies, and the same writes to the WAV file, to stdout and to the playback
device.  The two logs differ at most in the result recorded for a WAV write,
which is stored in `done` and never read, and in the size of the file that is
read back after the close and printed. -/
theorem outcome_ignores_sink_results {σ τ : Type} (W : World σ) (V : World τ)
    (R : σ → τ → Prop) (p : Pico) (w : σ) (v : τ) (hw : R w v)
    (hput : ∀ a b bytes size, R a b →
      (W.pico_putTextUtf8 a bytes size).1 = (V.pico_putTextUtf8 b bytes size).1 ∧
      (W.pico_putTextUtf8 a bytes size).2.1 = (V.pico_putTextUtf8 b bytes size).2.1 ∧
      R (W.pico_putTextUtf8 a bytes size).2.2 (V.pico_putTextUtf8 b bytes size).2.2)
    (hget : ∀ a b, R a b →
      (W.pico_getData a).1 = (V.pico_getData b).1 ∧
      (W.pico_getData a).2.1 = (V.pico_getData b).2.1 ∧
      R (W.pico_getData a).2.2 (V.pico_getData b).2.2)
    (hopen : ∀ a b, R a b →
      (W.picoos_sdfOpenOut a).1 = (V.picoos_sdfOpenOut b).1 ∧
      R (W.picoos_sdfOpenOut a).2 (V.picoos_sdfOpenOut b).2)
    (hsink : ∀ a b n buf, R a b →
      R (W.picoos_sdfPutSamples a n buf).2 (V.picoos_sdfPutSamples b n buf).2)
    (n : Nat) :
    (process W p w n).pc = (process V p v n).pc ∧
    (process W p w n).bufused = (process V p v n).bufused ∧
    (process W p w n).pcm_buffer = (process V p v n).pcm_buffer ∧
    (process W p w n).status = (process V p v n).status ∧
    R (process W p w n).world (process V p v n).world ∧
    (process W p w n).log.map Event.eraseSink = (process V p v n).log.map Event.eraseSink ∧
    submissions (process W p w n).log = submissions (process V p v n).log ∧
    drainedFrags (process W p w n).log = drainedFrags (process V p v n).log ∧
    copies (process W p w n).log = copies (process V p v n).log ∧
    wavCalls (process W p w n).log = wavCalls (process V p v n).log ∧
    stdoutCalls (process W p w n).log = stdoutCalls (process V p v n).log ∧
    playbackCalls (process W p w n).log = playbackCalls (process V p v n).log := by
  have h := sameRun_process W V R p w v hw hput hget hopen hsink n
  obtain ⟨a1, a2, a3, a4, a5, a6⟩ := eraseSink_proj (process W p w n).log
  obtain ⟨b1, b2, b3, b4, b5, b6⟩ := eraseSink_proj (process V p v n).log
  have hl := h.log
  exact ⟨h.pc, h.bufused, h.pcm_buffer, h.status, h.world, hl, by rw [← a1, hl, b1],
    by rw [← a2, hl, b2], by rw [← a3, hl, b3], by rw [← a4, hl, b4], by rw [← a5, hl, b5],
    by rw [← a6, hl, b6]⟩

set_option maxRecDepth 100000 in
/-- Witness of C13: the text `Hello` with the WAV file and stdout as sinks and
one idle drain of two bytes, once with a WAV sink that stores what it is given
and once with one whose write fails and stores nothing; the worlds are related
by having the same engine state.  Both runs return 2 and give stdout the same
write; the failed write shows only in the size read back, 0 instead of 2. -/
theorem outcome_ignores_sink_results_witness :
    failedWavCalls (process (diskWorld 100 lostWrite) picoWav
      ([(PICO_STEP_IDLE, [1, 2])], []) 3).log ≠ [] ∧
    failedWavCalls (process (diskWorld 100 goodWrite) picoWav
      ([(PICO_STEP_IDLE, [1, 2])], []) 3).log = [] ∧
    (process (diskWorld 100 goodWrite) picoWav ([(PICO_STEP_IDLE, [1, 2])], []) 3).log.getLast? =
      some (Event.fileSize 2) ∧
    (process (diskWorld 100 lostWrite) picoWav ([(PICO_STEP_IDLE, [1, 2])], []) 3).log.getLast? =
      some (Event.fileSize 0) ∧
    (process (diskWorld 100 goodWrite) picoWav ([(PICO_STEP_IDLE, [1, 2])], []) 3).pc =
      Pc.returned 2 ∧
    (process (diskWorld 100 goodWrite) picoWav ([(PICO_STEP_IDLE, [1, 2])], []) 3).pc =
      (process (diskWorld 100 lostWrite) picoWav ([(PICO_STEP_IDLE, [1, 2])], []) 3).pc ∧
    stdoutCalls (process (diskWorld 100 goodWrite) picoWav
        ([(PICO_STEP_IDLE, [1, 2])], []) 3).log =
      stdoutCalls (process (diskWorld 100 lostWrite) picoWav
        ([(PICO_STEP_IDLE, [1, 2])], []) 3).log :=
  have hget : ∀ (a b : List (Int × List Nat) × List Nat), a.1 = b.1 →
      ((diskWorld 100 goodWrite).pico_getData a).1 = ((diskWorld 100 lostWrite).pico_getData b).1 ∧
      ((diskWorld 100 goodWrite).pico_getData a).2.1 =
        ((diskWorld 100 lostWrite).pico_getData b).2.1 ∧
      ((diskWorld 100 goodWrite).pico_getData a).2.2.1 =
        ((diskWorld 100 lostWrite).pico_getData b).2.2.1 := by
    intro a b h
    obtain ⟨a1, a2⟩ := a
    obtain ⟨b1, b2⟩ := b
    cases h
    cases a1 <;> exact ⟨rfl, rfl, rfl⟩
  ⟨by decide, by decide, by decide, by decide, by decide,
    (outcome_ignores_sink_results (diskWorld 100 goodWrite) (diskWorld 100 lostWrite)
      (fun a b => a.1 = b.1) picoWav ([(PICO_STEP_IDLE, [1, 2])], [])
      ([(PICO_STEP_IDLE, [1, 2])], []) rfl (fun _ _ _ _ h => ⟨rfl, rfl, h⟩) hget
      (fun _ _ h => ⟨rfl, h⟩) (fun _ _ _ _ h => h) 3).1,
    (outcome_ignores_sink_results (diskWorld 100 goodWrite) (diskWorld 100 lostWrite)
      (fun a b => a.1 = b.1) picoWav ([(PICO_STEP_IDLE, [1, 2])], [])
      ([(PICO_STEP_IDLE, [1, 2])], []) rfl (fun _ _ _ _ h => ⟨rfl, rfl, h⟩) hget
      (fun _ _ h => ⟨rfl, h⟩) (fun _ _ _ _ h => h) 3).2.2.2.2.2.2.2.2.2.2.1⟩

/-- C14: let the modifiers be what `getModifiers` returns after any sequence of
setter calls, the text length be `L ≥ 0`.  With any engine, the source of the
submissions never goes back (opener, then text, then closer); without modifiers
every submission is of the text; with modifiers the first submission offers the
whole opener.  With an engine that accepts every offer whole, a run with
modifiers that ended normally has submitted the whole opener once, then at
least one chunk of the text (also for `L = 0`), then the whole closer once, and
nothing else; and once the closer has been submitted the next pass leaves the
loop. -/
theorem chunk_kinds_go_forward {σ : Type} (W : World σ) (p : Pico) (w : σ)
    (cs : List (ValRef × F32))
    (hmk : p.modifiers = getModifiers (Boilerplate.applySetters Boilerplate.new cs))
    (h0 : 0 ≤ p.total_text_length) (hfresh : p.text_remaining = 0) (n : Nat) :
    List.Chain' (fun a b : Submission => a.src ≤ b.src) (submissions (process W p w n).log) ∧
    (∀ a ∈ submissions (process W p w n).log,
      a.src = SRC_OPENER ∨ a.src = SRC_TEXT ∨ a.src = SRC_CLOSER) ∧
    (p.modifiers = none → ∀ a ∈ submissions (process W p w n).log, a.src = SRC_TEXT) ∧
    (p.modifiers.isSome = true →
      submissions (process W p w n).log = [] ∨
      ∃ sent rest, submissions (process W p w n).log =
        ⟨SRC_OPENER, 0, p.opener, p.opener.length, sent⟩ :: rest) ∧
    ((∀ w bytes size,
        (W.pico_putTextUtf8 w bytes size).1 = 0 ∧ (W.pico_putTextUtf8 w bytes size).2.1 = size) →
      (∀ r, (process W p w n).pc = Pc.returned r → 0 ≤ r → p.modifiers.isSome = true →
        ∃ body, submissions (process W p w n).log =
          [⟨SRC_OPENER, 0, p.opener, p.opener.length, p.opener.length⟩] ++ body ++
            [⟨SRC_CLOSER, 0, p.closer, p.closer.length, p.closer.length⟩] ∧
          body ≠ [] ∧ ∀ a ∈ body, a.src = SRC_TEXT) ∧
      ((process W p w n).pc = Pc.feed → (process W p w n).inpSrc = SRC_CLOSER →
        (process W p w (n + 1)).pc = Pc.returned (wrap32 (process W p w n).bufused))) := by
  obtain ⟨ho, hc, hne⟩ := markup_facts p cs hmk
  have ho' : p.opener.length ≤ 32767 := by omega
  have hc' : p.closer.length ≤ 32767 := by omega
  have hne1 : p.modifiers.isSome = true → 1 ≤ p.opener.length := fun h => (hne h).1
  obtain ⟨k1, -, -, -, k7, k5, k6⟩ := process_kindInv W p w ho' hne1 n
  refine ⟨k1, ?_, fun hm => (k5 hm).2.2.2, ?_, ?_⟩
  · intro a ha
    have := k7 a ha
    unfold SRC_CLOSER at this
    unfold SRC_OPENER SRC_TEXT SRC_CLOSER
    omega
  · intro hm
    rcases k6 hm with h | h
    · exact Or.inl h.1
    · exact Or.inr h
  · intro hwhole
    have hwv := process_wholeV W p w h0 hfresh ho' hc' hne1 hwhole n
    constructor
    · intro r hr hr0 hm
      have hbrk : (process W p w n).do_startpad = false ∧ (process W p w n).do_endpad = false := by
        rcases (process_retInv W p w n).2 r hr with h | h | h | h
        · omega
        · omega
        · omega
        · exact ⟨h.2.2.2.1, h.2.2.2.2.2⟩
      rcases hwv with ⟨-, a2, -⟩ | ⟨-, -, c3, -⟩ | ⟨-, -, -, -, -, body, d1, d2, d3⟩
      · have : (process W p w n).do_startpad = true := a2
        rw [hbrk.1] at this
        cases this
      · have : (process W p w n).do_endpad = p.modifiers.isSome := c3
        rw [hbrk.2, hm] at this
        cases this
      · exact ⟨body, d1, d3, d2⟩
    · intro hpc hsrc
      have hnone : selectV p (feedView (process W p w n)) = none := by
        rcases hwv with ⟨a1, -⟩ | ⟨c1, -⟩ | ⟨-, c2, c3, c4, c5, -⟩
        · have : (process W p w n).inpSrc = SRC_OPENER := a1
          rw [hsrc] at this
          exact absurd this (by decide)
        · have : (process W p w n).inpSrc = SRC_TEXT := c1
          rw [hsrc] at this
          exact absurd this (by decide)
        · unfold selectV
          rw [if_pos (le_of_eq c4), if_neg (by rw [c2]; decide), if_pos c5,
            if_neg (by rw [c3]; decide)]
      have hsel := selectChunk_none_of_view p _ hnone
      rw [process_succ, step_feed W p _ hpc]
      unfold stepFeed
      rw [hsel]
      rfl

set_option maxRecDepth 100000 in
/-- Witness of C14: the text `Hello` with speed 1.5 and an engine that accepts
every offer whole; the sources of the three submissions are opener, text,
closer. -/
theorem chunk_kinds_go_forward_witness :
    picoMarked.modifiers =
      getModifiers (Boilerplate.applySetters Boilerplate.new [(ValRef.speed, 0x3FC00000)]) ∧
    (process toneWorld picoMarked 0 16).pc = Pc.returned 128 ∧
    (submissions (process toneWorld picoMarked 0 16).log).map (fun a => a.src) =
      [SRC_OPENER, SRC_TEXT, SRC_CLOSER] ∧
    List.Chain' (fun a b : Submission => a.src ≤ b.src)
      (submissions (process toneWorld picoMarked 0 16).log) :=
  ⟨by decide, by decide, by decide,
    (chunk_kinds_go_forward toneWorld picoMarked 0 [(ValRef.speed, 0x3FC00000)] (by decide)
      (by decide) (by decide) 16).1⟩

end NanoTTS
